import Mathlib

/-!
DataValue / DataValueArray binary codec (package `datatypes`, file `data-value.go`)

A shallow embedding of the Go codec.

* A byte is a `Nat` below 256, a `uint16`/`uint32` a `Nat` below `2^16`/`2^32`, an `int32`
  an `Int`; a Go `int` (buffer offsets and lengths) is an unbounded `Nat`.
* A Go slice is a `Slice`: the backing array seen from the slice's first element up to
  its capacity, together with the slice's length.  Index expressions are checked against
  the length, slice expressions `b[lo:hi]` against the capacity, as the Go language does.
* A Go call ends in an `Outcome`: a normal return, a returned non-nil `error`, or a
  run-time panic.
* The `Variant` type and the timestamp helpers of package `utils` live outside
  `data-value.go`; they are taken as a parameter (`Collab`).
* Pointers to a `DataValue` (method receivers, array elements) are taken to be non-nil;
  the `*Variant` field may be nil (`Option`).
-/

namespace Gopcua

/-- Go run-time panics relevant to the codec. -/
inductive Fault where
  | indexOutOfRange
  | sliceBoundsOutOfRange
  | nilDereference
  deriving DecidableEq, Repr

/-- How a Go call ends: normal return `ok`, a returned non-nil error `err`,
or a run-time panic `fault`. -/
inductive Outcome (E α : Type) where
  | ok (a : α)
  | err (e : E)
  | fault (f : Fault)
  deriving DecidableEq, Repr

/-- Sequencing of Go calls: an error or a panic of the first call ends the computation. -/
def Outcome.bind {E α β : Type} (x : Outcome E α) (f : α → Outcome E β) : Outcome E β :=
  match x with
  | .ok a => f a
  | .err e => .err e
  | .fault p => .fault p

instance {E : Type} : Monad (Outcome E) where
  pure := Outcome.ok
  bind := Outcome.bind

/-- Whether the call returned normally. -/
def Outcome.isOk {E α : Type} : Outcome E α → Bool
  | .ok _ => true
  | _ => false

/-- Whether the call ended in a run-time panic. -/
def Outcome.isFault {E α : Type} : Outcome E α → Bool
  | .fault _ => true
  | _ => false

/-- Whether the call returned a non-nil error. -/
def Outcome.isErr {E α : Type} : Outcome E α → Bool
  | .err _ => true
  | _ => false

/-- A Go `[]byte`: `arr` is the backing array from the slice's first element up to its
capacity, `len` the slice's length. -/
structure Slice where
  arr : List Nat
  len : Nat
  deriving DecidableEq, Repr

/-- The Go builtin `cap(b)`. -/
def Slice.cap (b : Slice) : Nat := b.arr.length

/-- A slice is well formed when its length does not exceed its capacity. -/
def Slice.WF (b : Slice) : Prop := b.len ≤ b.arr.length

instance (b : Slice) : Decidable b.WF := by unfold Slice.WF; infer_instance

/-- The Go expression `make([]byte, n)`: `n` zero bytes, capacity `n`. -/
def Slice.make (n : Nat) : Slice := ⟨List.replicate n 0, n⟩

/-- A slice holding exactly the bytes `l`, with no spare capacity (a byte literal). -/
def Slice.ofBytes (l : List Nat) : Slice := ⟨l, l.length⟩

/-- The elements of the slice: the first `len` bytes of the backing array. -/
def Slice.bytes (b : Slice) : List Nat := b.arr.take b.len

/-- The Go expression `b[i]`, checked against `len(b)`. -/
def Slice.index {E : Type} (b : Slice) (i : Nat) : Outcome E Nat :=
  if i < b.len then .ok (b.arr.getD i 0) else .fault .indexOutOfRange

/-- The Go statement `b[i] = x`, checked against `len(b)`. -/
def Slice.store {E : Type} (b : Slice) (i x : Nat) : Outcome E Slice :=
  if i < b.len then .ok ⟨b.arr.set i x, b.len⟩ else .fault .indexOutOfRange

/-- The Go expression `b[lo:]`: the upper bound defaults to `len(b)`. -/
def Slice.sliceFrom {E : Type} (b : Slice) (lo : Nat) : Outcome E Slice :=
  if lo ≤ b.len then .ok ⟨b.arr.drop lo, b.len - lo⟩ else .fault .sliceBoundsOutOfRange

/-- The Go expression `b[lo:hi]`: the upper bound is checked against `cap(b)`. -/
def Slice.slice {E : Type} (b : Slice) (lo hi : Nat) : Outcome E Slice :=
  if lo ≤ hi ∧ hi ≤ b.cap then .ok ⟨b.arr.drop lo, hi - lo⟩ else .fault .sliceBoundsOutOfRange

/-- Aliasing: after a callee wrote through the view `b[lo:...]`, whose backing array is
now `sub`, the backing array of `b` is its first `lo` bytes followed by `sub`.  A callee
writes in place: the capacity of `b` does not change. -/
def Slice.patch (b : Slice) (lo : Nat) (sub : List Nat) : Slice :=
  ⟨(b.arr.take lo ++ sub ++ b.arr.drop (lo + sub.length)).take b.arr.length, b.len⟩

/-- The bytes of `binary.LittleEndian.PutUint16`. -/
def le16 (v : Nat) : List Nat := [v % 256, v / 256 % 256]

/-- The bytes of `binary.LittleEndian.PutUint32`. -/
def le32 (v : Nat) : List Nat :=
  [v % 256, v / 256 % 256, v / 65536 % 256, v / 16777216 % 256]

/-- The bytes of `binary.LittleEndian.PutUint64`. -/
def le64 (v : Nat) : List Nat :=
  le32 (v % 4294967296) ++ le32 (v / 4294967296)

/-- Go `binary.LittleEndian.PutUint16(s, v)`: bounds check `_ = s[1]`, then two stores.
Returns the backing array of `s` after the call. -/
def PutUint16 {E : Type} (s : Slice) (v : Nat) : Outcome E (List Nat) :=
  if 1 < s.len then .ok (le16 v ++ s.arr.drop 2) else .fault .indexOutOfRange

/-- Go `binary.LittleEndian.PutUint32(s, v)`: bounds check `_ = s[3]`, then four stores. -/
def PutUint32 {E : Type} (s : Slice) (v : Nat) : Outcome E (List Nat) :=
  if 3 < s.len then .ok (le32 v ++ s.arr.drop 4) else .fault .indexOutOfRange

/-- Go `binary.LittleEndian.PutUint64(s, v)`: bounds check `_ = s[7]`, then eight stores. -/
def PutUint64 {E : Type} (s : Slice) (v : Nat) : Outcome E (List Nat) :=
  if 7 < s.len then .ok (le64 v ++ s.arr.drop 8) else .fault .indexOutOfRange

/-- The byte at position `i` of a backing array, as an unsigned 8-bit value. -/
def byteAt (l : List Nat) (i : Nat) : Nat := l.getD i 0 % 256

/-- The value read by `binary.LittleEndian.Uint16` from the first two bytes. -/
def rd16 (l : List Nat) : Nat := byteAt l 0 + 256 * byteAt l 1

/-- The value read by `binary.LittleEndian.Uint32` from the first four bytes. -/
def rd32 (l : List Nat) : Nat :=
  byteAt l 0 + 256 * byteAt l 1 + 65536 * byteAt l 2 + 16777216 * byteAt l 3

/-- The value read by `binary.LittleEndian.Uint64` from the first eight bytes. -/
def rd64 (l : List Nat) : Nat := rd32 l + 4294967296 * rd32 (l.drop 4)

/-- Go `binary.LittleEndian.Uint16(s)`: bounds check `_ = s[1]`. -/
def Uint16 {E : Type} (s : Slice) : Outcome E Nat :=
  if 1 < s.len then .ok (rd16 s.arr) else .fault .indexOutOfRange

/-- Go `binary.LittleEndian.Uint32(s)`: bounds check `_ = s[3]`. -/
def Uint32 {E : Type} (s : Slice) : Outcome E Nat :=
  if 3 < s.len then .ok (rd32 s.arr) else .fault .indexOutOfRange

/-- Go `binary.LittleEndian.Uint64(s)`: bounds check `_ = s[7]`. -/
def Uint64 {E : Type} (s : Slice) : Outcome E Nat :=
  if 7 < s.len then .ok (rd64 s.arr) else .fault .indexOutOfRange

/-- The Go conversion `int32(x)` of an unsigned 32-bit value (two's complement). -/
def toInt32 (x : Nat) : Int :=
  if x % 4294967296 < 2147483648 then (x % 4294967296 : Nat)
  else ((x % 4294967296 : Nat) : Int) - 4294967296

/-- The Go conversion `uint32(x)` of an `int32`. -/
def toUint32 (x : Int) : Nat := (x % 4294967296).toNat

/-- The collaborators of the codec that are defined outside `data-value.go`:
the methods of `*Variant` and the timestamp helpers of package `utils`.

* `VariantLen v`, `VariantSerializeTo v s`: the methods `Len` and `SerializeTo` on a
  non-nil receiver holding `v`; `SerializeTo` yields the backing array of `s` after the call.
* `VariantDecodeFromBytes s`: the method `DecodeFromBytes` on a fresh `&Variant{}`; yields
  the variant it holds after the call.
* `VariantNilSerializeTo`, `VariantNilLen`: the same two methods called on a nil receiver
  (`none`: the call panics).
* `TimestampTicks`, `TimestampOfTicks`: the conversion between a `time.Time` and the
  unsigned 64-bit tick count that `utils.EncodeTimestamp` stores little-endian in its
  8-byte argument and `utils.DecodeTimestamp` reads back.
* `zeroTime`: the zero value of `time.Time`. -/
structure Collab (V T E : Type) where
  VariantLen : V → Nat
  VariantSerializeTo : V → Slice → Outcome E (List Nat)
  VariantDecodeFromBytes : Slice → Outcome E V
  VariantNilSerializeTo : Slice → Outcome E (List Nat)
  VariantNilLen : Option Nat
  TimestampTicks : T → Nat
  TimestampOfTicks : Nat → T
  zeroTime : T

/-- The Go struct `DataValue`. -/
structure DataValue (V T : Type) where
  EncodingMask : Nat
  Value : Option V
  Status : Nat
  SourceTimestamp : T
  SourcePicoSeconds : Nat
  ServerTimestamp : T
  ServerPicoSeconds : Nat
  deriving DecidableEq, Repr

variable {V T E : Type}

/-- Go `HasValue`: `d.EncodingMask&0x1 == 1`. -/
def DataValue.HasValue (d : DataValue V T) : Bool := d.EncodingMask &&& 0x1 == 1

/-- Go `SetValueFlag`: `d.EncodingMask |= 0x1`. -/
def DataValue.SetValueFlag (d : DataValue V T) : DataValue V T :=
  { d with EncodingMask := d.EncodingMask ||| 0x1 }

/-- Go `HasStatus`: `(d.EncodingMask>>1)&0x1 == 1`. -/
def DataValue.HasStatus (d : DataValue V T) : Bool := (d.EncodingMask >>> 1) &&& 0x1 == 1

/-- Go `SetStatusFlag`: `d.EncodingMask |= 0x2`. -/
def DataValue.SetStatusFlag (d : DataValue V T) : DataValue V T :=
  { d with EncodingMask := d.EncodingMask ||| 0x2 }

/-- Go `HasSourceTimestamp`: `(d.EncodingMask>>2)&0x1 == 1`. -/
def DataValue.HasSourceTimestamp (d : DataValue V T) : Bool :=
  (d.EncodingMask >>> 2) &&& 0x1 == 1

/-- Go `SetSourceTimestampFlag`: `d.EncodingMask |= 0x4`. -/
def DataValue.SetSourceTimestampFlag (d : DataValue V T) : DataValue V T :=
  { d with EncodingMask := d.EncodingMask ||| 0x4 }

/-- Go `HasServerTimestamp`: `(d.EncodingMask>>3)&0x1 == 1`. -/
def DataValue.HasServerTimestamp (d : DataValue V T) : Bool :=
  (d.EncodingMask >>> 3) &&& 0x1 == 1

/-- Go `SetServerTimestampFlag`: `d.EncodingMask |= 0x8`. -/
def DataValue.SetServerTimestampFlag (d : DataValue V T) : DataValue V T :=
  { d with EncodingMask := d.EncodingMask ||| 0x8 }

/-- Go `HasSourcePicoSeconds`: `(d.EncodingMask>>4)&0x1 == 1`. -/
def DataValue.HasSourcePicoSeconds (d : DataValue V T) : Bool :=
  (d.EncodingMask >>> 4) &&& 0x1 == 1

/-- Go `SetSourcePicoSecondsFlag`: `d.EncodingMask |= 0x10`. -/
def DataValue.SetSourcePicoSecondsFlag (d : DataValue V T) : DataValue V T :=
  { d with EncodingMask := d.EncodingMask ||| 0x10 }

/-- Go `HasServerPicoSeconds`: `(d.EncodingMask>>5)&0x1 == 1`. -/
def DataValue.HasServerPicoSeconds (d : DataValue V T) : Bool :=
  (d.EncodingMask >>> 5) &&& 0x1 == 1

/-- Go `SetServerPicoSecondsFlag`: `d.EncodingMask |= 0x20`. -/
def DataValue.SetServerPicoSecondsFlag (d : DataValue V T) : DataValue V T :=
  { d with EncodingMask := d.EncodingMask ||| 0x20 }

/-- Go `NewDataValue`: the six fields are stored, then the flag setters are applied in the
order Value, Status, SourceTimestamp, SourcePicoSeconds, ServerTimestamp,
ServerPicoSeconds. -/
def NewDataValue (hasValue hasStatus hasSrcTs hasSrcPs hasSvrTs hasSvrPs : Bool)
    (v : Option V) (status : Nat) (srcTs : T) (srcPs : Nat) (svrTs : T) (svrPs : Nat) :
    DataValue V T :=
  let d : DataValue V T :=
    { EncodingMask := 0, Value := v, Status := status, SourceTimestamp := srcTs,
      SourcePicoSeconds := srcPs, ServerTimestamp := svrTs, ServerPicoSeconds := svrPs }
  let d := if hasValue then d.SetValueFlag else d
  let d := if hasStatus then d.SetStatusFlag else d
  let d := if hasSrcTs then d.SetSourceTimestampFlag else d
  let d := if hasSrcPs then d.SetSourcePicoSecondsFlag else d
  let d := if hasSvrTs then d.SetServerTimestampFlag else d
  let d := if hasSvrPs then d.SetServerPicoSecondsFlag else d
  d

/-- Go `(*DataValue).Len`. -/
def DataValue.Len (c : Collab V T E) (d : DataValue V T) : Nat :=
  let length := 1
  let length := if d.HasValue then
      (match d.Value with
       | some v => length + c.VariantLen v
       | none => length)
    else length
  let length := if d.HasStatus then length + 4 else length
  let length := if d.HasSourceTimestamp then length + 8 else length
  let length := if d.HasSourcePicoSeconds then length + 2 else length
  let length := if d.HasServerTimestamp then length + 8 else length
  let length := if d.HasServerPicoSeconds then length + 2 else length
  length

/-- Modelled from the spec: `utils.EncodeTimestamp(s, t)`, defined in package `utils`
outside `data-value.go`.  The timestamp codec converts a calendar timestamp to an 8-byte
tick counter; the ticks are stored little-endian in the 8-byte slice `s`. -/
def EncodeTimestamp (c : Collab V T E) (s : Slice) (t : T) : Outcome E (List Nat) :=
  PutUint64 s (c.TimestampTicks t)

/-- Modelled from the spec: `utils.DecodeTimestamp(s)`, defined in package `utils`
outside `data-value.go`.  The 8-byte little-endian tick counter in `s` is converted to a
calendar timestamp. -/
def DecodeTimestamp (c : Collab V T E) (s : Slice) : Outcome E T := do
  let n ← Uint64 s
  pure (c.TimestampOfTicks n)

/-- The block `if d.HasValue() { ... }` of `SerializeTo`: the Variant writes through
`b[offset:]`, then the cursor advances by `d.Value.Len()`. -/
def DataValue.putValue (c : Collab V T E) (d : DataValue V T) (st : Slice × Nat) :
    Outcome E (Slice × Nat) :=
  if d.HasValue then do
    let s ← st.1.sliceFrom st.2
    match d.Value with
    | some v => do
      let a ← c.VariantSerializeTo v s
      pure (st.1.patch st.2 a, st.2 + c.VariantLen v)
    | none => do
      let a ← c.VariantNilSerializeTo s
      match c.VariantNilLen with
      | some n => pure (st.1.patch st.2 a, st.2 + n)
      | none => .fault .nilDereference
  else pure st

/-- The block `if d.HasStatus() { ... }` of `SerializeTo`. -/
def DataValue.putStatus (d : DataValue V T) (st : Slice × Nat) : Outcome E (Slice × Nat) :=
  if d.HasStatus then do
    let s ← st.1.slice st.2 (st.2 + 4)
    let a ← PutUint32 s d.Status
    pure (st.1.patch st.2 a, st.2 + 4)
  else pure st

/-- The block `if d.HasSourceTimestamp() { ... }` of `SerializeTo`. -/
def DataValue.putSourceTimestamp (c : Collab V T E) (d : DataValue V T) (st : Slice × Nat) :
    Outcome E (Slice × Nat) :=
  if d.HasSourceTimestamp then do
    let s ← st.1.slice st.2 (st.2 + 8)
    let a ← EncodeTimestamp c s d.SourceTimestamp
    pure (st.1.patch st.2 a, st.2 + 8)
  else pure st

/-- The block `if d.HasSourcePicoSeconds() { ... }` of `SerializeTo`. -/
def DataValue.putSourcePicoSeconds (d : DataValue V T) (st : Slice × Nat) :
    Outcome E (Slice × Nat) :=
  if d.HasSourcePicoSeconds then do
    let s ← st.1.slice st.2 (st.2 + 2)
    let a ← PutUint16 s d.SourcePicoSeconds
    pure (st.1.patch st.2 a, st.2 + 2)
  else pure st

/-- The block `if d.HasServerTimestamp() { ... }` of `SerializeTo`. -/
def DataValue.putServerTimestamp (c : Collab V T E) (d : DataValue V T) (st : Slice × Nat) :
    Outcome E (Slice × Nat) :=
  if d.HasServerTimestamp then do
    let s ← st.1.slice st.2 (st.2 + 8)
    let a ← EncodeTimestamp c s d.ServerTimestamp
    pure (st.1.patch st.2 a, st.2 + 8)
  else pure st

/-- The block `if d.HasServerPicoSeconds() { ... }` of `SerializeTo`. -/
def DataValue.putServerPicoSeconds (d : DataValue V T) (st : Slice × Nat) :
    Outcome E (Slice × Nat) :=
  if d.HasServerPicoSeconds then do
    let s ← st.1.slice st.2 (st.2 + 2)
    let a ← PutUint16 s d.ServerPicoSeconds
    pure (st.1.patch st.2 a, st.2 + 2)
  else pure st

/-- Go `(*DataValue).SerializeTo`, returning on success the destination after the call
together with the final value of the local `offset`. -/
def DataValue.SerializeToCursor (c : Collab V T E) (d : DataValue V T) (b : Slice) :
    Outcome E (Slice × Nat) := do
  let b ← b.store 0 d.EncodingMask
  let st ← d.putValue c (b, 1)
  let st ← d.putStatus st
  let st ← d.putSourceTimestamp c st
  let st ← d.putSourcePicoSeconds st
  let st ← d.putServerTimestamp c st
  d.putServerPicoSeconds st

/-- Go `(*DataValue).SerializeTo`: the destination after the call, or the error/panic. -/
def DataValue.SerializeTo (c : Collab V T E) (d : DataValue V T) (b : Slice) :
    Outcome E Slice := do
  let r ← d.SerializeToCursor c b
  pure r.1

/-- Go `(*DataValue).Serialize`: `b := make([]byte, d.Len())`, then `SerializeTo(b)`. -/
def DataValue.Serialize (c : Collab V T E) (d : DataValue V T) : Outcome E (List Nat) := do
  let b ← d.SerializeTo c (Slice.make (d.Len c))
  pure b.bytes

/-- The block `if d.HasValue() { ... }` of `DecodeFromBytes`: a fresh Variant decodes
itself from `b[offset:]`, then the cursor advances by `d.Value.Len()`. -/
def DataValue.getValue (c : Collab V T E) (b : Slice) (st : DataValue V T × Nat) :
    Outcome E (DataValue V T × Nat) :=
  if st.1.HasValue then do
    let s ← b.sliceFrom st.2
    let v ← c.VariantDecodeFromBytes s
    pure ({ st.1 with Value := some v }, st.2 + c.VariantLen v)
  else pure st

/-- The block `if d.HasStatus() { ... }` of `DecodeFromBytes`. -/
def DataValue.getStatus (b : Slice) (st : DataValue V T × Nat) :
    Outcome E (DataValue V T × Nat) :=
  if st.1.HasStatus then do
    let s ← b.slice st.2 (st.2 + 4)
    let x ← Uint32 s
    pure ({ st.1 with Status := x }, st.2 + 4)
  else pure st

/-- The block `if d.HasSourceTimestamp() { ... }` of `DecodeFromBytes`. -/
def DataValue.getSourceTimestamp (c : Collab V T E) (b : Slice) (st : DataValue V T × Nat) :
    Outcome E (DataValue V T × Nat) :=
  if st.1.HasSourceTimestamp then do
    let s ← b.slice st.2 (st.2 + 8)
    let t ← DecodeTimestamp c s
    pure ({ st.1 with SourceTimestamp := t }, st.2 + 8)
  else pure st

/-- The block `if d.HasSourcePicoSeconds() { ... }` of `DecodeFromBytes`. -/
def DataValue.getSourcePicoSeconds (b : Slice) (st : DataValue V T × Nat) :
    Outcome E (DataValue V T × Nat) :=
  if st.1.HasSourcePicoSeconds then do
    let s ← b.slice st.2 (st.2 + 2)
    let x ← Uint16 s
    pure ({ st.1 with SourcePicoSeconds := x }, st.2 + 2)
  else pure st

/-- The block `if d.HasServerTimestamp() { ... }` of `DecodeFromBytes`. -/
def DataValue.getServerTimestamp (c : Collab V T E) (b : Slice) (st : DataValue V T × Nat) :
    Outcome E (DataValue V T × Nat) :=
  if st.1.HasServerTimestamp then do
    let s ← b.slice st.2 (st.2 + 8)
    let t ← DecodeTimestamp c s
    pure ({ st.1 with ServerTimestamp := t }, st.2 + 8)
  else pure st

/-- The block `if d.HasServerPicoSeconds() { ... }` of `DecodeFromBytes`. -/
def DataValue.getServerPicoSeconds (b : Slice) (st : DataValue V T × Nat) :
    Outcome E (DataValue V T × Nat) :=
  if st.1.HasServerPicoSeconds then do
    let s ← b.slice st.2 (st.2 + 2)
    let x ← Uint16 s
    pure ({ st.1 with ServerPicoSeconds := x }, st.2 + 2)
  else pure st

/-- Go `(*DataValue).DecodeFromBytes` on the receiver `d`, returning on success the
receiver after the call together with the final value of the local `offset`. -/
def DataValue.DecodeFromBytesCursor (c : Collab V T E) (d : DataValue V T) (b : Slice) :
    Outcome E (DataValue V T × Nat) := do
  let m ← b.index 0
  let st ← DataValue.getValue c b ({ d with EncodingMask := m }, 1)
  let st ← DataValue.getStatus b st
  let st ← DataValue.getSourceTimestamp c b st
  let st ← DataValue.getSourcePicoSeconds b st
  let st ← DataValue.getServerTimestamp c b st
  DataValue.getServerPicoSeconds b st

/-- Go `(*DataValue).DecodeFromBytes`: the receiver after a call that returned nil. -/
def DataValue.DecodeFromBytes (c : Collab V T E) (d : DataValue V T) (b : Slice) :
    Outcome E (DataValue V T) := do
  let r ← d.DecodeFromBytesCursor c b
  pure r.1

/-- The Go value `&DataValue{}`: every field holds its type's zero value. -/
def DataValue.zero (c : Collab V T E) : DataValue V T :=
  { EncodingMask := 0, Value := none, Status := 0, SourceTimestamp := c.zeroTime,
    SourcePicoSeconds := 0, ServerTimestamp := c.zeroTime, ServerPicoSeconds := 0 }

/-- Go `DecodeDataValue`: `d := &DataValue{}`, then `d.DecodeFromBytes(b)`. -/
def DecodeDataValue (c : Collab V T E) (b : Slice) : Outcome E (DataValue V T) :=
  (DataValue.zero c).DecodeFromBytes c b

/-- The Go struct `DataValueArray`. -/
structure DataValueArray (V T : Type) where
  ArraySize : Int
  DataValues : List (DataValue V T)
  deriving DecidableEq, Repr

/-- Go `NewDataValueArray`; `none` is the nil slice.  The elements are appended one by
one to the initially nil `DataValues`. -/
def NewDataValueArray (values : Option (List (DataValue V T))) : DataValueArray V T :=
  match values with
  | none => { ArraySize := 0, DataValues := [] }
  | some vs =>
    { ArraySize := toInt32 vs.length,
      DataValues := vs.foldl (fun acc value => acc ++ [value]) [] }

/-- Go `(*DataValueArray).Len`. -/
def DataValueArray.Len (c : Collab V T E) (d : DataValueArray V T) : Nat :=
  d.DataValues.foldl (fun l value => l + value.Len c) 4

/-- The loop of `(*DataValueArray).DecodeFromBytes`, with `n` iterations left:
decode one element from `b[offset:]`, append it, advance by its `Len()`. -/
def DataValueArray.decodeLoop (c : Collab V T E) (b : Slice) :
    Nat → Nat → List (DataValue V T) → Outcome E (List (DataValue V T) × Nat)
  | 0, offset, acc => pure (acc, offset)
  | n + 1, offset, acc => do
    let s ← b.sliceFrom offset
    let v ← DecodeDataValue c s
    DataValueArray.decodeLoop c b n (offset + v.Len c) (acc ++ [v])

/-- Go `(*DataValueArray).DecodeFromBytes` on the receiver `d`: the receiver after a call
that returned nil. -/
def DataValueArray.DecodeFromBytes (c : Collab V T E) (d : DataValueArray V T) (b : Slice) :
    Outcome E (DataValueArray V T) := do
  let s ← b.slice 0 4
  let n ← Uint32 s
  let d := { d with ArraySize := toInt32 n }
  if d.ArraySize ≤ 0 then pure d
  else do
    let r ← DataValueArray.decodeLoop c b d.ArraySize.toNat 4 d.DataValues
    pure { d with DataValues := r.1 }

/-- Go `DecodeDataValueArray`: `d := &DataValueArray{}`, then `d.DecodeFromBytes(b)`. -/
def DecodeDataValueArray (c : Collab V T E) (b : Slice) : Outcome E (DataValueArray V T) :=
  DataValueArray.DecodeFromBytes c { ArraySize := 0, DataValues := [] } b

/-- The loop of `(*DataValueArray).SerializeTo`: each element writes through
`b[offset:]`, then the cursor advances by the element's `Len()`. -/
def DataValueArray.serializeLoop (c : Collab V T E) :
    List (DataValue V T) → Slice × Nat → Outcome E (Slice × Nat)
  | [], st => pure st
  | value :: rest, st => do
    let s ← st.1.sliceFrom st.2
    let s' ← value.SerializeTo c s
    DataValueArray.serializeLoop c rest (st.1.patch st.2 s'.arr, st.2 + value.Len c)

/-- Go `(*DataValueArray).SerializeTo`, returning on success the destination after the
call together with the final value of the local `offset`. -/
def DataValueArray.SerializeToCursor (c : Collab V T E) (d : DataValueArray V T) (b : Slice) :
    Outcome E (Slice × Nat) := do
  let s ← b.slice 0 4
  let a ← PutUint32 s (toUint32 d.ArraySize)
  DataValueArray.serializeLoop c d.DataValues (b.patch 0 a, 4)

/-- Go `(*DataValueArray).SerializeTo`: the destination after the call. -/
def DataValueArray.SerializeTo (c : Collab V T E) (d : DataValueArray V T) (b : Slice) :
    Outcome E Slice := do
  let r ← d.SerializeToCursor c b
  pure r.1

/-- Go `(*DataValueArray).Serialize`: `b := make([]byte, d.Len())`, then `SerializeTo(b)`. -/
def DataValueArray.Serialize (c : Collab V T E) (d : DataValueArray V T) :
    Outcome E (List Nat) := do
  let b ← d.SerializeTo c (Slice.make (d.Len c))
  pure b.bytes

/-- Modelled from the spec: a Variant collaborator restricted to one built-in type, the
single-precision float of the reference fixture.  `Variant` is defined outside
`data-value.go`; on the wire it is a type tag (`0x0a`) followed by the payload, here the
32-bit pattern of the float stored little-endian.  The value is the bit pattern. -/
abbrev FloatVariant : Type := Fin 4294967296

/-- Modelled from the spec: the five bytes of a `FloatVariant`, tag `0x0a` then the
payload little-endian. -/
def FloatVariant.encode (v : FloatVariant) : List Nat := 0x0a :: le32 v.val

/-- Modelled from the spec: the error a `FloatVariant` decoder returns for a type tag it
does not know. -/
inductive SampleError where
  | unknownTag
  deriving DecidableEq, Repr

/-- Modelled from the spec: `SerializeTo` of the float Variant, `b[0] = tag` followed by
`PutUint32(b[1:], bits)`. -/
def FloatVariant.SerializeTo (v : FloatVariant) (s : Slice) : Outcome SampleError (List Nat) := do
  let s1 ← s.store 0 0x0a
  let p ← s1.sliceFrom 1
  let a ← PutUint32 p v.val
  pure (s1.patch 1 a).arr

/-- Modelled from the spec: `DecodeFromBytes` of the float Variant, reading the tag at
`b[0]` and the payload with `Uint32(b[1:])`. -/
def FloatVariant.DecodeFromBytes (s : Slice) : Outcome SampleError FloatVariant := do
  let tag ← s.index 0
  if tag = 0x0a then do
    let p ← s.sliceFrom 1
    let x ← Uint32 p
    pure (Fin.ofNat x)
  else .err .unknownTag

/-- Modelled from the spec: a collaborator instance used to exercise the codec: the float
Variant above (a nil receiver panics with a nil dereference) and timestamps that are
their own 64-bit tick count, the zero time being tick 0. -/
def sampleCollab : Collab FloatVariant (Fin 18446744073709551616) SampleError where
  VariantLen := fun _ => 5
  VariantSerializeTo := FloatVariant.SerializeTo
  VariantDecodeFromBytes := FloatVariant.DecodeFromBytes
  VariantNilSerializeTo := fun _ => .fault .nilDereference
  VariantNilLen := none
  TimestampTicks := fun t => t.val
  TimestampOfTicks := fun n => Fin.ofNat n
  zeroTime := 0

/-- What it means for a mask mutator `f` to set exactly bit `k`: the new mask is the old
one OR-ed with `2^k`, bit `k` is set afterwards, every other bit is unchanged and the six
payload fields are untouched. -/
def SetsOnlyBit (f : DataValue V T → DataValue V T) (k : Nat) (d : DataValue V T) : Prop :=
  (f d).EncodingMask = d.EncodingMask ||| 2 ^ k ∧
  (f d).EncodingMask.testBit k = true ∧
  (∀ j, j ≠ k → (f d).EncodingMask.testBit j = d.EncodingMask.testBit j) ∧
  (f d).Value = d.Value ∧ (f d).Status = d.Status ∧
  (f d).SourceTimestamp = d.SourceTimestamp ∧
  (f d).SourcePicoSeconds = d.SourcePicoSeconds ∧
  (f d).ServerTimestamp = d.ServerTimestamp ∧
  (f d).ServerPicoSeconds = d.ServerPicoSeconds

/-- The encoding contract assumed of the Variant collaborator: `enc v` is the byte image
of `v`, `Len()` reports its length, and `SerializeTo` on a destination of at least that
length succeeds, writes exactly those bytes at the front and leaves the rest untouched. -/
structure Collab.VariantWrites (c : Collab V T E) (enc : V → List Nat) : Prop where
  len_eq : ∀ v, c.VariantLen v = (enc v).length
  serialize : ∀ v s, (enc v).length ≤ s.len → s.len ≤ s.arr.length →
    c.VariantSerializeTo v s = .ok (enc v ++ s.arr.drop (enc v).length)

/-- The bytes the Value block of `SerializeTo` contributes. -/
def DataValue.valueBytes (enc : V → List Nat) (d : DataValue V T) : List Nat :=
  if d.HasValue then (match d.Value with | some v => enc v | none => []) else []

/-- The bytes the Status block of `SerializeTo` contributes. -/
def DataValue.statusBytes (d : DataValue V T) : List Nat :=
  if d.HasStatus then le32 d.Status else []

/-- The bytes the SourceTimestamp block of `SerializeTo` contributes. -/
def DataValue.sourceTimestampBytes (c : Collab V T E) (d : DataValue V T) : List Nat :=
  if d.HasSourceTimestamp then le64 (c.TimestampTicks d.SourceTimestamp) else []

/-- The bytes the SourcePicoSeconds block of `SerializeTo` contributes. -/
def DataValue.sourcePicoSecondsBytes (d : DataValue V T) : List Nat :=
  if d.HasSourcePicoSeconds then le16 d.SourcePicoSeconds else []

/-- The bytes the ServerTimestamp block of `SerializeTo` contributes. -/
def DataValue.serverTimestampBytes (c : Collab V T E) (d : DataValue V T) : List Nat :=
  if d.HasServerTimestamp then le64 (c.TimestampTicks d.ServerTimestamp) else []

/-- The bytes the ServerPicoSeconds block of `SerializeTo` contributes. -/
def DataValue.serverPicoSecondsBytes (d : DataValue V T) : List Nat :=
  if d.HasServerPicoSeconds then le16 d.ServerPicoSeconds else []

/-- The bytes `SerializeTo` writes, block by block in the order of the source text. -/
def DataValue.wire (c : Collab V T E) (enc : V → List Nat) (d : DataValue V T) : List Nat :=
  [d.EncodingMask] ++ d.valueBytes enc ++ d.statusBytes ++ d.sourceTimestampBytes c ++
    d.sourcePicoSecondsBytes ++ d.serverTimestampBytes c ++ d.serverPicoSecondsBytes

/-- The wire image as the specification words it: the mask byte, then each field whose
presence bit is set, in the canonical order Value (bit 0), Status (bit 1), SourceTimestamp
(bit 2), SourcePicoSeconds (bit 4), ServerTimestamp (bit 3), ServerPicoSeconds (bit 5). -/
def DataValue.wireFormat (enc : V → List Nat) (ticks : T → Nat) (d : DataValue V T) :
    List Nat :=
  [d.EncodingMask] ++
  (if d.EncodingMask.testBit 0 then (match d.Value with | some v => enc v | none => [])
    else []) ++
  (if d.EncodingMask.testBit 1 then le32 d.Status else []) ++
  (if d.EncodingMask.testBit 2 then le64 (ticks d.SourceTimestamp) else []) ++
  (if d.EncodingMask.testBit 4 then le16 d.SourcePicoSeconds else []) ++
  (if d.EncodingMask.testBit 3 then le64 (ticks d.ServerTimestamp) else []) ++
  (if d.EncodingMask.testBit 5 then le16 d.ServerPicoSeconds else [])

/-- The state of `SerializeTo` once the bytes `W` have been written at the front of a
destination of length `L` whose backing array was `orig`. -/
def framed (orig : List Nat) (L : Nat) (W : List Nat) : Slice × Nat :=
  (⟨W ++ orig.drop W.length, L⟩, W.length)

/-- A sample record with all six presence bits set. -/
def sampleFull : DataValue FloatVariant (Fin 18446744073709551616) :=
  NewDataValue true true true true true true (some 1075839689) 2147483648
    131816105091120000 513 131816105091120001 65535

/-- The decoding contract assumed of the Variant collaborator: decoding a buffer that
starts with the byte image `enc v` (whatever follows) succeeds and yields `v`. -/
def Collab.VariantReads (c : Collab V T E) (enc : V → List Nat) : Prop :=
  ∀ v s, enc v <+: s.arr → (enc v).length ≤ s.len → c.VariantDecodeFromBytes s = .ok v

/-- The contract assumed of the timestamp collaborator: a timestamp is recovered from
its unsigned 64-bit tick count. -/
def Collab.TimestampRoundTrips (c : Collab V T E) : Prop :=
  ∀ t, c.TimestampOfTicks (c.TimestampTicks t % 18446744073709551616) = t

/-- The fields of a `DataValue` are within the range of their Go types (`byte`, `uint32`,
`uint16`). -/
def DataValue.InRange (d : DataValue V T) : Prop :=
  d.EncodingMask < 256 ∧ d.Status < 4294967296 ∧ d.SourcePicoSeconds < 65536 ∧
    d.ServerPicoSeconds < 65536

/-- The receiver `d0` after decoding the wire image of `d` into it: the mask of `d`, the
fields of `d` whose presence bit is set, and the previous content of `d0` elsewhere. -/
def DataValue.overlay (d0 d : DataValue V T) : DataValue V T :=
  { EncodingMask := d.EncodingMask
    Value := if d.HasValue then d.Value else d0.Value
    Status := if d.HasStatus then d.Status else d0.Status
    SourceTimestamp := if d.HasSourceTimestamp then d.SourceTimestamp else d0.SourceTimestamp
    SourcePicoSeconds :=
      if d.HasSourcePicoSeconds then d.SourcePicoSeconds else d0.SourcePicoSeconds
    ServerTimestamp := if d.HasServerTimestamp then d.ServerTimestamp else d0.ServerTimestamp
    ServerPicoSeconds :=
      if d.HasServerPicoSeconds then d.ServerPicoSeconds else d0.ServerPicoSeconds }

/-- The contract assumed of the Variant collaborator on short destinations: it does not
report success on a (well-formed) destination whose capacity is below its own `Len()`. -/
def Collab.VariantNeedsRoom (c : Collab V T E) : Prop :=
  ∀ v s a, s.len ≤ s.arr.length → c.VariantSerializeTo v s = .ok a →
    c.VariantLen v ≤ s.arr.length

/-- The contribution of the Value block to `Len()`: the Variant's own length when the
Value bit is set and the Value is non-nil, nothing otherwise. -/
def DataValue.valueLen (c : Collab V T E) (d : DataValue V T) : Nat :=
  if d.HasValue then (match d.Value with | some v => c.VariantLen v | none => 0) else 0

/-- A sample record carrying only a Status (mask `0x02`, wire image `02 01 00 00 00`). -/
def sampleStatusOnly : DataValue FloatVariant (Fin 18446744073709551616) :=
  NewDataValue false true false false false false none 1 0 0 0 0

/-- A sample array: the empty array, whose wire image is the 4-byte count `00 00 00 00`. -/
def sampleEmptyArray : DataValueArray FloatVariant (Fin 18446744073709551616) :=
  NewDataValueArray (some [])

/-- The contract assumed of the Variant collaborator on truncated input: decoding a
(well-formed) buffer whose whole backing array is a strict prefix of a byte image `enc v`
does not succeed. -/
def Collab.VariantRejectsTruncated (c : Collab V T E) (enc : V → List Nat) : Prop :=
  ∀ v s, s.len ≤ s.arr.length → s.arr <+: enc v → s.arr.length < (enc v).length →
    (c.VariantDecodeFromBytes s).isOk = false

/-- The concatenated wire images of the elements of an array, in order. -/
def DataValueArray.elementsWire (c : Collab V T E) (enc : V → List Nat) :
    List (DataValue V T) → List Nat
  | [] => []
  | v :: rest => v.wire c enc ++ DataValueArray.elementsWire c enc rest

/-- The decoded record `r` agrees with `d` on the mask and on every field whose presence
bit is set in `d`. -/
def DataValue.SamePresent (d r : DataValue V T) : Prop :=
  r.EncodingMask = d.EncodingMask ∧
  (d.HasValue = true → r.Value = d.Value) ∧
  (d.HasStatus = true → r.Status = d.Status) ∧
  (d.HasSourceTimestamp = true → r.SourceTimestamp = d.SourceTimestamp) ∧
  (d.HasSourcePicoSeconds = true → r.SourcePicoSeconds = d.SourcePicoSeconds) ∧
  (d.HasServerTimestamp = true → r.ServerTimestamp = d.ServerTimestamp) ∧
  (d.HasServerPicoSeconds = true → r.ServerPicoSeconds = d.ServerPicoSeconds)

/-- A sample record with no field present (mask `0x00`, wire image `00`). -/
def sampleBare : DataValue FloatVariant (Fin 18446744073709551616) :=
  NewDataValue false false false false false false none 0 0 0 0 0

/-- The reference fixture of the write-request test: Value, SourceTimestamp and
ServerTimestamp present (mask `0x0d`). -/
def sampleFixture : DataValue FloatVariant (Fin 18446744073709551616) :=
  NewDataValue true false true false true false (some 1075839689) 0
    131816681091120000 0 131816681091120000 0

instance (d : DataValue V T) : Decidable d.InRange := by
  unfold DataValue.InRange; infer_instance

/-- A sample record whose Value bit is set while its Value is nil (mask `0x03`, Status 1). -/
def sampleNilValue : DataValue FloatVariant (Fin 18446744073709551616) :=
  NewDataValue true true false false false false none 1 0 0 0 0

/-- The records `rs` are what the array decoder reads one after the other from offset
`off` of `b`: the first is `DecodeDataValue(b[off:])`, and each next one starts where the
previous one ends, that is `Len()` bytes further. -/
def DataValueArray.DecodedAt (c : Collab V T E) (b : Slice) :
    Nat → List (DataValue V T) → Prop
  | _, [] => True
  | off, r :: rest =>
    off ≤ b.len ∧ DecodeDataValue c ⟨b.arr.drop off, b.len - off⟩ = .ok r ∧
      DataValueArray.DecodedAt c b (off + r.Len c) rest

/-- The contract assumed of the Variant collaborator when a decoded value is encoded
again: a successful decode consumed no more bytes than the buffer holds, reports that
number as `Len()`, and the byte image of the decoded value is exactly the bytes consumed. -/
def Collab.VariantConsumes (c : Collab V T E) (enc : V → List Nat) : Prop :=
  ∀ s v, s.len ≤ s.arr.length → (∀ x ∈ s.arr, x < 256) →
    c.VariantDecodeFromBytes s = .ok v →
      c.VariantLen v ≤ s.len ∧ enc v = s.arr.take (c.VariantLen v)

/-- The contract assumed of the timestamp collaborator when a decoded timestamp is encoded
again: the tick count of the timestamp made from an unsigned 64-bit tick count is that
count. -/
def Collab.TicksRoundTrip (c : Collab V T E) : Prop :=
  ∀ n, n < 18446744073709551616 →
    c.TimestampTicks (c.TimestampOfTicks n) % 18446744073709551616 = n

/-! ## Theorems -/

/-! ### Outcome and byte-order helpers -/

@[simp] theorem Outcome.pure_eq_ok {α : Type} (a : α) : (pure a : Outcome E α) = .ok a := rfl

@[simp] theorem Outcome.ok_bind {α β : Type} (a : α) (f : α → Outcome E β) :
    (Outcome.ok a >>= f) = f a := rfl

@[simp] theorem Outcome.err_bind {α β : Type} (e : E) (f : α → Outcome E β) :
    ((Outcome.err e : Outcome E α) >>= f) = .err e := rfl

@[simp] theorem Outcome.fault_bind {α β : Type} (p : Fault) (f : α → Outcome E β) :
    ((Outcome.fault p : Outcome E α) >>= f) = .fault p := rfl

@[simp] theorem le16_length (v : Nat) : (le16 v).length = 2 := rfl

@[simp] theorem le32_length (v : Nat) : (le32 v).length = 4 := rfl

@[simp] theorem le64_length (v : Nat) : (le64 v).length = 8 := rfl

theorem Slice.patch_eq (b : Slice) (lo : Nat) (sub : List Nat)
    (h : lo + sub.length = b.arr.length) : b.patch lo sub = ⟨b.arr.take lo ++ sub, b.len⟩ := by
  have h1 : b.arr.drop (lo + sub.length) = [] := by simp [h]
  have h2 : (b.arr.take lo ++ sub).length = b.arr.length := by simp; omega
  simp only [Slice.patch, h1, List.append_nil, ← h2, List.take_length]

@[simp] theorem Slice.patch_cap (b : Slice) (lo : Nat) (sub : List Nat) :
    (b.patch lo sub).arr.length = b.arr.length := by
  simp [Slice.patch]; omega

@[simp] theorem Slice.patch_len (b : Slice) (lo : Nat) (sub : List Nat) :
    (b.patch lo sub).len = b.len := rfl

theorem patch_frame (orig W piece : List Nat) :
    (W ++ orig.drop W.length).take W.length ++
      (piece ++ ((W ++ orig.drop W.length).drop W.length).drop piece.length) =
    (W ++ piece) ++ orig.drop (W ++ piece).length := by
  simp [List.drop_drop, Nat.add_comm]

/-- Writing `piece` through `b[offset:offset+w]` extends the written front by `piece`. -/
theorem writeAt_framed (orig : List Nat) (L : Nat) (W piece : List Nat)
    (put : Slice → Outcome E (List Nat))
    (hput : ∀ s : Slice, s.len = piece.length → put s = .ok (piece ++ s.arr.drop piece.length))
    (hfit : W.length + piece.length ≤ orig.length) :
    (do let s ← (framed orig L W).1.slice (framed orig L W).2 ((framed orig L W).2 + piece.length)
        let a ← put s
        pure ((framed orig L W).1.patch (framed orig L W).2 a,
          (framed orig L W).2 + piece.length) : Outcome E (Slice × Nat)) =
      .ok (framed orig L (W ++ piece)) := by
  have hcap : W.length + piece.length ≤ (W ++ orig.drop W.length).length := by
    simp; omega
  simp only [framed, Slice.slice, Slice.cap, hcap, Nat.le_add_right, and_self, if_true,
    Outcome.ok_bind]
  rw [hput _ (by simp)]
  simp only [Outcome.ok_bind, Outcome.pure_eq_ok]
  rw [Slice.patch_eq _ _ _ (by simp; omega)]
  simp only [patch_frame]
  simp

theorem framed_nil_piece (orig : List Nat) (L : Nat) (W : List Nat) :
    framed orig L (W ++ []) = framed orig L W := by simp

theorem putStatus_framed (d : DataValue V T) (orig : List Nat) (L : Nat) (W : List Nat)
    (hfit : W.length + d.statusBytes.length ≤ orig.length) :
    (d.putStatus (framed orig L W) : Outcome E _) = .ok (framed orig L (W ++ d.statusBytes)) := by
  unfold DataValue.putStatus DataValue.statusBytes at *
  by_cases h : d.HasStatus = true
  · simp only [h, if_true] at hfit ⊢
    exact writeAt_framed orig L W (le32 d.Status) (fun s => PutUint32 s d.Status)
      (fun s hs => by simp [PutUint32, hs]) hfit
  · simp [h]

theorem putSourcePicoSeconds_framed (d : DataValue V T) (orig : List Nat) (L : Nat)
    (W : List Nat) (hfit : W.length + d.sourcePicoSecondsBytes.length ≤ orig.length) :
    (d.putSourcePicoSeconds (framed orig L W) : Outcome E _) =
      .ok (framed orig L (W ++ d.sourcePicoSecondsBytes)) := by
  unfold DataValue.putSourcePicoSeconds DataValue.sourcePicoSecondsBytes at *
  by_cases h : d.HasSourcePicoSeconds = true
  · simp only [h, if_true] at hfit ⊢
    exact writeAt_framed orig L W (le16 d.SourcePicoSeconds)
      (fun s => PutUint16 s d.SourcePicoSeconds) (fun s hs => by simp [PutUint16, hs]) hfit
  · simp [h]

theorem putServerPicoSeconds_framed (d : DataValue V T) (orig : List Nat) (L : Nat)
    (W : List Nat) (hfit : W.length + d.serverPicoSecondsBytes.length ≤ orig.length) :
    (d.putServerPicoSeconds (framed orig L W) : Outcome E _) =
      .ok (framed orig L (W ++ d.serverPicoSecondsBytes)) := by
  unfold DataValue.putServerPicoSeconds DataValue.serverPicoSecondsBytes at *
  by_cases h : d.HasServerPicoSeconds = true
  · simp only [h, if_true] at hfit ⊢
    exact writeAt_framed orig L W (le16 d.ServerPicoSeconds)
      (fun s => PutUint16 s d.ServerPicoSeconds) (fun s hs => by simp [PutUint16, hs]) hfit
  · simp [h]

theorem putSourceTimestamp_framed (c : Collab V T E) (d : DataValue V T) (orig : List Nat)
    (L : Nat) (W : List Nat)
    (hfit : W.length + (d.sourceTimestampBytes c).length ≤ orig.length) :
    d.putSourceTimestamp c (framed orig L W) =
      .ok (framed orig L (W ++ d.sourceTimestampBytes c)) := by
  unfold DataValue.putSourceTimestamp DataValue.sourceTimestampBytes at *
  by_cases h : d.HasSourceTimestamp = true
  · simp only [h, if_true] at hfit ⊢
    exact writeAt_framed orig L W (le64 (c.TimestampTicks d.SourceTimestamp))
      (fun s => EncodeTimestamp c s d.SourceTimestamp)
      (fun s hs => by simp [EncodeTimestamp, PutUint64, hs]) hfit
  · simp [h]

theorem putServerTimestamp_framed (c : Collab V T E) (d : DataValue V T) (orig : List Nat)
    (L : Nat) (W : List Nat)
    (hfit : W.length + (d.serverTimestampBytes c).length ≤ orig.length) :
    d.putServerTimestamp c (framed orig L W) =
      .ok (framed orig L (W ++ d.serverTimestampBytes c)) := by
  unfold DataValue.putServerTimestamp DataValue.serverTimestampBytes at *
  by_cases h : d.HasServerTimestamp = true
  · simp only [h, if_true] at hfit ⊢
    exact writeAt_framed orig L W (le64 (c.TimestampTicks d.ServerTimestamp))
      (fun s => EncodeTimestamp c s d.ServerTimestamp)
      (fun s hs => by simp [EncodeTimestamp, PutUint64, hs]) hfit
  · simp [h]

theorem putValue_framed (c : Collab V T E) (enc : V → List Nat) (hw : c.VariantWrites enc)
    (d : DataValue V T) (hv : d.HasValue = true → d.Value ≠ none)
    (orig : List Nat) (L : Nat) (W : List Nat)
    (hfit : W.length + (d.valueBytes enc).length ≤ L) (hL : L ≤ orig.length) :
    d.putValue c (framed orig L W) = .ok (framed orig L (W ++ d.valueBytes enc)) := by
  unfold DataValue.putValue DataValue.valueBytes at *
  by_cases h : d.HasValue = true
  · simp only [h, if_true] at hfit ⊢
    cases hval : d.Value with
    | none => exact absurd hval (hv h)
    | some v =>
      simp only [hval] at hfit ⊢
      have h1 : W.length ≤ L := by omega
      simp only [framed, Slice.sliceFrom, h1, if_true, Outcome.ok_bind]
      rw [hw.serialize v _ (by simp; omega) (by simp; omega), hw.len_eq]
      simp only [Outcome.ok_bind, Outcome.pure_eq_ok]
      rw [Slice.patch_eq _ _ _ (by simp; omega)]
      simp only [patch_frame]
      simp
  · simp [h]

theorem DataValue.wire_length (c : Collab V T E) (enc : V → List Nat)
    (hw : c.VariantWrites enc) (d : DataValue V T) :
    (d.wire c enc).length = d.Len c := by
  unfold DataValue.wire DataValue.Len DataValue.valueBytes DataValue.statusBytes
    DataValue.sourceTimestampBytes DataValue.sourcePicoSecondsBytes
    DataValue.serverTimestampBytes DataValue.serverPicoSecondsBytes
  cases d.Value <;> cases d.HasValue <;> cases d.HasStatus <;> cases d.HasSourceTimestamp <;>
    cases d.HasSourcePicoSeconds <;> cases d.HasServerTimestamp <;>
    cases d.HasServerPicoSeconds <;> simp [hw.len_eq] <;> omega

theorem store_zero_framed (b : Slice) (m : Nat) (h1 : 1 ≤ b.len) (hwf : b.len ≤ b.arr.length) :
    (b.store 0 m : Outcome E Slice) = .ok (framed b.arr b.len [m]).1 := by
  have h0 : 0 < b.len := h1
  simp only [Slice.store, h0, if_true, framed]
  cases harr : b.arr with
  | nil => rw [harr] at hwf; simp at hwf; omega
  | cons x xs => simp

/-- The encoder writes the wire image at the front of any destination that is long enough. -/
theorem DataValue.serializeToCursor_eq (c : Collab V T E) (enc : V → List Nat)
    (hw : c.VariantWrites enc) (d : DataValue V T) (hv : d.HasValue = true → d.Value ≠ none)
    (b : Slice) (hlen : d.Len c ≤ b.len) (hwf : b.len ≤ b.arr.length) :
    d.SerializeToCursor c b =
      .ok (⟨d.wire c enc ++ b.arr.drop (d.Len c), b.len⟩, d.Len c) := by
  have hL := DataValue.wire_length c enc hw d
  have hwl : (d.wire c enc).length ≤ b.len := by omega
  unfold DataValue.wire at hL hwl
  simp only [List.length_append, List.length_singleton] at hwl
  unfold DataValue.SerializeToCursor
  rw [store_zero_framed b _ (by omega) hwf]
  simp only [Outcome.ok_bind]
  have e1 : ((framed b.arr b.len [d.EncodingMask]).1, 1) = framed b.arr b.len [d.EncodingMask] := rfl
  rw [e1, putValue_framed c enc hw d hv _ _ _ (by simp; omega) hwf]
  simp only [Outcome.ok_bind]
  rw [putStatus_framed d _ _ _ (by simp; omega)]
  simp only [Outcome.ok_bind]
  rw [putSourceTimestamp_framed c d _ _ _ (by simp; omega)]
  simp only [Outcome.ok_bind]
  rw [putSourcePicoSeconds_framed d _ _ _ (by simp; omega)]
  simp only [Outcome.ok_bind]
  rw [putServerTimestamp_framed c d _ _ _ (by simp; omega)]
  simp only [Outcome.ok_bind]
  rw [putServerPicoSeconds_framed d _ _ _ (by simp; omega)]
  simp only [framed, DataValue.wire, hL]

theorem shift_and_one_eq_testBit (n k : Nat) : ((n >>> k) &&& 1 == 1) = n.testBit k := by
  simp only [Nat.testBit, Nat.and_one_is_mod, Nat.one_and_eq_mod_two]
  rcases Nat.mod_two_eq_zero_or_one (n >>> k) with h | h <;> simp [h]

theorem hasFlags_eq_testBit (d : DataValue V T) :
    d.HasValue = d.EncodingMask.testBit 0 ∧
    d.HasStatus = d.EncodingMask.testBit 1 ∧
    d.HasSourceTimestamp = d.EncodingMask.testBit 2 ∧
    d.HasServerTimestamp = d.EncodingMask.testBit 3 ∧
    d.HasSourcePicoSeconds = d.EncodingMask.testBit 4 ∧
    d.HasServerPicoSeconds = d.EncodingMask.testBit 5 :=
  ⟨by simpa [DataValue.HasValue] using shift_and_one_eq_testBit d.EncodingMask 0,
   shift_and_one_eq_testBit _ 1, shift_and_one_eq_testBit _ 2,
   shift_and_one_eq_testBit _ 3, shift_and_one_eq_testBit _ 4, shift_and_one_eq_testBit _ 5⟩

theorem DataValue.wire_eq_wireFormat (c : Collab V T E) (enc : V → List Nat)
    (d : DataValue V T) : d.wire c enc = d.wireFormat enc c.TimestampTicks := by
  obtain ⟨h0, h1, h2, h3, h4, h5⟩ := hasFlags_eq_testBit d
  simp only [DataValue.wire, DataValue.wireFormat, DataValue.valueBytes, DataValue.statusBytes,
    DataValue.sourceTimestampBytes, DataValue.sourcePicoSecondsBytes,
    DataValue.serverTimestampBytes, DataValue.serverPicoSecondsBytes, h0, h1, h2, h3, h4, h5]

theorem DataValue.serialize_eq_wire (c : Collab V T E) (enc : V → List Nat)
    (hw : c.VariantWrites enc) (d : DataValue V T) (hv : d.HasValue = true → d.Value ≠ none) :
    d.Serialize c = .ok (d.wire c enc) := by
  have h := DataValue.serializeToCursor_eq c enc hw d hv (Slice.make (d.Len c))
    (by simp [Slice.make]) (by simp [Slice.make])
  have hL := DataValue.wire_length c enc hw d
  simp only [DataValue.Serialize, DataValue.SerializeTo, h, Outcome.ok_bind, Outcome.pure_eq_ok]
  simp only [Slice.bytes, Slice.make, ← hL]
  simp

theorem piece_at_offset (A piece rest : List Nat) (k : Nat) (h : A.length = k) :
    ((A ++ (piece ++ rest)).drop k).take piece.length = piece := by
  subst h
  simp

theorem FloatVariant.floatSerializeTo_eq (v : FloatVariant) (s : Slice) (h5 : 5 ≤ s.len)
    (hwf : s.len ≤ s.arr.length) :
    FloatVariant.SerializeTo v s = .ok (FloatVariant.encode v ++ s.arr.drop 5) := by
  obtain ⟨arr, len⟩ := s
  simp only at h5 hwf
  have h0 : 0 < len := by omega
  have h1 : 1 ≤ len := by omega
  have h3 : 3 < len - 1 := by omega
  cases arr with
  | nil => simp at hwf; omega
  | cons x xs =>
    simp only [List.length_cons] at hwf
    simp only [FloatVariant.SerializeTo, Slice.store, Slice.sliceFrom, PutUint32, h0, h1, h3,
      if_true, Outcome.ok_bind, Outcome.pure_eq_ok, List.set_cons_zero, List.drop_succ_cons,
      List.drop_zero]
    rw [Slice.patch_eq _ _ _ (by simp; omega)]
    simp [FloatVariant.encode]

theorem sampleCollab_variantWrites : sampleCollab.VariantWrites FloatVariant.encode where
  len_eq := fun _ => rfl
  serialize := fun v s h5 hwf => by
    have := FloatVariant.floatSerializeTo_eq v s (by simpa [FloatVariant.encode] using h5) hwf
    simpa [sampleCollab, FloatVariant.encode] using this

/-- C1: for every DataValue whose Value is non-nil whenever the Value bit is set, with a
Variant collaborator that writes exactly its reported `Len()` bytes, `Serialize` succeeds
and returns exactly `Len()` bytes, and the cursor of `SerializeTo` ends at `Len()` (on the
buffer `Serialize` allocates and on every well-formed destination of at least `Len()`
bytes). -/
theorem serialize_length_eq_len (c : Collab V T E) (enc : V → List Nat)
    (hw : c.VariantWrites enc) (d : DataValue V T) (hv : d.HasValue = true → d.Value ≠ none) :
    (∃ bytes, d.Serialize c = .ok bytes ∧ bytes.length = d.Len c) ∧
    (∃ b, d.SerializeToCursor c (Slice.make (d.Len c)) = .ok (b, d.Len c)) ∧
    (∀ b : Slice, b.WF → d.Len c ≤ b.len → ∃ b1, d.SerializeToCursor c b = .ok (b1, d.Len c)) := by
  refine ⟨⟨_, DataValue.serialize_eq_wire c enc hw d hv, DataValue.wire_length c enc hw d⟩,
    ⟨_, DataValue.serializeToCursor_eq c enc hw d hv _ (by simp [Slice.make])
      (by simp [Slice.make])⟩, ?_⟩
  intro b hwf hlen
  exact ⟨_, DataValue.serializeToCursor_eq c enc hw d hv b hlen hwf⟩

theorem serialize_length_eq_len_witness :
    (∃ bytes, sampleFull.Serialize sampleCollab = .ok bytes ∧
      bytes.length = sampleFull.Len sampleCollab) ∧
    (∃ b, sampleFull.SerializeToCursor sampleCollab (Slice.make (sampleFull.Len sampleCollab))
      = .ok (b, sampleFull.Len sampleCollab)) ∧
    (∀ b : Slice, b.WF → sampleFull.Len sampleCollab ≤ b.len →
      ∃ b1, sampleFull.SerializeToCursor sampleCollab b = .ok (b1, sampleFull.Len sampleCollab)) :=
  serialize_length_eq_len sampleCollab FloatVariant.encode sampleCollab_variantWrites sampleFull
    (by decide)

/-! ### Presence mask -/

theorem lor_two_pow_testBit (m k j : Nat) :
    (m ||| 2 ^ k).testBit j = (m.testBit j || decide (k = j)) := by
  rw [Nat.testBit_lor, Nat.testBit_two_pow]

theorem setsOnlyBit_of_lor (f : DataValue V T → DataValue V T) (k : Nat) (d : DataValue V T)
    (hf : f d = { d with EncodingMask := d.EncodingMask ||| 2 ^ k }) : SetsOnlyBit f k d := by
  unfold SetsOnlyBit
  rw [hf]
  refine ⟨rfl, ?_, ?_, rfl, rfl, rfl, rfl, rfl, rfl⟩
  · simp [lor_two_pow_testBit]
  · intro j hj
    simp [lor_two_pow_testBit, Ne.symm hj]

/-- C9: each presence accessor returns true exactly when its own bit of the mask is set
(bit 0 Value, bit 1 Status, bit 2 SourceTimestamp, bit 3 ServerTimestamp, bit 4
SourcePicoSeconds, bit 5 ServerPicoSeconds); being equal to that single bit, the result
depends on no other bit of the mask and on no other field. -/
theorem has_accessors_test_their_bit (d : DataValue V T) :
    d.HasValue = d.EncodingMask.testBit 0 ∧
    d.HasStatus = d.EncodingMask.testBit 1 ∧
    d.HasSourceTimestamp = d.EncodingMask.testBit 2 ∧
    d.HasServerTimestamp = d.EncodingMask.testBit 3 ∧
    d.HasSourcePicoSeconds = d.EncodingMask.testBit 4 ∧
    d.HasServerPicoSeconds = d.EncodingMask.testBit 5 :=
  hasFlags_eq_testBit d

/-- C10: each of the six flag setters ORs the mask with its field's single bit (0x01,
0x02, 0x04, 0x08, 0x10, 0x20): the matching accessor is true afterwards, every other bit
of the mask is unchanged, and the six payload fields are unchanged. -/
theorem set_flag_ors_single_bit (d : DataValue V T) :
    (SetsOnlyBit DataValue.SetValueFlag 0 d ∧ d.SetValueFlag.HasValue = true ∧
      d.SetValueFlag.EncodingMask = d.EncodingMask ||| 0x01) ∧
    (SetsOnlyBit DataValue.SetStatusFlag 1 d ∧ d.SetStatusFlag.HasStatus = true ∧
      d.SetStatusFlag.EncodingMask = d.EncodingMask ||| 0x02) ∧
    (SetsOnlyBit DataValue.SetSourceTimestampFlag 2 d ∧
      d.SetSourceTimestampFlag.HasSourceTimestamp = true ∧
      d.SetSourceTimestampFlag.EncodingMask = d.EncodingMask ||| 0x04) ∧
    (SetsOnlyBit DataValue.SetServerTimestampFlag 3 d ∧
      d.SetServerTimestampFlag.HasServerTimestamp = true ∧
      d.SetServerTimestampFlag.EncodingMask = d.EncodingMask ||| 0x08) ∧
    (SetsOnlyBit DataValue.SetSourcePicoSecondsFlag 4 d ∧
      d.SetSourcePicoSecondsFlag.HasSourcePicoSeconds = true ∧
      d.SetSourcePicoSecondsFlag.EncodingMask = d.EncodingMask ||| 0x10) ∧
    (SetsOnlyBit DataValue.SetServerPicoSecondsFlag 5 d ∧
      d.SetServerPicoSecondsFlag.HasServerPicoSeconds = true ∧
      d.SetServerPicoSecondsFlag.EncodingMask = d.EncodingMask ||| 0x20) := by
  have h0 := setsOnlyBit_of_lor DataValue.SetValueFlag 0 d rfl
  have h1 := setsOnlyBit_of_lor DataValue.SetStatusFlag 1 d rfl
  have h2 := setsOnlyBit_of_lor DataValue.SetSourceTimestampFlag 2 d rfl
  have h3 := setsOnlyBit_of_lor DataValue.SetServerTimestampFlag 3 d rfl
  have h4 := setsOnlyBit_of_lor DataValue.SetSourcePicoSecondsFlag 4 d rfl
  have h5 := setsOnlyBit_of_lor DataValue.SetServerPicoSecondsFlag 5 d rfl
  refine ⟨⟨h0, ?_, rfl⟩, ⟨h1, ?_, rfl⟩, ⟨h2, ?_, rfl⟩, ⟨h3, ?_, rfl⟩, ⟨h4, ?_, rfl⟩,
    ⟨h5, ?_, rfl⟩⟩
  · rw [(hasFlags_eq_testBit _).1]; exact h0.2.1
  · rw [(hasFlags_eq_testBit _).2.1]; exact h1.2.1
  · rw [(hasFlags_eq_testBit _).2.2.1]; exact h2.2.1
  · rw [(hasFlags_eq_testBit _).2.2.2.1]; exact h3.2.1
  · rw [(hasFlags_eq_testBit _).2.2.2.2.1]; exact h4.2.1
  · rw [(hasFlags_eq_testBit _).2.2.2.2.2]; exact h5.2.1

/-! ### Canonical wire order -/

theorem wireFormat_all_six (enc : V → List Nat) (ticks : T → Nat) (d : DataValue V T) (v : V)
    (hval : d.Value = some v) (hbits : ∀ k, k < 6 → d.EncodingMask.testBit k = true) :
    d.wireFormat enc ticks =
      [d.EncodingMask] ++ (enc v ++ (le32 d.Status ++ (le64 (ticks d.SourceTimestamp) ++
        (le16 d.SourcePicoSeconds ++ (le64 (ticks d.ServerTimestamp) ++
          (le16 d.ServerPicoSeconds ++ [])))))) := by
  simp [DataValue.wireFormat, hval, hbits 0, hbits 1, hbits 2, hbits 3, hbits 4, hbits 5]

/-- C3: for every DataValue whose Value is non-nil whenever bit 0 is set, `Serialize`
returns the mask byte followed by the present fields in the canonical wire order Value,
Status, SourceTimestamp, SourcePicoSeconds, ServerTimestamp, ServerPicoSeconds; with all
six bits set and a Variant of encoded length `n`, Status starts at offset `1+n`,
SourceTimestamp at `5+n`, SourcePicoSeconds at `13+n`, ServerTimestamp at `15+n` and
ServerPicoSeconds at `23+n`. -/
theorem serialize_canonical_order (c : Collab V T E) (enc : V → List Nat)
    (hw : c.VariantWrites enc) (d : DataValue V T) (hv : d.HasValue = true → d.Value ≠ none) :
    d.Serialize c = .ok (d.wireFormat enc c.TimestampTicks) ∧
    (∀ v, d.Value = some v → (∀ k, k < 6 → d.EncodingMask.testBit k = true) →
      d.wireFormat enc c.TimestampTicks =
        [d.EncodingMask] ++ enc v ++ le32 d.Status ++ le64 (c.TimestampTicks d.SourceTimestamp) ++
          le16 d.SourcePicoSeconds ++ le64 (c.TimestampTicks d.ServerTimestamp) ++
          le16 d.ServerPicoSeconds ∧
      (enc v).length = c.VariantLen v ∧
      ((d.wireFormat enc c.TimestampTicks).drop 1).take (c.VariantLen v) = enc v ∧
      ((d.wireFormat enc c.TimestampTicks).drop (1 + c.VariantLen v)).take 4 =
        le32 d.Status ∧
      ((d.wireFormat enc c.TimestampTicks).drop (5 + c.VariantLen v)).take 8 =
        le64 (c.TimestampTicks d.SourceTimestamp) ∧
      ((d.wireFormat enc c.TimestampTicks).drop (13 + c.VariantLen v)).take 2 =
        le16 d.SourcePicoSeconds ∧
      ((d.wireFormat enc c.TimestampTicks).drop (15 + c.VariantLen v)).take 8 =
        le64 (c.TimestampTicks d.ServerTimestamp) ∧
      ((d.wireFormat enc c.TimestampTicks).drop (23 + c.VariantLen v)).take 2 =
        le16 d.ServerPicoSeconds) := by
  refine ⟨by rw [← DataValue.wire_eq_wireFormat]; exact DataValue.serialize_eq_wire c enc hw d hv,
    ?_⟩
  intro v hval hbits
  have hn := hw.len_eq v
  have hwf := wireFormat_all_six enc c.TimestampTicks d v hval hbits
  refine ⟨by rw [hwf]; simp, hn.symm, ?_, ?_, ?_, ?_, ?_, ?_⟩
  · rw [hwf, hn]
    exact piece_at_offset [d.EncodingMask] (enc v) _ 1 rfl
  · have := piece_at_offset ([d.EncodingMask] ++ enc v) (le32 d.Status)
      (le64 (c.TimestampTicks d.SourceTimestamp) ++ (le16 d.SourcePicoSeconds ++
        (le64 (c.TimestampTicks d.ServerTimestamp) ++ (le16 d.ServerPicoSeconds ++ []))))
      (1 + c.VariantLen v) (by simp [hn]; omega)
    rw [hwf]
    simpa using this
  · have := piece_at_offset ([d.EncodingMask] ++ enc v ++ le32 d.Status)
      (le64 (c.TimestampTicks d.SourceTimestamp)) (le16 d.SourcePicoSeconds ++
        (le64 (c.TimestampTicks d.ServerTimestamp) ++ (le16 d.ServerPicoSeconds ++ [])))
      (5 + c.VariantLen v) (by simp [hn]; omega)
    rw [hwf]
    simpa using this
  · have := piece_at_offset ([d.EncodingMask] ++ enc v ++ le32 d.Status ++
        le64 (c.TimestampTicks d.SourceTimestamp)) (le16 d.SourcePicoSeconds)
      (le64 (c.TimestampTicks d.ServerTimestamp) ++ (le16 d.ServerPicoSeconds ++ []))
      (13 + c.VariantLen v) (by simp [hn]; omega)
    rw [hwf]
    simpa using this
  · have := piece_at_offset ([d.EncodingMask] ++ enc v ++ le32 d.Status ++
        le64 (c.TimestampTicks d.SourceTimestamp) ++ le16 d.SourcePicoSeconds)
      (le64 (c.TimestampTicks d.ServerTimestamp)) (le16 d.ServerPicoSeconds ++ [])
      (15 + c.VariantLen v) (by simp [hn]; omega)
    rw [hwf]
    simpa using this
  · have := piece_at_offset ([d.EncodingMask] ++ enc v ++ le32 d.Status ++
        le64 (c.TimestampTicks d.SourceTimestamp) ++ le16 d.SourcePicoSeconds ++
        le64 (c.TimestampTicks d.ServerTimestamp)) (le16 d.ServerPicoSeconds) []
      (23 + c.VariantLen v) (by simp [hn]; omega)
    rw [hwf]
    simpa using this

theorem serialize_canonical_order_witness :
    (sampleFull.HasValue = true → sampleFull.Value ≠ none) ∧
    sampleFull.Serialize sampleCollab =
      .ok (sampleFull.wireFormat FloatVariant.encode sampleCollab.TimestampTicks) ∧
    ((sampleFull.wireFormat FloatVariant.encode sampleCollab.TimestampTicks).drop
      (1 + sampleCollab.VariantLen 1075839689)).take 4 = le32 sampleFull.Status :=
  ⟨by decide,
   (serialize_canonical_order sampleCollab FloatVariant.encode sampleCollab_variantWrites
      sampleFull (by decide)).1,
   ((serialize_canonical_order sampleCollab FloatVariant.encode sampleCollab_variantWrites
      sampleFull (by decide)).2 1075839689 rfl (by decide)).2.2.2.1⟩

/-! ### Decoding a wire image -/

theorem rd16_le16 (v : Nat) (rest : List Nat) : rd16 (le16 v ++ rest) = v % 65536 := by
  simp [rd16, byteAt, le16]; omega

theorem rd32_le32 (v : Nat) (rest : List Nat) : rd32 (le32 v ++ rest) = v % 4294967296 := by
  simp [rd32, byteAt, le32]; omega

theorem rd32_lt (l : List Nat) : rd32 l < 4294967296 := by
  simp only [rd32, byteAt]; omega

theorem rd64_le64 (v : Nat) (rest : List Nat) :
    rd64 (le64 v ++ rest) = v % 18446744073709551616 := by
  have h1 : rd32 (le64 v ++ rest) = v % 4294967296 % 4294967296 := by
    simp only [le64, List.append_assoc]; exact rd32_le32 _ _
  have h2 : rd32 ((le64 v ++ rest).drop 4) = v / 4294967296 % 4294967296 := by
    have : (le64 v ++ rest).drop 4 = le32 (v / 4294967296) ++ rest := by
      simp [le64, le32]
    rw [this]; exact rd32_le32 _ _
  simp only [rd64, h1, h2]; omega

theorem slice_at (b : Slice) (W piece rest : List Nat) (hb : b.arr = W ++ (piece ++ rest)) :
    (b.slice W.length (W.length + piece.length) : Outcome E Slice) =
      .ok ⟨piece ++ rest, piece.length⟩ := by
  have hcap : W.length + piece.length ≤ b.arr.length := by rw [hb]; simp
  simp [Slice.slice, Slice.cap, hcap, hb]

theorem getStatus_wire (d dk : DataValue V T) (hm : dk.EncodingMask = d.EncodingMask)
    (hS : d.HasStatus = true → d.Status < 4294967296) (b : Slice) (W rest : List Nat)
    (hb : b.arr = W ++ (d.statusBytes ++ rest)) :
    (DataValue.getStatus b (dk, W.length) : Outcome E _) =
      .ok ({ dk with Status := if d.HasStatus then d.Status else dk.Status },
        (W ++ d.statusBytes).length) := by
  have hf : dk.HasStatus = d.HasStatus := by simp only [DataValue.HasStatus, hm]
  unfold DataValue.getStatus
  simp only [hf]
  unfold DataValue.statusBytes at hb ⊢
  by_cases h : d.HasStatus = true
  · simp only [h, if_true] at hb ⊢
    have := slice_at (E := E) b W (le32 d.Status) rest hb
    simp only [le32_length] at this
    simp [this, Uint32, rd32_le32, Nat.mod_eq_of_lt (hS h)]
  · simp [h]

theorem getSourcePicoSeconds_wire (d dk : DataValue V T)
    (hm : dk.EncodingMask = d.EncodingMask)
    (hS : d.HasSourcePicoSeconds = true → d.SourcePicoSeconds < 65536) (b : Slice)
    (W rest : List Nat) (hb : b.arr = W ++ (d.sourcePicoSecondsBytes ++ rest)) :
    (DataValue.getSourcePicoSeconds b (dk, W.length) : Outcome E _) =
      .ok ({ dk with SourcePicoSeconds :=
              if d.HasSourcePicoSeconds then d.SourcePicoSeconds else dk.SourcePicoSeconds },
        (W ++ d.sourcePicoSecondsBytes).length) := by
  have hf : dk.HasSourcePicoSeconds = d.HasSourcePicoSeconds := by
    simp only [DataValue.HasSourcePicoSeconds, hm]
  unfold DataValue.getSourcePicoSeconds
  simp only [hf]
  unfold DataValue.sourcePicoSecondsBytes at hb ⊢
  by_cases h : d.HasSourcePicoSeconds = true
  · simp only [h, if_true] at hb ⊢
    have := slice_at (E := E) b W (le16 d.SourcePicoSeconds) rest hb
    simp only [le16_length] at this
    simp [this, Uint16, rd16_le16, Nat.mod_eq_of_lt (hS h)]
  · simp [h]

theorem getServerPicoSeconds_wire (d dk : DataValue V T)
    (hm : dk.EncodingMask = d.EncodingMask)
    (hS : d.HasServerPicoSeconds = true → d.ServerPicoSeconds < 65536) (b : Slice)
    (W rest : List Nat) (hb : b.arr = W ++ (d.serverPicoSecondsBytes ++ rest)) :
    (DataValue.getServerPicoSeconds b (dk, W.length) : Outcome E _) =
      .ok ({ dk with ServerPicoSeconds :=
              if d.HasServerPicoSeconds then d.ServerPicoSeconds else dk.ServerPicoSeconds },
        (W ++ d.serverPicoSecondsBytes).length) := by
  have hf : dk.HasServerPicoSeconds = d.HasServerPicoSeconds := by
    simp only [DataValue.HasServerPicoSeconds, hm]
  unfold DataValue.getServerPicoSeconds
  simp only [hf]
  unfold DataValue.serverPicoSecondsBytes at hb ⊢
  by_cases h : d.HasServerPicoSeconds = true
  · simp only [h, if_true] at hb ⊢
    have := slice_at (E := E) b W (le16 d.ServerPicoSeconds) rest hb
    simp only [le16_length] at this
    simp [this, Uint16, rd16_le16, Nat.mod_eq_of_lt (hS h)]
  · simp [h]

theorem getSourceTimestamp_wire (c : Collab V T E) (ht : c.TimestampRoundTrips)
    (d dk : DataValue V T) (hm : dk.EncodingMask = d.EncodingMask) (b : Slice)
    (W rest : List Nat) (hb : b.arr = W ++ (d.sourceTimestampBytes c ++ rest)) :
    DataValue.getSourceTimestamp c b (dk, W.length) =
      .ok ({ dk with SourceTimestamp :=
              if d.HasSourceTimestamp then d.SourceTimestamp else dk.SourceTimestamp },
        (W ++ d.sourceTimestampBytes c).length) := by
  have hf : dk.HasSourceTimestamp = d.HasSourceTimestamp := by
    simp only [DataValue.HasSourceTimestamp, hm]
  unfold DataValue.getSourceTimestamp
  simp only [hf]
  unfold DataValue.sourceTimestampBytes at hb ⊢
  by_cases h : d.HasSourceTimestamp = true
  · simp only [h, if_true] at hb ⊢
    have := slice_at (E := E) b W (le64 (c.TimestampTicks d.SourceTimestamp)) rest hb
    simp only [le64_length] at this
    simp [this, DecodeTimestamp, Uint64, rd64_le64, ht d.SourceTimestamp]
  · simp [h]

theorem getServerTimestamp_wire (c : Collab V T E) (ht : c.TimestampRoundTrips)
    (d dk : DataValue V T) (hm : dk.EncodingMask = d.EncodingMask) (b : Slice)
    (W rest : List Nat) (hb : b.arr = W ++ (d.serverTimestampBytes c ++ rest)) :
    DataValue.getServerTimestamp c b (dk, W.length) =
      .ok ({ dk with ServerTimestamp :=
              if d.HasServerTimestamp then d.ServerTimestamp else dk.ServerTimestamp },
        (W ++ d.serverTimestampBytes c).length) := by
  have hf : dk.HasServerTimestamp = d.HasServerTimestamp := by
    simp only [DataValue.HasServerTimestamp, hm]
  unfold DataValue.getServerTimestamp
  simp only [hf]
  unfold DataValue.serverTimestampBytes at hb ⊢
  by_cases h : d.HasServerTimestamp = true
  · simp only [h, if_true] at hb ⊢
    have := slice_at (E := E) b W (le64 (c.TimestampTicks d.ServerTimestamp)) rest hb
    simp only [le64_length] at this
    simp [this, DecodeTimestamp, Uint64, rd64_le64, ht d.ServerTimestamp]
  · simp [h]

theorem getValue_wire (c : Collab V T E) (enc : V → List Nat) (hw : c.VariantWrites enc)
    (hr : c.VariantReads enc) (d dk : DataValue V T) (hm : dk.EncodingMask = d.EncodingMask)
    (hv : d.HasValue = true → d.Value ≠ none) (b : Slice) (W rest : List Nat)
    (hb : b.arr = W ++ (d.valueBytes enc ++ rest))
    (hlen : W.length + (d.valueBytes enc).length ≤ b.len) :
    DataValue.getValue c b (dk, W.length) =
      .ok ({ dk with Value := if d.HasValue then d.Value else dk.Value },
        (W ++ d.valueBytes enc).length) := by
  have hf : dk.HasValue = d.HasValue := by simp only [DataValue.HasValue, hm]
  unfold DataValue.getValue
  simp only [hf]
  unfold DataValue.valueBytes at hb hlen ⊢
  by_cases h : d.HasValue = true
  · simp only [h, if_true] at hb hlen ⊢
    cases hval : d.Value with
    | none => exact absurd hval (hv h)
    | some v =>
      simp only [hval] at hb hlen ⊢
      have h1 : W.length ≤ b.len := by omega
      simp only [Slice.sliceFrom, h1, if_true, Outcome.ok_bind]
      rw [hr v _ (by simp [hb]) (by simp; omega)]
      simp [hw.len_eq]
  · simp [h]

/-- Decoding a buffer that starts with the wire image of `d` overlays `d` on the receiver
and leaves the cursor at `d.Len()`. -/
theorem DataValue.decodeFromBytesCursor_wire (c : Collab V T E) (enc : V → List Nat)
    (hw : c.VariantWrites enc) (hr : c.VariantReads enc) (ht : c.TimestampRoundTrips)
    (d d0 : DataValue V T) (hv : d.HasValue = true → d.Value ≠ none)
    (hS : d.HasStatus = true → d.Status < 4294967296)
    (hP1 : d.HasSourcePicoSeconds = true → d.SourcePicoSeconds < 65536)
    (hP2 : d.HasServerPicoSeconds = true → d.ServerPicoSeconds < 65536)
    (b : Slice) (tail : List Nat) (hb : b.arr = d.wire c enc ++ tail)
    (hlen : d.Len c ≤ b.len) :
    d0.DecodeFromBytesCursor c b = .ok (d0.overlay d, d.Len c) := by
  have hL := DataValue.wire_length c enc hw d
  have hwl : (d.wire c enc).length ≤ b.len := by omega
  unfold DataValue.wire at hL hwl hb
  simp only [List.length_append, List.length_singleton] at hwl
  simp only [List.append_assoc] at hb
  unfold DataValue.DecodeFromBytesCursor
  have h0 : 0 < b.len := by omega
  have hidx : (b.index 0 : Outcome E Nat) = .ok d.EncodingMask := by
    simp [Slice.index, h0, hb]
  rw [hidx]
  simp only [Outcome.ok_bind]
  have e1 : (1 : Nat) = [d.EncodingMask].length := rfl
  rw [e1, getValue_wire c enc hw hr d _ ?_ hv b [d.EncodingMask] _ hb (by simp; omega)]
  simp only [Outcome.ok_bind]
  rw [getStatus_wire d _ ?_ hS b _ _ (by simpa using hb)]
  simp only [Outcome.ok_bind]
  rw [getSourceTimestamp_wire c ht d _ ?_ b _ _ (by simpa using hb)]
  simp only [Outcome.ok_bind]
  rw [getSourcePicoSeconds_wire d _ ?_ hP1 b _ _ (by simpa using hb)]
  simp only [Outcome.ok_bind]
  rw [getServerTimestamp_wire c ht d _ ?_ b _ _ (by simpa using hb)]
  simp only [Outcome.ok_bind]
  rw [getServerPicoSeconds_wire d _ ?_ hP2 b _ tail (by simpa using hb)]
  simp only [DataValue.overlay, hL]

  all_goals rfl
theorem NewDataValue_flags (hasValue hasStatus hasSrcTs hasSrcPs hasSvrTs hasSvrPs : Bool)
    (v : Option V) (status : Nat) (srcTs : T) (srcPs : Nat) (svrTs : T) (svrPs : Nat) :
    (NewDataValue hasValue hasStatus hasSrcTs hasSrcPs hasSvrTs hasSvrPs v status srcTs srcPs
        svrTs svrPs).HasValue = hasValue ∧
    (NewDataValue hasValue hasStatus hasSrcTs hasSrcPs hasSvrTs hasSvrPs v status srcTs srcPs
        svrTs svrPs).HasStatus = hasStatus ∧
    (NewDataValue hasValue hasStatus hasSrcTs hasSrcPs hasSvrTs hasSvrPs v status srcTs srcPs
        svrTs svrPs).HasSourceTimestamp = hasSrcTs ∧
    (NewDataValue hasValue hasStatus hasSrcTs hasSrcPs hasSvrTs hasSvrPs v status srcTs srcPs
        svrTs svrPs).HasSourcePicoSeconds = hasSrcPs ∧
    (NewDataValue hasValue hasStatus hasSrcTs hasSrcPs hasSvrTs hasSvrPs v status srcTs srcPs
        svrTs svrPs).HasServerTimestamp = hasSvrTs ∧
    (NewDataValue hasValue hasStatus hasSrcTs hasSrcPs hasSvrTs hasSvrPs v status srcTs srcPs
        svrTs svrPs).HasServerPicoSeconds = hasSvrPs := by
  cases hasValue <;> cases hasStatus <;> cases hasSrcTs <;> cases hasSrcPs <;>
    cases hasSvrTs <;> cases hasSvrPs <;>
    simp [NewDataValue, DataValue.HasValue, DataValue.HasStatus, DataValue.HasSourceTimestamp,
      DataValue.HasSourcePicoSeconds, DataValue.HasServerTimestamp,
      DataValue.HasServerPicoSeconds, DataValue.SetValueFlag, DataValue.SetStatusFlag,
      DataValue.SetSourceTimestampFlag, DataValue.SetSourcePicoSecondsFlag,
      DataValue.SetServerTimestampFlag, DataValue.SetServerPicoSecondsFlag]

theorem NewDataValue_mask_lt (hasValue hasStatus hasSrcTs hasSrcPs hasSvrTs hasSvrPs : Bool)
    (v : Option V) (status : Nat) (srcTs : T) (srcPs : Nat) (svrTs : T) (svrPs : Nat) :
    (NewDataValue hasValue hasStatus hasSrcTs hasSrcPs hasSvrTs hasSvrPs v status srcTs srcPs
        svrTs svrPs).EncodingMask < 64 := by
  cases hasValue <;> cases hasStatus <;> cases hasSrcTs <;> cases hasSrcPs <;>
    cases hasSvrTs <;> cases hasSvrPs <;>
    simp [NewDataValue, DataValue.SetValueFlag, DataValue.SetStatusFlag,
      DataValue.SetSourceTimestampFlag, DataValue.SetSourcePicoSecondsFlag,
      DataValue.SetServerTimestampFlag, DataValue.SetServerPicoSecondsFlag]

theorem NewDataValue_fields (hasValue hasStatus hasSrcTs hasSrcPs hasSvrTs hasSvrPs : Bool)
    (v : Option V) (status : Nat) (srcTs : T) (srcPs : Nat) (svrTs : T) (svrPs : Nat) :
    (NewDataValue hasValue hasStatus hasSrcTs hasSrcPs hasSvrTs hasSvrPs v status srcTs srcPs
        svrTs svrPs).Value = v ∧
    (NewDataValue hasValue hasStatus hasSrcTs hasSrcPs hasSvrTs hasSvrPs v status srcTs srcPs
        svrTs svrPs).Status = status ∧
    (NewDataValue hasValue hasStatus hasSrcTs hasSrcPs hasSvrTs hasSvrPs v status srcTs srcPs
        svrTs svrPs).SourceTimestamp = srcTs ∧
    (NewDataValue hasValue hasStatus hasSrcTs hasSrcPs hasSvrTs hasSvrPs v status srcTs srcPs
        svrTs svrPs).SourcePicoSeconds = srcPs ∧
    (NewDataValue hasValue hasStatus hasSrcTs hasSrcPs hasSvrTs hasSvrPs v status srcTs srcPs
        svrTs svrPs).ServerTimestamp = svrTs ∧
    (NewDataValue hasValue hasStatus hasSrcTs hasSrcPs hasSvrTs hasSvrPs v status srcTs srcPs
        svrTs svrPs).ServerPicoSeconds = svrPs := by
  cases hasValue <;> cases hasStatus <;> cases hasSrcTs <;> cases hasSrcPs <;>
    cases hasSvrTs <;> cases hasSvrPs <;> exact ⟨rfl, rfl, rfl, rfl, rfl, rfl⟩

theorem decodeDataValue_serialize (c : Collab V T E) (enc : V → List Nat)
    (hw : c.VariantWrites enc) (hr : c.VariantReads enc) (ht : c.TimestampRoundTrips)
    (d : DataValue V T) (hv : d.HasValue = true → d.Value ≠ none) (hin : d.InRange) :
    d.Serialize c = .ok (d.wire c enc) ∧
    DecodeDataValue c (Slice.ofBytes (d.wire c enc)) = .ok ((DataValue.zero c).overlay d) := by
  refine ⟨DataValue.serialize_eq_wire c enc hw d hv, ?_⟩
  have h := DataValue.decodeFromBytesCursor_wire c enc hw hr ht d (DataValue.zero c) hv
    (fun _ => hin.2.1) (fun _ => hin.2.2.1) (fun _ => hin.2.2.2)
    (Slice.ofBytes (d.wire c enc)) [] (by simp [Slice.ofBytes])
    (by simp [Slice.ofBytes, DataValue.wire_length c enc hw d])
  simp [DecodeDataValue, DataValue.DecodeFromBytes, h]

theorem FloatVariant.decode_encode (v : FloatVariant) (s : Slice)
    (hp : FloatVariant.encode v <+: s.arr) (h5 : 5 ≤ s.len) :
    FloatVariant.DecodeFromBytes s = .ok v := by
  obtain ⟨t, ht⟩ := hp
  have h0 : 0 < s.len := by omega
  have h1 : 1 ≤ s.len := by omega
  have h3 : 3 < s.len - 1 := by omega
  have hd : s.arr.drop 1 = le32 v.val ++ t := by rw [← ht]; simp [FloatVariant.encode]
  have hg : s.arr.getD 0 0 = 0x0a := by rw [← ht]; simp [FloatVariant.encode]
  simp only [FloatVariant.DecodeFromBytes, Slice.index, h0, if_true, Outcome.ok_bind, hg,
    Slice.sliceFrom, h1, Uint32, h3, hd, rd32_le32, Outcome.pure_eq_ok]
  congr 1
  apply Fin.ext
  simp [Fin.ofNat, Nat.mod_eq_of_lt v.isLt]

theorem sampleCollab_variantReads : sampleCollab.VariantReads FloatVariant.encode :=
  fun v s hp h5 => FloatVariant.decode_encode v s hp (by simpa [FloatVariant.encode] using h5)

theorem sampleCollab_timestampRoundTrips : sampleCollab.TimestampRoundTrips := by
  intro t
  apply Fin.ext
  simp [sampleCollab, Fin.ofNat, Nat.mod_eq_of_lt t.isLt]

/-- C2: for every DataValue built by `NewDataValue` from any six presence booleans and
field values within the range of their types (Value non-nil when `hasValue`), with Variant
and timestamp collaborators that round-trip their own encodings, `Serialize` succeeds and
`DecodeDataValue` of the result succeeds with the same mask (hence the same presence
flags) and, for every field whose presence flag is set, the same field value. -/
theorem decode_serialize_roundtrip (c : Collab V T E) (enc : V → List Nat)
    (hw : c.VariantWrites enc) (hr : c.VariantReads enc) (ht : c.TimestampRoundTrips)
    (hasValue hasStatus hasSrcTs hasSrcPs hasSvrTs hasSvrPs : Bool)
    (v : Option V) (status : Nat) (srcTs : T) (srcPs : Nat) (svrTs : T) (svrPs : Nat)
    (hv : hasValue = true → v ≠ none) (hS : status < 4294967296) (hP1 : srcPs < 65536)
    (hP2 : svrPs < 65536) (d : DataValue V T)
    (hd : d = NewDataValue hasValue hasStatus hasSrcTs hasSrcPs hasSvrTs hasSvrPs v status
      srcTs srcPs svrTs svrPs) :
    ∃ bytes r, d.Serialize c = .ok bytes ∧ DecodeDataValue c (Slice.ofBytes bytes) = .ok r ∧
      r.EncodingMask = d.EncodingMask ∧
      (r.HasValue = hasValue ∧ r.HasStatus = hasStatus ∧ r.HasSourceTimestamp = hasSrcTs ∧
        r.HasSourcePicoSeconds = hasSrcPs ∧ r.HasServerTimestamp = hasSvrTs ∧
        r.HasServerPicoSeconds = hasSvrPs) ∧
      (hasValue = true → r.Value = v) ∧
      (hasStatus = true → r.Status = status) ∧
      (hasSrcTs = true → r.SourceTimestamp = srcTs) ∧
      (hasSrcPs = true → r.SourcePicoSeconds = srcPs) ∧
      (hasSvrTs = true → r.ServerTimestamp = svrTs) ∧
      (hasSvrPs = true → r.ServerPicoSeconds = svrPs) := by
  obtain ⟨f0, f1, f2, f3, f4, f5⟩ := NewDataValue_flags hasValue hasStatus hasSrcTs hasSrcPs
    hasSvrTs hasSvrPs v status srcTs srcPs svrTs svrPs
  obtain ⟨g0, g1, g2, g3, g4, g5⟩ := NewDataValue_fields hasValue hasStatus hasSrcTs hasSrcPs
    hasSvrTs hasSvrPs v status srcTs srcPs svrTs svrPs
  rw [← hd] at f0 f1 f2 f3 f4 f5 g0 g1 g2 g3 g4 g5
  have hmask : d.EncodingMask < 256 := by
    rw [hd]
    exact Nat.lt_trans (NewDataValue_mask_lt _ _ _ _ _ _ _ _ _ _ _ _) (by decide)
  have hin : d.InRange := ⟨hmask, by rw [g1]; exact hS, by rw [g3]; exact hP1,
    by rw [g5]; exact hP2⟩
  obtain ⟨hs, hdec⟩ := decodeDataValue_serialize c enc hw hr ht d
    (fun h => by rw [g0]; exact hv (by rw [← f0]; exact h)) hin
  refine ⟨_, _, hs, hdec, rfl, ⟨f0, f1, f2, f3, f4, f5⟩, ?_, ?_, ?_, ?_, ?_, ?_⟩
  · intro h; simp [DataValue.overlay, f0, h, g0]
  · intro h; simp [DataValue.overlay, f1, h, g1]
  · intro h; simp [DataValue.overlay, f2, h, g2]
  · intro h; simp [DataValue.overlay, f3, h, g3]
  · intro h; simp [DataValue.overlay, f4, h, g4]
  · intro h; simp [DataValue.overlay, f5, h, g5]

theorem decode_serialize_roundtrip_witness :
    ∃ bytes r, sampleFull.Serialize sampleCollab = .ok bytes ∧
      DecodeDataValue sampleCollab (Slice.ofBytes bytes) = .ok r ∧
      r.EncodingMask = sampleFull.EncodingMask ∧
      (r.HasValue = true ∧ r.HasStatus = true ∧ r.HasSourceTimestamp = true ∧
        r.HasSourcePicoSeconds = true ∧ r.HasServerTimestamp = true ∧
        r.HasServerPicoSeconds = true) ∧
      (true = true → r.Value = some 1075839689) ∧
      (true = true → r.Status = 2147483648) ∧
      (true = true → r.SourceTimestamp = 131816105091120000) ∧
      (true = true → r.SourcePicoSeconds = 513) ∧
      (true = true → r.ServerTimestamp = 131816105091120001) ∧
      (true = true → r.ServerPicoSeconds = 65535) :=
  decode_serialize_roundtrip sampleCollab FloatVariant.encode sampleCollab_variantWrites
    sampleCollab_variantReads sampleCollab_timestampRoundTrips true true true true true true
    (some 1075839689) 2147483648 131816105091120000 513 131816105091120001 65535
    (by decide) (by decide) (by decide) (by decide) sampleFull rfl

/-! ### Encoding into short destinations -/

theorem Outcome.bind_eq_ok {α β : Type} (x : Outcome E α) (f : α → Outcome E β) (y : β)
    (h : (x >>= f) = .ok y) : ∃ a, x = .ok a ∧ f a = .ok y := by
  cases x with
  | ok a => exact ⟨a, rfl, h⟩
  | err e => exact absurd h (by simp)
  | fault p => exact absurd h (by simp)

theorem Outcome.bind_eq_err {α β : Type} (x : Outcome E α) (f : α → Outcome E β) (e : E)
    (h : (x >>= f) = .err e) : x = .err e ∨ ∃ a, x = .ok a ∧ f a = .err e := by
  cases x with
  | ok a => exact Or.inr ⟨a, rfl, h⟩
  | err e1 => left; simpa using h
  | fault p => exact absurd h (by simp)

theorem Slice.slice_ne_err (b : Slice) (lo hi : Nat) (e : E) :
    (b.slice lo hi : Outcome E Slice) ≠ .err e := by
  unfold Slice.slice; split <;> simp

theorem Slice.slice_eq_ok (b : Slice) (lo hi : Nat) (s : Slice)
    (h : (b.slice lo hi : Outcome E Slice) = .ok s) :
    lo ≤ hi ∧ hi ≤ b.arr.length ∧ s = ⟨b.arr.drop lo, hi - lo⟩ := by
  unfold Slice.slice Slice.cap at h
  split at h
  · next hc => exact ⟨hc.1, hc.2, by simpa using h.symm⟩
  · simp at h

theorem Slice.sliceFrom_eq_ok (b : Slice) (lo : Nat) (s : Slice)
    (h : (b.sliceFrom lo : Outcome E Slice) = .ok s) :
    lo ≤ b.len ∧ s = ⟨b.arr.drop lo, b.len - lo⟩ := by
  unfold Slice.sliceFrom at h
  split at h
  · next hc => exact ⟨hc, by simpa using h.symm⟩
  · simp at h

theorem Slice.sliceFrom_ne_err (b : Slice) (lo : Nat) (e : E) :
    (b.sliceFrom lo : Outcome E Slice) ≠ .err e := by
  unfold Slice.sliceFrom; split <;> simp

theorem PutUint16_ne_err (s : Slice) (v : Nat) (e : E) :
    (PutUint16 s v : Outcome E _) ≠ .err e := by
  unfold PutUint16; split <;> simp

theorem PutUint32_ne_err (s : Slice) (v : Nat) (e : E) :
    (PutUint32 s v : Outcome E _) ≠ .err e := by
  unfold PutUint32; split <;> simp

theorem EncodeTimestamp_ne_err (c : Collab V T E) (s : Slice) (t : T) (e : E) :
    EncodeTimestamp c s t ≠ .err e := by
  unfold EncodeTimestamp PutUint64; split <;> simp

/-- A write through `b[off:off+w]` that returns normally found `off+w` within capacity. -/
theorem writeAt_ok_inv (b : Slice) (off w : Nat) (put : Slice → Outcome E (List Nat))
    (r : Slice × Nat)
    (h : (do let s ← b.slice off (off + w)
             let a ← put s
             pure (b.patch off a, off + w) : Outcome E (Slice × Nat)) = .ok r) :
    r.1.arr.length = b.arr.length ∧ r.1.len = b.len ∧ r.2 = off + w ∧
      off + w ≤ b.arr.length := by
  obtain ⟨s, hs, h⟩ := Outcome.bind_eq_ok _ _ _ h
  obtain ⟨a, _, h⟩ := Outcome.bind_eq_ok _ _ _ h
  obtain ⟨_, hcap, _⟩ := Slice.slice_eq_ok b _ _ s hs
  simp only [Outcome.pure_eq_ok, Outcome.ok.injEq] at h
  subst h
  exact ⟨by simp, rfl, rfl, hcap⟩

theorem writeAt_ne_err (b : Slice) (off w : Nat) (put : Slice → Outcome E (List Nat))
    (hput : ∀ s e, put s ≠ .err e) (e : E) :
    (do let s ← b.slice off (off + w)
        let a ← put s
        pure (b.patch off a, off + w) : Outcome E (Slice × Nat)) ≠ .err e := by
  intro h
  rcases Outcome.bind_eq_err _ _ _ h with h | ⟨s, _, h⟩
  · exact Slice.slice_ne_err _ _ _ _ h
  · rcases Outcome.bind_eq_err _ _ _ h with h | ⟨a, _, h⟩
    · exact hput _ _ h
    · simp at h

theorem condWrite_ok_inv (flag : Bool) (b : Slice) (off w : Nat)
    (put : Slice → Outcome E (List Nat)) (r : Slice × Nat)
    (h : (if flag = true then
            (do let s ← b.slice off (off + w)
                let a ← put s
                pure (b.patch off a, off + w))
          else pure (b, off) : Outcome E (Slice × Nat)) = .ok r) :
    r.1.arr.length = b.arr.length ∧ r.1.len = b.len ∧
      r.2 = off + (if flag = true then w else 0) ∧
      (r.2 ≤ b.arr.length ∨ (if flag = true then w else 0) = 0) := by
  cases flag with
  | true =>
    simp only [if_true] at h ⊢
    obtain ⟨h1, h2, h3, h4⟩ := writeAt_ok_inv _ _ _ _ _ h
    exact ⟨h1, h2, h3, Or.inl (by omega)⟩
  | false =>
    simp at h
    subst h; simp

theorem condWrite_ne_err (flag : Bool) (b : Slice) (off w : Nat)
    (put : Slice → Outcome E (List Nat)) (hput : ∀ s e, put s ≠ .err e) (e : E) :
    (if flag = true then
        (do let s ← b.slice off (off + w)
            let a ← put s
            pure (b.patch off a, off + w))
      else pure (b, off) : Outcome E (Slice × Nat)) ≠ .err e := by
  cases flag with
  | true => simpa using writeAt_ne_err b off w put hput e
  | false => simp

theorem putStatus_ok_inv (d : DataValue V T) (st r : Slice × Nat)
    (h : (d.putStatus st : Outcome E _) = .ok r) :
    r.1.arr.length = st.1.arr.length ∧ r.1.len = st.1.len ∧
      r.2 = st.2 + (if d.HasStatus = true then 4 else 0) ∧
      (r.2 ≤ st.1.arr.length ∨ (if d.HasStatus = true then 4 else 0) = 0) :=
  condWrite_ok_inv d.HasStatus st.1 st.2 4 (fun s => PutUint32 s d.Status) r h

theorem putSourceTimestamp_ok_inv (c : Collab V T E) (d : DataValue V T) (st r : Slice × Nat)
    (h : d.putSourceTimestamp c st = .ok r) :
    r.1.arr.length = st.1.arr.length ∧ r.1.len = st.1.len ∧
      r.2 = st.2 + (if d.HasSourceTimestamp = true then 8 else 0) ∧
      (r.2 ≤ st.1.arr.length ∨ (if d.HasSourceTimestamp = true then 8 else 0) = 0) :=
  condWrite_ok_inv d.HasSourceTimestamp st.1 st.2 8
    (fun s => EncodeTimestamp c s d.SourceTimestamp) r h

theorem putSourcePicoSeconds_ok_inv (d : DataValue V T) (st r : Slice × Nat)
    (h : (d.putSourcePicoSeconds st : Outcome E _) = .ok r) :
    r.1.arr.length = st.1.arr.length ∧ r.1.len = st.1.len ∧
      r.2 = st.2 + (if d.HasSourcePicoSeconds = true then 2 else 0) ∧
      (r.2 ≤ st.1.arr.length ∨ (if d.HasSourcePicoSeconds = true then 2 else 0) = 0) :=
  condWrite_ok_inv d.HasSourcePicoSeconds st.1 st.2 2
    (fun s => PutUint16 s d.SourcePicoSeconds) r h

theorem putServerTimestamp_ok_inv (c : Collab V T E) (d : DataValue V T) (st r : Slice × Nat)
    (h : d.putServerTimestamp c st = .ok r) :
    r.1.arr.length = st.1.arr.length ∧ r.1.len = st.1.len ∧
      r.2 = st.2 + (if d.HasServerTimestamp = true then 8 else 0) ∧
      (r.2 ≤ st.1.arr.length ∨ (if d.HasServerTimestamp = true then 8 else 0) = 0) :=
  condWrite_ok_inv d.HasServerTimestamp st.1 st.2 8
    (fun s => EncodeTimestamp c s d.ServerTimestamp) r h

theorem putServerPicoSeconds_ok_inv (d : DataValue V T) (st r : Slice × Nat)
    (h : (d.putServerPicoSeconds st : Outcome E _) = .ok r) :
    r.1.arr.length = st.1.arr.length ∧ r.1.len = st.1.len ∧
      r.2 = st.2 + (if d.HasServerPicoSeconds = true then 2 else 0) ∧
      (r.2 ≤ st.1.arr.length ∨ (if d.HasServerPicoSeconds = true then 2 else 0) = 0) :=
  condWrite_ok_inv d.HasServerPicoSeconds st.1 st.2 2
    (fun s => PutUint16 s d.ServerPicoSeconds) r h

theorem putStatus_ne_err (d : DataValue V T) (st : Slice × Nat) (e : E) :
    (d.putStatus st : Outcome E _) ≠ .err e :=
  condWrite_ne_err d.HasStatus st.1 st.2 4 _ (fun s e => PutUint32_ne_err s _ e) e

theorem putSourceTimestamp_ne_err (c : Collab V T E) (d : DataValue V T) (st : Slice × Nat)
    (e : E) : d.putSourceTimestamp c st ≠ .err e :=
  condWrite_ne_err d.HasSourceTimestamp st.1 st.2 8 _
    (fun s e => EncodeTimestamp_ne_err c s _ e) e

theorem putSourcePicoSeconds_ne_err (d : DataValue V T) (st : Slice × Nat) (e : E) :
    (d.putSourcePicoSeconds st : Outcome E _) ≠ .err e :=
  condWrite_ne_err d.HasSourcePicoSeconds st.1 st.2 2 _ (fun s e => PutUint16_ne_err s _ e) e

theorem putServerTimestamp_ne_err (c : Collab V T E) (d : DataValue V T) (st : Slice × Nat)
    (e : E) : d.putServerTimestamp c st ≠ .err e :=
  condWrite_ne_err d.HasServerTimestamp st.1 st.2 8 _
    (fun s e => EncodeTimestamp_ne_err c s _ e) e

theorem putServerPicoSeconds_ne_err (d : DataValue V T) (st : Slice × Nat) (e : E) :
    (d.putServerPicoSeconds st : Outcome E _) ≠ .err e :=
  condWrite_ne_err d.HasServerPicoSeconds st.1 st.2 2 _ (fun s e => PutUint16_ne_err s _ e) e

/-- The Value block of `SerializeTo`, when it returns normally, keeps length and capacity
of the destination and leaves the cursor within capacity past a non-nil Variant. -/
theorem putValue_ok_inv (c : Collab V T E) (hroom : c.VariantNeedsRoom) (d : DataValue V T)
    (st r : Slice × Nat) (hwf : st.1.len ≤ st.1.arr.length) (hoff : st.2 ≤ st.1.arr.length)
    (h : d.putValue c st = .ok r) :
    r.1.arr.length = st.1.arr.length ∧ r.1.len = st.1.len ∧
      st.2 + d.valueLen c ≤ r.2 ∧ st.2 + d.valueLen c ≤ st.1.arr.length := by
  unfold DataValue.putValue at h
  unfold DataValue.valueLen
  by_cases hf : d.HasValue = true
  · simp only [hf, if_true] at h ⊢
    obtain ⟨s, hs, h⟩ := Outcome.bind_eq_ok _ _ _ h
    obtain ⟨hlo, hs⟩ := Slice.sliceFrom_eq_ok _ _ _ hs
    cases hval : d.Value with
    | none =>
      simp only [hval] at h
      obtain ⟨a, _, h⟩ := Outcome.bind_eq_ok _ _ _ h
      cases hn : c.VariantNilLen with
      | none => simp [hn] at h
      | some n =>
        simp only [hn, Outcome.pure_eq_ok, Outcome.ok.injEq] at h
        subst h
        exact ⟨by simp, rfl, by simp, by simpa using hoff⟩
    | some v =>
      simp only [hval] at h
      obtain ⟨a, ha, h⟩ := Outcome.bind_eq_ok _ _ _ h
      simp only [Outcome.pure_eq_ok, Outcome.ok.injEq] at h
      subst h
      have hr := hroom v s a (by subst hs; simp; omega) ha
      subst hs
      simp only [List.length_drop] at hr
      exact ⟨by simp, rfl, by simp, by simp only []; omega⟩
  · simp only [hf] at h ⊢
    simp only [Outcome.pure_eq_ok, Outcome.ok.injEq, Bool.false_eq_true, if_false] at h
    subst h
    exact ⟨rfl, rfl, by simp, by simpa using hoff⟩

theorem putValue_ne_err (c : Collab V T E) (d : DataValue V T) (hf : d.HasValue = false)
    (st : Slice × Nat) (e : E) : d.putValue c st ≠ .err e := by
  unfold DataValue.putValue
  simp [hf]

theorem Slice.store_eq_ok (b : Slice) (i x : Nat) (r : Slice)
    (h : (b.store i x : Outcome E Slice) = .ok r) :
    i < b.len ∧ r.arr.length = b.arr.length ∧ r.len = b.len := by
  unfold Slice.store at h
  split at h
  · next hc =>
    simp only [Outcome.ok.injEq] at h
    subst h
    exact ⟨hc, by simp, rfl⟩
  · simp at h

theorem Slice.store_ne_err (b : Slice) (i x : Nat) (e : E) :
    (b.store i x : Outcome E Slice) ≠ .err e := by
  unfold Slice.store; split <;> simp

theorem DataValue.Len_eq (c : Collab V T E) (d : DataValue V T) :
    d.Len c = 1 + d.valueLen c + (if d.HasStatus = true then 4 else 0) +
      (if d.HasSourceTimestamp = true then 8 else 0) +
      (if d.HasSourcePicoSeconds = true then 2 else 0) +
      (if d.HasServerTimestamp = true then 8 else 0) +
      (if d.HasServerPicoSeconds = true then 2 else 0) := by
  unfold DataValue.Len DataValue.valueLen
  cases d.Value <;> cases d.HasValue <;> cases d.HasStatus <;> cases d.HasSourceTimestamp <;>
    cases d.HasSourcePicoSeconds <;> cases d.HasServerTimestamp <;>
    cases d.HasServerPicoSeconds <;> simp

/-- `SerializeTo` returns normally only on a destination whose capacity is at least
`Len()`. -/
theorem DataValue.serializeToCursor_ok_cap (c : Collab V T E) (hroom : c.VariantNeedsRoom)
    (d : DataValue V T) (b : Slice) (hwf : b.len ≤ b.arr.length) (r : Slice × Nat)
    (h : d.SerializeToCursor c b = .ok r) :
    d.Len c ≤ b.arr.length ∧ r.1.arr.length = b.arr.length ∧ r.1.len = b.len := by
  unfold DataValue.SerializeToCursor at h
  obtain ⟨b0, h0, h⟩ := Outcome.bind_eq_ok _ _ _ h
  obtain ⟨s1, h1, h⟩ := Outcome.bind_eq_ok _ _ _ h
  obtain ⟨s2, h2, h⟩ := Outcome.bind_eq_ok _ _ _ h
  obtain ⟨s3, h3, h⟩ := Outcome.bind_eq_ok _ _ _ h
  obtain ⟨s4, h4, h⟩ := Outcome.bind_eq_ok _ _ _ h
  obtain ⟨s5, h5, h6⟩ := Outcome.bind_eq_ok _ _ _ h
  obtain ⟨a0, a1, a2⟩ := Slice.store_eq_ok _ _ _ _ h0
  obtain ⟨b1, b2, b3, b4⟩ := putValue_ok_inv c hroom d _ _ (by simp; omega) (by simp; omega) h1
  obtain ⟨c1, c2, c3, c4⟩ := putStatus_ok_inv d _ _ h2
  obtain ⟨d1, d2, d3, d4⟩ := putSourceTimestamp_ok_inv c d _ _ h3
  obtain ⟨e1, e2, e3, e4⟩ := putSourcePicoSeconds_ok_inv d _ _ h4
  obtain ⟨f1, f2, f3, f4⟩ := putServerTimestamp_ok_inv c d _ _ h5
  obtain ⟨g1, g2, g3, g4⟩ := putServerPicoSeconds_ok_inv d _ _ h6
  simp only at b1 b2 b3 b4
  rw [DataValue.Len_eq]
  clear h h0 h1 h2 h3 h4 h5 h6
  generalize (if d.HasStatus = true then 4 else 0) = k1 at *
  generalize (if d.HasSourceTimestamp = true then 8 else 0) = k2 at *
  generalize (if d.HasSourcePicoSeconds = true then 2 else 0) = k3 at *
  generalize (if d.HasServerTimestamp = true then 8 else 0) = k4 at *
  generalize (if d.HasServerPicoSeconds = true then 2 else 0) = k5 at *
  omega

theorem DataValue.serializeToCursor_ne_err (c : Collab V T E) (d : DataValue V T)
    (hf : d.HasValue = false) (b : Slice) (e : E) : d.SerializeToCursor c b ≠ .err e := by
  intro h
  unfold DataValue.SerializeToCursor at h
  rcases Outcome.bind_eq_err _ _ _ h with h | ⟨_, _, h⟩
  · exact Slice.store_ne_err _ _ _ _ h
  rcases Outcome.bind_eq_err _ _ _ h with h | ⟨_, _, h⟩
  · exact putValue_ne_err c d hf _ _ h
  rcases Outcome.bind_eq_err _ _ _ h with h | ⟨_, _, h⟩
  · exact putStatus_ne_err d _ _ h
  rcases Outcome.bind_eq_err _ _ _ h with h | ⟨_, _, h⟩
  · exact putSourceTimestamp_ne_err c d _ _ h
  rcases Outcome.bind_eq_err _ _ _ h with h | ⟨_, _, h⟩
  · exact putSourcePicoSeconds_ne_err d _ _ h
  rcases Outcome.bind_eq_err _ _ _ h with h | ⟨_, _, h⟩
  · exact putServerTimestamp_ne_err c d _ _ h
  · exact putServerPicoSeconds_ne_err d _ _ h
theorem DataValueArray.Len_eq_sum (c : Collab V T E) (vs : List (DataValue V T)) (n : Nat) :
    vs.foldl (fun l value => l + value.Len c) n = n + (vs.map (DataValue.Len c)).sum := by
  induction vs generalizing n with
  | nil => simp
  | cons v rest ih => simp [List.foldl_cons, ih, Nat.add_assoc]

theorem DataValue.serializeTo_eq_ok (c : Collab V T E) (d : DataValue V T) (b r : Slice)
    (h : d.SerializeTo c b = .ok r) : ∃ off, d.SerializeToCursor c b = .ok (r, off) := by
  unfold DataValue.SerializeTo at h
  obtain ⟨x, hx, h⟩ := Outcome.bind_eq_ok _ _ _ h
  simp only [Outcome.pure_eq_ok, Outcome.ok.injEq] at h
  exact ⟨x.2, by rw [hx, ← h]⟩

/-- The element loop of the array encoder returns normally only when all elements fit
within the capacity of the destination. -/
theorem DataValueArray.serializeLoop_ok_cap (c : Collab V T E) (hroom : c.VariantNeedsRoom)
    (vs : List (DataValue V T)) (st r : Slice × Nat) (hwf : st.1.len ≤ st.1.arr.length)
    (hoff : st.2 ≤ st.1.arr.length) (h : DataValueArray.serializeLoop c vs st = .ok r) :
    st.2 + (vs.map (DataValue.Len c)).sum ≤ st.1.arr.length := by
  induction vs generalizing st with
  | nil => simpa using hoff
  | cons v rest ih =>
    unfold DataValueArray.serializeLoop at h
    obtain ⟨s, hs, h2⟩ := Outcome.bind_eq_ok _ _ _ h
    obtain ⟨s1, hs1, h3⟩ := Outcome.bind_eq_ok _ _ _ h2
    clear h h2
    obtain ⟨hlo, hs⟩ := Slice.sliceFrom_eq_ok _ _ _ hs
    obtain ⟨off, hs1⟩ := DataValue.serializeTo_eq_ok c v s s1 hs1
    have hcap := (DataValue.serializeToCursor_ok_cap c hroom v s (by subst hs; simp; omega) _
      hs1).1
    subst hs
    simp only [List.length_drop] at hcap
    have := ih (st.1.patch st.2 s1.arr, st.2 + v.Len c) (by simpa using hwf)
      (by simp; omega) h3
    simp only [Slice.patch_cap] at this
    simp only [List.map_cons, List.sum_cons]
    omega

theorem PutUint32_eq_ok (s : Slice) (v : Nat) (a : List Nat)
    (h : (PutUint32 s v : Outcome E _) = .ok a) : a = le32 v ++ s.arr.drop 4 := by
  unfold PutUint32 at h
  split at h
  · simpa using h.symm
  · simp at h

theorem DataValueArray.arraySerializeToCursor_ok_cap (c : Collab V T E) (hroom : c.VariantNeedsRoom)
    (a : DataValueArray V T) (b : Slice) (hwf : b.len ≤ b.arr.length) (r : Slice × Nat)
    (h : a.SerializeToCursor c b = .ok r) : a.Len c ≤ b.arr.length := by
  unfold DataValueArray.SerializeToCursor at h
  obtain ⟨s, hs, h⟩ := Outcome.bind_eq_ok _ _ _ h
  obtain ⟨x, _, h⟩ := Outcome.bind_eq_ok _ _ _ h
  obtain ⟨_, hcap, _⟩ := Slice.slice_eq_ok _ _ _ _ hs
  have := DataValueArray.serializeLoop_ok_cap c hroom a.DataValues _ r (by simpa using hwf)
    (by simpa using hcap) h
  simp only [Slice.patch_cap] at this
  unfold DataValueArray.Len
  rw [DataValueArray.Len_eq_sum]
  exact this

theorem Outcome.isOk_eq_false {α : Type} (x : Outcome E α) (h : ∀ a, x ≠ .ok a) :
    x.isOk = false := by
  cases x with
  | ok a => exact absurd rfl (h a)
  | err e => rfl
  | fault p => rfl

theorem Outcome.isFault_of_not_ok_err {α : Type} (x : Outcome E α) (h : ∀ a, x ≠ .ok a)
    (h2 : ∀ e, x ≠ .err e) : x.isFault = true := by
  cases x with
  | ok a => exact absurd rfl (h a)
  | err e => exact absurd rfl (h2 e)
  | fault p => rfl

theorem FloatVariant.serializeTo_ok_room (v : FloatVariant) (s : Slice) (a : List Nat)
    (hwf : s.len ≤ s.arr.length) (h : FloatVariant.SerializeTo v s = .ok a) :
    5 ≤ s.arr.length := by
  unfold FloatVariant.SerializeTo at h
  obtain ⟨s1, h1, h⟩ := Outcome.bind_eq_ok _ _ _ h
  obtain ⟨p, hp, h⟩ := Outcome.bind_eq_ok _ _ _ h
  obtain ⟨x, hx, h⟩ := Outcome.bind_eq_ok _ _ _ h
  obtain ⟨_, _, h1l⟩ := Slice.store_eq_ok _ _ _ _ h1
  obtain ⟨_, hp⟩ := Slice.sliceFrom_eq_ok _ _ _ hp
  subst hp
  unfold PutUint32 at hx
  split at hx
  · next hc => simp only at hc; omega
  · simp at hx

theorem sampleCollab_variantNeedsRoom : sampleCollab.VariantNeedsRoom :=
  fun v s a hwf h => FloatVariant.serializeTo_ok_room v s a hwf h

/-- C5 (amended): on a well-formed destination whose capacity is below `Len()`, with a
Variant collaborator that does not report success on a destination shorter than its own
`Len()`, `DataValue.SerializeTo` never returns success (so never silently truncates); with
the Value bit clear it ends in a run-time panic, otherwise in a panic or in the Variant's
own failure; no OutputTooSmall error exists.  `DataValueArray.SerializeTo` likewise never
returns success on a destination whose capacity is below the array's `Len()`. -/
theorem serializeTo_short_buffer_never_succeeds (c : Collab V T E) (hroom : c.VariantNeedsRoom)
    (d : DataValue V T) (b : Slice) (hwf : b.WF) (hshort : b.cap < d.Len c)
    (a : DataValueArray V T) (b2 : Slice) (hwf2 : b2.WF) (hshort2 : b2.cap < a.Len c) :
    (d.SerializeTo c b).isOk = false ∧
    (d.HasValue = false → (d.SerializeTo c b).isFault = true) ∧
    (a.SerializeTo c b2).isOk = false := by
  have h1 : ∀ r, d.SerializeTo c b ≠ .ok r := by
    intro r h
    obtain ⟨off, h⟩ := DataValue.serializeTo_eq_ok c d b r h
    have := (DataValue.serializeToCursor_ok_cap c hroom d b hwf _ h).1
    unfold Slice.cap at hshort
    omega
  refine ⟨Outcome.isOk_eq_false _ h1, ?_, ?_⟩
  · intro hf
    apply Outcome.isFault_of_not_ok_err _ h1
    intro e h
    unfold DataValue.SerializeTo at h
    rcases Outcome.bind_eq_err _ _ _ h with h | ⟨_, _, h⟩
    · exact DataValue.serializeToCursor_ne_err c d hf b e h
    · simp at h
  · apply Outcome.isOk_eq_false
    intro r h
    unfold DataValueArray.SerializeTo at h
    obtain ⟨x, hx, _⟩ := Outcome.bind_eq_ok _ _ _ h
    have := DataValueArray.arraySerializeToCursor_ok_cap c hroom a b2 hwf2 x hx
    unfold Slice.cap at hshort2
    omega

theorem serializeTo_short_buffer_never_succeeds_witness :
    (sampleFull.SerializeTo sampleCollab (Slice.make 29)).isOk = false ∧
    (sampleStatusOnly.HasValue = false →
      (sampleStatusOnly.SerializeTo sampleCollab (Slice.make 4)).isFault = true) ∧
    (sampleEmptyArray.SerializeTo sampleCollab (Slice.make 3)).isOk = false :=
  ⟨(serializeTo_short_buffer_never_succeeds sampleCollab sampleCollab_variantNeedsRoom
      sampleFull (Slice.make 29) (by decide) (by decide) sampleEmptyArray (Slice.make 3)
      (by decide) (by decide)).1,
   (serializeTo_short_buffer_never_succeeds sampleCollab sampleCollab_variantNeedsRoom
      sampleStatusOnly (Slice.make 4) (by decide) (by decide) sampleEmptyArray (Slice.make 3)
      (by decide) (by decide)).2.1,
   (serializeTo_short_buffer_never_succeeds sampleCollab sampleCollab_variantNeedsRoom
      sampleFull (Slice.make 29) (by decide) (by decide) sampleEmptyArray (Slice.make 3)
      (by decide) (by decide)).2.2⟩

/-- C5 fails as stated: on an empty destination `DataValue.SerializeTo` panics with an
index out of range instead of returning an error; on a destination of length 1 and
capacity 5 it returns success for a record of `Len()` 5, writing past the length; and
`DataValueArray.SerializeTo` on a 3-byte destination panics on the slice expression
`b[:4]`. -/
theorem serializeTo_short_buffer_counterexample :
    ((Slice.make 0).len < sampleStatusOnly.Len sampleCollab ∧
      sampleStatusOnly.SerializeTo sampleCollab (Slice.make 0) = .fault .indexOutOfRange ∧
      (sampleStatusOnly.SerializeTo sampleCollab (Slice.make 0)).isErr = false) ∧
    ((⟨[0, 0, 0, 0, 0], 1⟩ : Slice).len < sampleStatusOnly.Len sampleCollab ∧
      sampleStatusOnly.SerializeTo sampleCollab ⟨[0, 0, 0, 0, 0], 1⟩ =
        .ok ⟨[2, 1, 0, 0, 0], 1⟩) ∧
    ((Slice.make 3).len < sampleEmptyArray.Len sampleCollab ∧
      sampleEmptyArray.SerializeTo sampleCollab (Slice.make 3) =
        .fault .sliceBoundsOutOfRange ∧
      (sampleEmptyArray.SerializeTo sampleCollab (Slice.make 3)).isErr = false) := by
  decide

/-! ### Decoding truncated input -/

theorem Uint16_ne_err (s : Slice) (e : E) : (Uint16 s : Outcome E _) ≠ .err e := by
  unfold Uint16; split <;> simp

theorem Uint32_ne_err (s : Slice) (e : E) : (Uint32 s : Outcome E _) ≠ .err e := by
  unfold Uint32; split <;> simp

theorem DecodeTimestamp_ne_err (c : Collab V T E) (s : Slice) (e : E) :
    DecodeTimestamp c s ≠ .err e := by
  unfold DecodeTimestamp Uint64; split <;> simp

/-- A conditional fixed-width read that returns normally either was skipped or found its
`w` bytes within capacity. -/
theorem condRead_ok_inv {α : Type} (flag : Bool) (b : Slice) (dk : DataValue V T)
    (off w : Nat) (rd : Slice → Outcome E α) (upd : α → DataValue V T)
    (r : DataValue V T × Nat)
    (h : (if flag = true then
            (do let s ← b.slice off (off + w)
                let x ← rd s
                pure (upd x, off + w))
          else pure (dk, off) : Outcome E (DataValue V T × Nat)) = .ok r) :
    r.2 = off + (if flag = true then w else 0) ∧
      (r.2 ≤ b.arr.length ∨ (if flag = true then w else 0) = 0) ∧
      (r.1 = dk ∨ ∃ x, r.1 = upd x) := by
  cases flag with
  | true =>
    simp only [if_true] at h ⊢
    obtain ⟨s, hs, h⟩ := Outcome.bind_eq_ok _ _ _ h
    obtain ⟨x, _, h⟩ := Outcome.bind_eq_ok _ _ _ h
    obtain ⟨_, hcap, _⟩ := Slice.slice_eq_ok b _ _ s hs
    simp only [Outcome.pure_eq_ok, Outcome.ok.injEq] at h
    subst h
    exact ⟨rfl, Or.inl hcap, Or.inr ⟨x, rfl⟩⟩
  | false =>
    simp at h
    subst h; simp

theorem condRead_ne_err {α : Type} (flag : Bool) (b : Slice) (dk : DataValue V T)
    (off w : Nat) (rd : Slice → Outcome E α) (upd : α → DataValue V T)
    (hrd : ∀ s e, rd s ≠ .err e) (e : E) :
    (if flag = true then
        (do let s ← b.slice off (off + w)
            let x ← rd s
            pure (upd x, off + w))
      else pure (dk, off) : Outcome E (DataValue V T × Nat)) ≠ .err e := by
  cases flag with
  | true =>
    simp only [if_true]
    intro h
    rcases Outcome.bind_eq_err _ _ _ h with h | ⟨s, _, h⟩
    · exact Slice.slice_ne_err _ _ _ _ h
    · rcases Outcome.bind_eq_err _ _ _ h with h | ⟨a, _, h⟩
      · exact hrd _ _ h
      · simp at h
  | false => simp

theorem getStatus_ok_inv (b : Slice) (st r : DataValue V T × Nat)
    (h : (DataValue.getStatus b st : Outcome E _) = .ok r) :
    r.2 = st.2 + (if st.1.HasStatus = true then 4 else 0) ∧
      (r.2 ≤ b.arr.length ∨ (if st.1.HasStatus = true then 4 else 0) = 0) ∧
      r.1.EncodingMask = st.1.EncodingMask ∧ r.1.Value = st.1.Value := by
  obtain ⟨h1, h2, h3⟩ := condRead_ok_inv st.1.HasStatus b st.1 st.2 4 Uint32
    (fun x => { st.1 with Status := x }) r h
  refine ⟨h1, h2, ?_⟩
  rcases h3 with h3 | ⟨x, h3⟩ <;> rw [h3] <;> exact ⟨rfl, rfl⟩

theorem getSourceTimestamp_ok_inv (c : Collab V T E) (b : Slice) (st r : DataValue V T × Nat)
    (h : DataValue.getSourceTimestamp c b st = .ok r) :
    r.2 = st.2 + (if st.1.HasSourceTimestamp = true then 8 else 0) ∧
      (r.2 ≤ b.arr.length ∨ (if st.1.HasSourceTimestamp = true then 8 else 0) = 0) ∧
      r.1.EncodingMask = st.1.EncodingMask ∧ r.1.Value = st.1.Value := by
  obtain ⟨h1, h2, h3⟩ := condRead_ok_inv st.1.HasSourceTimestamp b st.1 st.2 8
    (DecodeTimestamp c) (fun x => { st.1 with SourceTimestamp := x }) r h
  refine ⟨h1, h2, ?_⟩
  rcases h3 with h3 | ⟨x, h3⟩ <;> rw [h3] <;> exact ⟨rfl, rfl⟩

theorem getSourcePicoSeconds_ok_inv (b : Slice) (st r : DataValue V T × Nat)
    (h : (DataValue.getSourcePicoSeconds b st : Outcome E _) = .ok r) :
    r.2 = st.2 + (if st.1.HasSourcePicoSeconds = true then 2 else 0) ∧
      (r.2 ≤ b.arr.length ∨ (if st.1.HasSourcePicoSeconds = true then 2 else 0) = 0) ∧
      r.1.EncodingMask = st.1.EncodingMask ∧ r.1.Value = st.1.Value := by
  obtain ⟨h1, h2, h3⟩ := condRead_ok_inv st.1.HasSourcePicoSeconds b st.1 st.2 2 Uint16
    (fun x => { st.1 with SourcePicoSeconds := x }) r h
  refine ⟨h1, h2, ?_⟩
  rcases h3 with h3 | ⟨x, h3⟩ <;> rw [h3] <;> exact ⟨rfl, rfl⟩

theorem getServerTimestamp_ok_inv (c : Collab V T E) (b : Slice) (st r : DataValue V T × Nat)
    (h : DataValue.getServerTimestamp c b st = .ok r) :
    r.2 = st.2 + (if st.1.HasServerTimestamp = true then 8 else 0) ∧
      (r.2 ≤ b.arr.length ∨ (if st.1.HasServerTimestamp = true then 8 else 0) = 0) ∧
      r.1.EncodingMask = st.1.EncodingMask ∧ r.1.Value = st.1.Value := by
  obtain ⟨h1, h2, h3⟩ := condRead_ok_inv st.1.HasServerTimestamp b st.1 st.2 8
    (DecodeTimestamp c) (fun x => { st.1 with ServerTimestamp := x }) r h
  refine ⟨h1, h2, ?_⟩
  rcases h3 with h3 | ⟨x, h3⟩ <;> rw [h3] <;> exact ⟨rfl, rfl⟩

theorem getServerPicoSeconds_ok_inv (b : Slice) (st r : DataValue V T × Nat)
    (h : (DataValue.getServerPicoSeconds b st : Outcome E _) = .ok r) :
    r.2 = st.2 + (if st.1.HasServerPicoSeconds = true then 2 else 0) ∧
      (r.2 ≤ b.arr.length ∨ (if st.1.HasServerPicoSeconds = true then 2 else 0) = 0) ∧
      r.1.EncodingMask = st.1.EncodingMask ∧ r.1.Value = st.1.Value := by
  obtain ⟨h1, h2, h3⟩ := condRead_ok_inv st.1.HasServerPicoSeconds b st.1 st.2 2 Uint16
    (fun x => { st.1 with ServerPicoSeconds := x }) r h
  refine ⟨h1, h2, ?_⟩
  rcases h3 with h3 | ⟨x, h3⟩ <;> rw [h3] <;> exact ⟨rfl, rfl⟩

theorem getValue_ok_inv (c : Collab V T E) (b : Slice) (st r : DataValue V T × Nat)
    (h : DataValue.getValue c b st = .ok r) :
    r.1.EncodingMask = st.1.EncodingMask ∧
      (st.1.HasValue = false → r = st) ∧
      (st.1.HasValue = true → st.2 ≤ b.len ∧
        ∃ v, c.VariantDecodeFromBytes ⟨b.arr.drop st.2, b.len - st.2⟩ = .ok v ∧
          r.1.Value = some v ∧ r.2 = st.2 + c.VariantLen v) := by
  unfold DataValue.getValue at h
  by_cases hf : st.1.HasValue = true
  · simp only [hf, if_true] at h
    obtain ⟨s, hs, h2⟩ := Outcome.bind_eq_ok _ _ _ h
    obtain ⟨v, hv, h3⟩ := Outcome.bind_eq_ok _ _ _ h2
    obtain ⟨hlo, hs⟩ := Slice.sliceFrom_eq_ok _ _ _ hs
    simp only [Outcome.pure_eq_ok, Outcome.ok.injEq] at h3
    subst h3
    subst hs
    exact ⟨rfl, fun h0 => by simp [hf] at h0, fun _ => ⟨hlo, v, hv, rfl, rfl⟩⟩
  · simp only [hf] at h
    simp only [Outcome.pure_eq_ok, Outcome.ok.injEq, Bool.false_eq_true, if_false] at h
    subst h
    exact ⟨rfl, fun _ => rfl, fun h0 => absurd h0 hf⟩

theorem Slice.index_eq_ok (b : Slice) (i m : Nat) (h : (b.index i : Outcome E Nat) = .ok m) :
    i < b.len ∧ m = b.arr.getD i 0 := by
  unfold Slice.index at h
  split at h
  · next hc => exact ⟨hc, by simpa using h.symm⟩
  · simp at h

theorem Slice.index_ne_err (b : Slice) (i : Nat) (e : E) :
    (b.index i : Outcome E Nat) ≠ .err e := by
  unfold Slice.index; split <;> simp

theorem hasFlags_congr (d r : DataValue V T) (h : r.EncodingMask = d.EncodingMask) :
    r.HasValue = d.HasValue ∧ r.HasStatus = d.HasStatus ∧
    r.HasSourceTimestamp = d.HasSourceTimestamp ∧
    r.HasSourcePicoSeconds = d.HasSourcePicoSeconds ∧
    r.HasServerTimestamp = d.HasServerTimestamp ∧
    r.HasServerPicoSeconds = d.HasServerPicoSeconds := by
  simp only [DataValue.HasValue, DataValue.HasStatus, DataValue.HasSourceTimestamp,
    DataValue.HasSourcePicoSeconds, DataValue.HasServerTimestamp,
    DataValue.HasServerPicoSeconds, h, and_self]

/-- What a normal return of `DecodeFromBytes` tells about the buffer and the result. -/
theorem DataValue.decodeFromBytesCursor_ok_inv (c : Collab V T E) (d0 : DataValue V T)
    (b : Slice) (r : DataValue V T × Nat) (h : d0.DecodeFromBytesCursor c b = .ok r) :
    0 < b.len ∧ r.1.EncodingMask = b.arr.getD 0 0 ∧ r.2 = r.1.Len c ∧
      (r.1.HasValue = false → r.1.Value = d0.Value) ∧
      (r.1.HasValue = true →
        ∃ v, c.VariantDecodeFromBytes ⟨b.arr.drop 1, b.len - 1⟩ = .ok v ∧
          r.1.Value = some v) ∧
      (1 + r.1.valueLen c ≤ b.arr.length → r.1.Len c ≤ b.arr.length) := by
  unfold DataValue.DecodeFromBytesCursor at h
  obtain ⟨m, h0, t0⟩ := Outcome.bind_eq_ok _ _ _ h
  obtain ⟨s1, h1, t1⟩ := Outcome.bind_eq_ok _ _ _ t0
  obtain ⟨s2, h2, t2⟩ := Outcome.bind_eq_ok _ _ _ t1
  obtain ⟨s3, h3, t3⟩ := Outcome.bind_eq_ok _ _ _ t2
  obtain ⟨s4, h4, t4⟩ := Outcome.bind_eq_ok _ _ _ t3
  obtain ⟨s5, h5, h6⟩ := Outcome.bind_eq_ok _ _ _ t4
  clear h t0 t1 t2 t3 t4
  obtain ⟨a0, a1⟩ := Slice.index_eq_ok _ _ _ h0
  obtain ⟨b1, b2, b3⟩ := getValue_ok_inv c b _ _ h1
  obtain ⟨c1, c2, c3, c4⟩ := getStatus_ok_inv b _ _ h2
  obtain ⟨d1, d2, d3, d4⟩ := getSourceTimestamp_ok_inv c b _ _ h3
  obtain ⟨e1, e2, e3, e4⟩ := getSourcePicoSeconds_ok_inv b _ _ h4
  obtain ⟨f1, f2, f3, f4⟩ := getServerTimestamp_ok_inv c b _ _ h5
  obtain ⟨g1, g2, g3, g4⟩ := getServerPicoSeconds_ok_inv b _ _ h6
  clear h0 h1 h2 h3 h4 h5 h6
  simp only at b1 b2 b3
  have hm5 : r.1.EncodingMask = s5.1.EncodingMask := g3
  have hm4 : r.1.EncodingMask = s4.1.EncodingMask := by rw [hm5, f3]
  have hm3 : r.1.EncodingMask = s3.1.EncodingMask := by rw [hm4, e3]
  have hm2 : r.1.EncodingMask = s2.1.EncodingMask := by rw [hm3, d3]
  have hm1 : r.1.EncodingMask = s1.1.EncodingMask := by rw [hm2, c3]
  have hm0 : r.1.EncodingMask = m := by rw [hm1, b1]
  have hval : r.1.Value = s1.1.Value := by rw [g4, f4, e4, d4, c4]
  have hfl0 := hasFlags_congr ({ d0 with EncodingMask := m } : DataValue V T) r.1 hm0
  rw [(hasFlags_congr r.1 s1.1 hm1.symm).2.1] at c1 c2
  rw [(hasFlags_congr r.1 s2.1 hm2.symm).2.2.1] at d1 d2
  rw [(hasFlags_congr r.1 s3.1 hm3.symm).2.2.2.1] at e1 e2
  rw [(hasFlags_congr r.1 s4.1 hm4.symm).2.2.2.2.1] at f1 f2
  rw [(hasFlags_congr r.1 s5.1 hm5.symm).2.2.2.2.2] at g1 g2
  rw [← hfl0.1] at b2 b3
  have hoff1 : s1.2 = 1 + r.1.valueLen c := by
    unfold DataValue.valueLen
    by_cases hf : r.1.HasValue = true
    · obtain ⟨_, v, _, hv, ho⟩ := b3 hf
      rw [hval, hv]
      simp [hf, ho]
    · have hf2 : r.1.HasValue = false := by simpa using hf
      rw [b2 hf2]
      simp [hf2]
  refine ⟨a0, by rw [hm0, a1], ?_, ?_, ?_, ?_⟩
  · rw [DataValue.Len_eq]
    omega
  · intro hf
    rw [hval, b2 hf]
  · intro hf
    obtain ⟨_, v, hv1, hv2, _⟩ := b3 hf
    exact ⟨v, hv1, by rw [hval, hv2]⟩
  · rw [DataValue.Len_eq]
    generalize (if r.1.HasStatus = true then 4 else 0) = k1 at *
    generalize (if r.1.HasSourceTimestamp = true then 8 else 0) = k2 at *
    generalize (if r.1.HasSourcePicoSeconds = true then 2 else 0) = k3 at *
    generalize (if r.1.HasServerTimestamp = true then 8 else 0) = k4 at *
    generalize (if r.1.HasServerPicoSeconds = true then 2 else 0) = k5 at *
    omega
theorem getValue_ne_err (c : Collab V T E) (b : Slice) (st : DataValue V T × Nat)
    (hf : st.1.HasValue = false) (e : E) : DataValue.getValue c b st ≠ .err e := by
  unfold DataValue.getValue
  simp [hf]

/-- With the Value bit clear in the first byte, `DecodeFromBytes` returns no error: every
failure is a run-time panic. -/
theorem DataValue.decodeFromBytesCursor_ne_err (c : Collab V T E) (d0 : DataValue V T)
    (b : Slice)
    (hf : ({ d0 with EncodingMask := b.arr.getD 0 0 } : DataValue V T).HasValue = false)
    (e : E) : d0.DecodeFromBytesCursor c b ≠ .err e := by
  intro h
  unfold DataValue.DecodeFromBytesCursor at h
  rcases Outcome.bind_eq_err _ _ _ h with h | ⟨m, hm, h⟩
  · exact Slice.index_ne_err _ _ _ h
  obtain ⟨_, hm⟩ := Slice.index_eq_ok _ _ _ hm
  subst hm
  rcases Outcome.bind_eq_err _ _ _ h with h | ⟨_, _, h⟩
  · exact getValue_ne_err c b _ hf _ h
  rcases Outcome.bind_eq_err _ _ _ h with h | ⟨s2, _, h⟩
  · exact condRead_ne_err _ b _ _ 4 Uint32 _ (fun s e => Uint32_ne_err s e) e h
  rcases Outcome.bind_eq_err _ _ _ h with h | ⟨s3, _, h⟩
  · exact condRead_ne_err _ b _ _ 8 (DecodeTimestamp c) _
      (fun s e => DecodeTimestamp_ne_err c s e) e h
  rcases Outcome.bind_eq_err _ _ _ h with h | ⟨s4, _, h⟩
  · exact condRead_ne_err _ b _ _ 2 Uint16 _ (fun s e => Uint16_ne_err s e) e h
  rcases Outcome.bind_eq_err _ _ _ h with h | ⟨s5, _, h⟩
  · exact condRead_ne_err _ b _ _ 8 (DecodeTimestamp c) _
      (fun s e => DecodeTimestamp_ne_err c s e) e h
  · exact condRead_ne_err _ b _ _ 2 Uint16 _ (fun s e => Uint16_ne_err s e) e h

theorem DecodeDataValue_eq_ok (c : Collab V T E) (b : Slice) (r : DataValue V T)
    (h : DecodeDataValue c b = .ok r) :
    ∃ off, (DataValue.zero c).DecodeFromBytesCursor c b = .ok (r, off) := by
  unfold DecodeDataValue DataValue.DecodeFromBytes at h
  obtain ⟨x, hx, h⟩ := Outcome.bind_eq_ok _ _ _ h
  simp only [Outcome.pure_eq_ok, Outcome.ok.injEq] at h
  exact ⟨x.2, by rw [hx, ← h]⟩

theorem DataValue.Len_congr (c : Collab V T E) (d r : DataValue V T)
    (hm : r.EncodingMask = d.EncodingMask) (hv : r.valueLen c = d.valueLen c) :
    r.Len c = d.Len c := by
  obtain ⟨_, h1, h2, h3, h4, h5⟩ := hasFlags_congr d r hm
  rw [DataValue.Len_eq, DataValue.Len_eq, hv, h1, h2, h3, h4, h5]

/-- No strict prefix of a wire image, held without spare capacity, decodes to a record. -/
theorem decodeDataValue_prefix_not_ok (c : Collab V T E) (enc : V → List Nat)
    (hw : c.VariantWrites enc) (hr : c.VariantReads enc)
    (htr : c.VariantRejectsTruncated enc) (d : DataValue V T)
    (hv : d.HasValue = true → d.Value ≠ none) (p : List Nat) (hp : p <+: d.wire c enc)
    (hlt : p.length < (d.wire c enc).length) (r : DataValue V T) :
    DecodeDataValue c (Slice.ofBytes p) ≠ .ok r := by
  intro h
  obtain ⟨off, h⟩ := DecodeDataValue_eq_ok c _ r h
  obtain ⟨h0, hm, _, _, hval, hcap⟩ := DataValue.decodeFromBytesCursor_ok_inv c _ _ _ h
  simp only [Slice.ofBytes] at h0 hm hval hcap
  rw [DataValue.wire_length c enc hw] at hlt
  cases p with
  | nil => simp at h0
  | cons m p1 =>
    simp only [List.getD_cons_zero, List.drop_succ_cons, List.drop_zero, List.length_cons,
      Nat.add_sub_cancel] at hm hval hcap hlt
    have hp2 : m :: p1 <+: d.EncodingMask :: (d.valueBytes enc ++ (d.statusBytes ++
        (d.sourceTimestampBytes c ++ (d.sourcePicoSecondsBytes ++
          (d.serverTimestampBytes c ++ d.serverPicoSecondsBytes))))) := by
      simpa [DataValue.wire] using hp
    obtain ⟨hmm, hp1⟩ := List.cons_prefix_cons.mp hp2
    have hmask : r.EncodingMask = d.EncodingMask := by rw [hm, hmm]
    have hfv : r.HasValue = d.HasValue := (hasFlags_congr d r hmask).1
    have key : r.valueLen c = d.valueLen c ∧ 1 + r.valueLen c ≤ p1.length + 1 := by
      unfold DataValue.valueLen
      rw [hfv]
      by_cases hf : d.HasValue = true
      · obtain ⟨v1, hdec, hrv⟩ := hval (by rw [hfv]; exact hf)
        cases hdv : d.Value with
        | none => exact absurd hdv (hv hf)
        | some v =>
          simp only [DataValue.valueBytes, hf, if_true, hdv] at hp1
          have hev : enc v <+: enc v ++ (d.statusBytes ++ (d.sourceTimestampBytes c ++
              (d.sourcePicoSecondsBytes ++ (d.serverTimestampBytes c ++
                d.serverPicoSecondsBytes)))) := List.prefix_append _ _
          by_cases hshort : p1.length < (enc v).length
          · have hpre : p1 <+: enc v :=
              List.prefix_of_prefix_length_le hp1 hev (Nat.le_of_lt hshort)
            have := htr v ⟨p1, p1.length⟩ (Nat.le_refl _) hpre hshort
            rw [hdec] at this
            simp [Outcome.isOk] at this
          · have hpre : enc v <+: p1 :=
              List.prefix_of_prefix_length_le hev hp1 (by omega)
            have := hr v ⟨p1, p1.length⟩ hpre (by simp; omega)
            rw [hdec] at this
            simp only [Outcome.ok.injEq] at this
            subst this
            simp only [hf, if_true, hrv, hw.len_eq]
            exact ⟨trivial, by omega⟩
      · simp [hf]
    have hlen := DataValue.Len_congr c d r hmask key.1
    have := hcap key.2
    omega

/-- C4 (amended): for every encoded DataValue `e = Serialize(d)` and every strict prefix
`p` of `e` held in a buffer without spare capacity, with a Variant decoder that accepts its
own encoding followed by any bytes and does not succeed on a strict prefix of it,
`DecodeDataValue(p)` returns no record (so never a partially populated one); with the
Value bit clear it ends in a run-time panic, otherwise in a panic or in the Variant
decoder's own failure; no TruncatedInput error exists. -/
theorem decode_truncated_never_succeeds (c : Collab V T E) (enc : V → List Nat)
    (hw : c.VariantWrites enc) (hr : c.VariantReads enc)
    (htr : c.VariantRejectsTruncated enc) (d : DataValue V T)
    (hv : d.HasValue = true → d.Value ≠ none) (e p : List Nat)
    (he : d.Serialize c = .ok e) (hp : p <+: e) (hlt : p.length < e.length) :
    (DecodeDataValue c (Slice.ofBytes p)).isOk = false ∧
    (d.HasValue = false → (DecodeDataValue c (Slice.ofBytes p)).isFault = true) := by
  have hwire : e = d.wire c enc := by
    have := DataValue.serialize_eq_wire c enc hw d hv
    rw [he] at this
    simpa using this
  subst hwire
  have h1 : ∀ r, DecodeDataValue c (Slice.ofBytes p) ≠ .ok r :=
    decodeDataValue_prefix_not_ok c enc hw hr htr d hv p hp hlt
  refine ⟨Outcome.isOk_eq_false _ h1, ?_⟩
  intro hf
  apply Outcome.isFault_of_not_ok_err _ h1
  intro e h
  unfold DecodeDataValue DataValue.DecodeFromBytes at h
  rcases Outcome.bind_eq_err _ _ _ h with h | ⟨_, _, h⟩
  · cases p with
    | nil => simp [DataValue.DecodeFromBytesCursor, Slice.index, Slice.ofBytes] at h
    | cons m p1 =>
      have hp2 : m :: p1 <+: d.EncodingMask :: (d.valueBytes enc ++ (d.statusBytes ++
          (d.sourceTimestampBytes c ++ (d.sourcePicoSecondsBytes ++
            (d.serverTimestampBytes c ++ d.serverPicoSecondsBytes))))) := by
        simpa [DataValue.wire] using hp
      obtain ⟨hmm, _⟩ := List.cons_prefix_cons.mp hp2
      refine DataValue.decodeFromBytesCursor_ne_err c _ _ ?_ e h
      simp only [Slice.ofBytes, List.getD_cons_zero, hmm]
      simpa [DataValue.HasValue] using hf
  · simp at h
theorem FloatVariant.decode_short (s : Slice) (hwf : s.len ≤ s.arr.length)
    (h5 : s.arr.length < 5) : (FloatVariant.DecodeFromBytes s).isOk = false := by
  apply Outcome.isOk_eq_false
  intro v h
  unfold FloatVariant.DecodeFromBytes at h
  obtain ⟨tag, _, h⟩ := Outcome.bind_eq_ok _ _ _ h
  split at h
  · obtain ⟨p, hp, h⟩ := Outcome.bind_eq_ok _ _ _ h
    obtain ⟨x, hx, h⟩ := Outcome.bind_eq_ok _ _ _ h
    obtain ⟨_, hp⟩ := Slice.sliceFrom_eq_ok _ _ _ hp
    subst hp
    unfold Uint32 at hx
    split at hx
    · next hc => simp only at hc; omega
    · simp at hx
  · simp at h

theorem sampleCollab_variantRejectsTruncated :
    sampleCollab.VariantRejectsTruncated FloatVariant.encode :=
  fun v s hwf _ hlt =>
    FloatVariant.decode_short s hwf (by simpa [FloatVariant.encode] using hlt)

theorem decode_truncated_never_succeeds_witness :
    (DecodeDataValue sampleCollab
      (Slice.ofBytes [63, 10, 201, 2, 32, 64, 0, 0, 0, 128, 128, 187])).isOk = false ∧
    (sampleStatusOnly.HasValue = false →
      (DecodeDataValue sampleCollab (Slice.ofBytes [2, 1, 0])).isFault = true) :=
  ⟨(decode_truncated_never_succeeds sampleCollab FloatVariant.encode sampleCollab_variantWrites
      sampleCollab_variantReads sampleCollab_variantRejectsTruncated sampleFull (by decide)
      [63, 10, 201, 2, 32, 64, 0, 0, 0, 128, 128, 187, 161, 151, 12, 78, 212, 1, 1, 2, 129,
        187, 161, 151, 12, 78, 212, 1, 255, 255]
      [63, 10, 201, 2, 32, 64, 0, 0, 0, 128, 128, 187] (by decide) (by decide) (by decide)).1,
   (decode_truncated_never_succeeds sampleCollab FloatVariant.encode sampleCollab_variantWrites
      sampleCollab_variantReads sampleCollab_variantRejectsTruncated sampleStatusOnly
      (by decide) [2, 1, 0, 0, 0] [2, 1, 0] (by decide) (by decide) (by decide)).2⟩

/-- C4 fails as stated: the empty prefix of the encoded record `02 01 00 00 00` makes
`DecodeDataValue` panic with an index out of range instead of returning an error, and
the one-byte prefix sharing the backing array of the full encoding (length 1, capacity 5)
decodes successfully to the whole record, its Status read past the slice's length. -/
theorem decode_truncated_counterexample :
    sampleStatusOnly.Serialize sampleCollab = .ok [2, 1, 0, 0, 0] ∧
    (([] : List Nat) <+: [2, 1, 0, 0, 0] ∧ ([] : List Nat).length < [2, 1, 0, 0, 0].length ∧
      DecodeDataValue sampleCollab (Slice.ofBytes []) = .fault .indexOutOfRange ∧
      (DecodeDataValue sampleCollab (Slice.ofBytes [])).isErr = false) ∧
    (Slice.bytes ⟨[2, 1, 0, 0, 0], 1⟩ = [2] ∧
      DecodeDataValue sampleCollab ⟨[2, 1, 0, 0, 0], 1⟩ = .ok sampleStatusOnly) := by
  decide

/-! ### Arrays -/

theorem DataValueArray.elementsWire_length (c : Collab V T E) (enc : V → List Nat)
    (hw : c.VariantWrites enc) (vs : List (DataValue V T)) :
    (DataValueArray.elementsWire c enc vs).length = (vs.map (DataValue.Len c)).sum := by
  induction vs with
  | nil => rfl
  | cons v rest ih =>
    simp [DataValueArray.elementsWire, ih, DataValue.wire_length c enc hw]

theorem DataValue.serializeTo_eq (c : Collab V T E) (enc : V → List Nat)
    (hw : c.VariantWrites enc) (d : DataValue V T) (hv : d.HasValue = true → d.Value ≠ none)
    (b : Slice) (hlen : d.Len c ≤ b.len) (hwf : b.len ≤ b.arr.length) :
    d.SerializeTo c b = .ok ⟨d.wire c enc ++ b.arr.drop (d.Len c), b.len⟩ := by
  simp [DataValue.SerializeTo, DataValue.serializeToCursor_eq c enc hw d hv b hlen hwf]

/-- The element loop of the array encoder appends the wire image of each element. -/
theorem DataValueArray.serializeLoop_framed (c : Collab V T E) (enc : V → List Nat)
    (hw : c.VariantWrites enc) (vs : List (DataValue V T))
    (hv : ∀ v ∈ vs, v.HasValue = true → v.Value ≠ none) (orig : List Nat) (L : Nat)
    (W : List Nat) (hfit : W.length + (vs.map (DataValue.Len c)).sum ≤ L)
    (hL : L ≤ orig.length) :
    DataValueArray.serializeLoop c vs (framed orig L W) =
      .ok (framed orig L (W ++ DataValueArray.elementsWire c enc vs)) := by
  induction vs generalizing W with
  | nil => simp [DataValueArray.serializeLoop, DataValueArray.elementsWire]
  | cons v rest ih =>
    simp only [List.map_cons, List.sum_cons] at hfit
    have h1 : W.length ≤ L := by omega
    unfold DataValueArray.serializeLoop
    simp only [framed, Slice.sliceFrom, h1, if_true, Outcome.ok_bind]
    have hd : (W ++ orig.drop W.length).drop W.length = orig.drop W.length := by simp
    rw [hd, DataValue.serializeTo_eq c enc hw v (hv v (List.mem_cons_self _ _)) _
      (by simp only []; omega) (by simp; omega)]
    simp only [Outcome.ok_bind]
    have hwl := DataValue.wire_length c enc hw v
    rw [Slice.patch_eq _ _ _ (by simp [hwl]; omega)]
    have key : (⟨(W ++ orig.drop W.length).take W.length ++
          (v.wire c enc ++ (orig.drop W.length).drop (v.Len c)), L⟩, W.length + v.Len c) =
        framed orig L (W ++ v.wire c enc) := by
      simp [framed, hwl, List.drop_drop, Nat.add_comm]
    rw [key, ih (fun x hx => hv x (List.mem_cons_of_mem _ hx)) _ (by simp [hwl]; omega)]
    simp [DataValueArray.elementsWire, framed]

/-- The array encoder writes the stored count and then the wire image of each element. -/
theorem DataValueArray.serialize_eq (c : Collab V T E) (enc : V → List Nat)
    (hw : c.VariantWrites enc) (a : DataValueArray V T)
    (hv : ∀ v ∈ a.DataValues, v.HasValue = true → v.Value ≠ none) :
    a.Serialize c =
      .ok (le32 (toUint32 a.ArraySize) ++ DataValueArray.elementsWire c enc a.DataValues) := by
  have hLen : a.Len c = 4 + (a.DataValues.map (DataValue.Len c)).sum := by
    unfold DataValueArray.Len; rw [DataValueArray.Len_eq_sum]
  have hel := DataValueArray.elementsWire_length c enc hw a.DataValues
  unfold DataValueArray.Serialize DataValueArray.SerializeTo DataValueArray.SerializeToCursor
  have h4 : 4 ≤ (Slice.make (a.Len c)).cap := by simp [Slice.make, Slice.cap, hLen]
  simp only [Slice.slice, h4, Nat.zero_le, and_self, if_true, Outcome.ok_bind, PutUint32,
    Nat.sub_zero, List.drop_zero, Nat.lt_irrefl, show (3 : Nat) < 4 by decide]
  rw [Slice.patch_eq _ _ _ (by simp [Slice.make, hLen])]
  have key : (⟨(Slice.make (a.Len c)).arr.take 0 ++
        (le32 (toUint32 a.ArraySize) ++ (Slice.make (a.Len c)).arr.drop 4),
        (Slice.make (a.Len c)).len⟩, 4) =
      framed (Slice.make (a.Len c)).arr (a.Len c) (le32 (toUint32 a.ArraySize)) := by
    simp [framed, Slice.make]
  rw [key, DataValueArray.serializeLoop_framed c enc hw a.DataValues hv _ _ _
    (by simp [hLen]) (by simp [Slice.make])]
  simp only [Outcome.ok_bind, Outcome.pure_eq_ok, framed, Slice.bytes]
  congr 1
  have : (le32 (toUint32 a.ArraySize) ++ DataValueArray.elementsWire c enc a.DataValues).length
      = a.Len c := by simp [hel, hLen]
  simp only [Slice.make, ← this, List.length_replicate, List.drop_replicate, Nat.sub_self,
    List.replicate_zero, List.append_nil, List.take_length]

/-- C8: for every DataValueArray whose elements have a non-nil Value whenever their Value
bit is set (Variant collaborator writing exactly its `Len()` bytes), `Len()` is 4 plus the
sum of the elements' `Len()`, and `Serialize` succeeds and returns exactly `Len()`
bytes. -/
theorem array_len_matches_serialize (c : Collab V T E) (enc : V → List Nat)
    (hw : c.VariantWrites enc) (a : DataValueArray V T)
    (hv : ∀ v ∈ a.DataValues, v.HasValue = true → v.Value ≠ none) :
    a.Len c = 4 + (a.DataValues.map (DataValue.Len c)).sum ∧
    ∃ bytes, a.Serialize c = .ok bytes ∧ bytes.length = a.Len c := by
  have hLen : a.Len c = 4 + (a.DataValues.map (DataValue.Len c)).sum := by
    unfold DataValueArray.Len; rw [DataValueArray.Len_eq_sum]
  refine ⟨hLen, _, DataValueArray.serialize_eq c enc hw a hv, ?_⟩
  simp [DataValueArray.elementsWire_length c enc hw, hLen]
theorem toInt32_of_lt (n : Nat) (h : n < 2147483648) : toInt32 n = n := by
  have h1 : n % 4294967296 = n := Nat.mod_eq_of_lt (by omega)
  simp [toInt32, h1, h]

theorem toUint32_natCast (n : Nat) (h : n < 4294967296) : toUint32 (n : Int) = n := by
  unfold toUint32
  omega

/-- A leading count that is zero or negative ends the array decoder at once. -/
theorem decodeDataValueArray_nonpositive (c : Collab V T E) (b : Slice)
    (h4 : 4 ≤ b.arr.length) (hc : toInt32 (rd32 b.arr) ≤ 0) :
    DecodeDataValueArray c b = .ok ⟨toInt32 (rd32 b.arr), []⟩ := by
  unfold DecodeDataValueArray DataValueArray.DecodeFromBytes
  simp [Slice.slice, Slice.cap, h4, Uint32, hc]

theorem DataValue.overlay_len (c : Collab V T E) (d0 d : DataValue V T) :
    (d0.overlay d).Len c = d.Len c := by
  apply DataValue.Len_congr c d (d0.overlay d) rfl
  have hf : (d0.overlay d).HasValue = d.HasValue := (hasFlags_congr d (d0.overlay d) rfl).1
  unfold DataValue.valueLen
  rw [hf]
  cases hv : d.HasValue <;> simp [DataValue.overlay, hv]

theorem DecodeDataValue_wire (c : Collab V T E) (enc : V → List Nat)
    (hw : c.VariantWrites enc) (hr : c.VariantReads enc) (ht : c.TimestampRoundTrips)
    (d : DataValue V T) (hv : d.HasValue = true → d.Value ≠ none) (hin : d.InRange)
    (b : Slice) (tail : List Nat) (hb : b.arr = d.wire c enc ++ tail)
    (hlen : d.Len c ≤ b.len) :
    DecodeDataValue c b = .ok ((DataValue.zero c).overlay d) := by
  have h := DataValue.decodeFromBytesCursor_wire c enc hw hr ht d (DataValue.zero c) hv
    (fun _ => hin.2.1) (fun _ => hin.2.2.1) (fun _ => hin.2.2.2) b tail hb hlen
  simp [DecodeDataValue, DataValue.DecodeFromBytes, h]

/-- The element loop of the array decoder recovers the elements of a wire image in order. -/
theorem DataValueArray.decodeLoop_wire (c : Collab V T E) (enc : V → List Nat)
    (hw : c.VariantWrites enc) (hr : c.VariantReads enc) (ht : c.TimestampRoundTrips)
    (vs : List (DataValue V T)) (hv : ∀ v ∈ vs, v.HasValue = true → v.Value ≠ none)
    (hin : ∀ v ∈ vs, v.InRange) (b : Slice) (W tail : List Nat)
    (acc : List (DataValue V T))
    (hb : b.arr = W ++ (DataValueArray.elementsWire c enc vs ++ tail))
    (hlen : W.length + (vs.map (DataValue.Len c)).sum ≤ b.len) :
    DataValueArray.decodeLoop c b vs.length W.length acc =
      .ok (acc ++ vs.map (DataValue.overlay (DataValue.zero c)),
        W.length + (vs.map (DataValue.Len c)).sum) := by
  induction vs generalizing W acc with
  | nil => simp [DataValueArray.decodeLoop]
  | cons v rest ih =>
    simp only [List.map_cons, List.sum_cons] at hlen ⊢
    have h1 : W.length ≤ b.len := by omega
    simp only [List.length_cons, DataValueArray.decodeLoop, Slice.sliceFrom, h1, if_true,
      Outcome.ok_bind]
    have hd : b.arr.drop W.length =
        v.wire c enc ++ (DataValueArray.elementsWire c enc rest ++ tail) := by
      rw [hb]; simp [DataValueArray.elementsWire]
    rw [DecodeDataValue_wire c enc hw hr ht v (hv v (List.mem_cons_self _ _))
      (hin v (List.mem_cons_self _ _)) _ _ hd (by simp only []; omega)]
    simp only [Outcome.ok_bind]
    rw [DataValue.overlay_len c _ v]
    have hwl := DataValue.wire_length c enc hw v
    have := ih (fun x hx => hv x (List.mem_cons_of_mem _ hx))
      (fun x hx => hin x (List.mem_cons_of_mem _ hx)) (W ++ v.wire c enc)
      (acc ++ [(DataValue.zero c).overlay v])
      (by rw [hb]; simp [DataValueArray.elementsWire])
      (by simp [hwl]; omega)
    simp only [List.length_append, hwl] at this
    rw [this]
    simp [Nat.add_assoc]

theorem NewDataValueArray_some (vs : List (DataValue V T)) :
    NewDataValueArray (some vs) = ⟨toInt32 vs.length, vs⟩ := by
  have h : ∀ (l acc : List (DataValue V T)),
      l.foldl (fun acc value => acc ++ [value]) acc = acc ++ l := by
    intro l
    induction l with
    | nil => simp
    | cons x xs ih => intro acc; simp [List.foldl_cons, ih]
  simp [NewDataValueArray, h]

theorem overlay_samePresent (d0 d : DataValue V T) : d.SamePresent (d0.overlay d) := by
  refine ⟨rfl, ?_, ?_, ?_, ?_, ?_, ?_⟩ <;> intro h <;> simp [DataValue.overlay, h]

theorem forall₂_samePresent_map (d0 : DataValue V T) (vs : List (DataValue V T)) :
    List.Forall₂ DataValue.SamePresent vs (vs.map (DataValue.overlay d0)) := by
  induction vs with
  | nil => exact List.Forall₂.nil
  | cons v rest ih => exact List.Forall₂.cons (overlay_samePresent d0 v) ih

/-- Decoding the wire image of an array built from fewer than `2^31` elements. -/
theorem decodeDataValueArray_serialize (c : Collab V T E) (enc : V → List Nat)
    (hw : c.VariantWrites enc) (hr : c.VariantReads enc) (ht : c.TimestampRoundTrips)
    (vs : List (DataValue V T)) (hv : ∀ v ∈ vs, v.HasValue = true → v.Value ≠ none)
    (hin : ∀ v ∈ vs, v.InRange) (hn : vs.length < 2147483648) :
    (NewDataValueArray (some vs)).Serialize c =
      .ok (le32 vs.length ++ DataValueArray.elementsWire c enc vs) ∧
    DecodeDataValueArray c (Slice.ofBytes (le32 vs.length ++
        DataValueArray.elementsWire c enc vs)) =
      .ok ⟨vs.length, vs.map (DataValue.overlay (DataValue.zero c))⟩ := by
  have hs := DataValueArray.serialize_eq c enc hw (NewDataValueArray (some vs))
    (by rw [NewDataValueArray_some]; exact hv)
  rw [NewDataValueArray_some] at hs ⊢
  simp only [toInt32_of_lt _ hn, toUint32_natCast _ (show vs.length < 4294967296 by omega)]
    at hs ⊢
  refine ⟨hs, ?_⟩
  have hcount : rd32 (le32 vs.length ++ DataValueArray.elementsWire c enc vs) = vs.length := by
    rw [rd32_le32]; exact Nat.mod_eq_of_lt (by omega)
  cases vs with
  | nil =>
    have := decodeDataValueArray_nonpositive c
      (Slice.ofBytes (le32 0 ++ DataValueArray.elementsWire c enc ([] : List (DataValue V T))))
      (by simp [Slice.ofBytes]) (by simp only [Slice.ofBytes, rd32_le32]; decide)
    simpa [Slice.ofBytes, rd32_le32, toInt32] using this
  | cons v rest =>
    have hpos : ¬ toInt32 (v :: rest).length ≤ 0 := by
      rw [toInt32_of_lt _ hn]; simp
    have hloop := DataValueArray.decodeLoop_wire c enc hw hr ht (v :: rest) hv hin
      (Slice.ofBytes (le32 (v :: rest).length ++ DataValueArray.elementsWire c enc (v :: rest)))
      (le32 (v :: rest).length) [] [] (by simp [Slice.ofBytes])
      (by simp [Slice.ofBytes, DataValueArray.elementsWire_length c enc hw])
    simp only [le32_length] at hloop
    unfold DecodeDataValueArray DataValueArray.DecodeFromBytes
    have h4 : 4 ≤ (Slice.ofBytes (le32 (v :: rest).length ++
        DataValueArray.elementsWire c enc (v :: rest))).cap := by
      simp [Slice.ofBytes, Slice.cap]
    simp only [Slice.slice, h4, Nat.zero_le, and_self, if_true, Outcome.ok_bind, Uint32,
      Nat.sub_zero, List.drop_zero, show (3 : Nat) < 4 by decide]
    have hcount2 : rd32 (Slice.ofBytes (le32 (v :: rest).length ++
        DataValueArray.elementsWire c enc (v :: rest))).arr = (v :: rest).length := hcount
    rw [hcount2]
    simp only [hpos, if_false]
    rw [toInt32_of_lt _ hn]
    simp only [Int.toNat_ofNat, hloop, Outcome.ok_bind, Outcome.pure_eq_ok, List.nil_append]
theorem array_len_matches_serialize_witness :
    (⟨2, [sampleFixture, sampleFull]⟩ : DataValueArray _ _).Len sampleCollab =
      4 + (([sampleFixture, sampleFull].map (DataValue.Len sampleCollab)).sum) ∧
    ∃ bytes, (⟨2, [sampleFixture, sampleFull]⟩ : DataValueArray _ _).Serialize sampleCollab =
        .ok bytes ∧
      bytes.length = (⟨2, [sampleFixture, sampleFull]⟩ : DataValueArray _ _).Len sampleCollab :=
  array_len_matches_serialize sampleCollab FloatVariant.encode sampleCollab_variantWrites
    ⟨2, [sampleFixture, sampleFull]⟩ (by decide)

/-- C6: for every buffer of at least 4 bytes whose first 4 bytes, read as a signed 32-bit
little-endian integer, give a count `c ≤ 0`, `DecodeDataValueArray` succeeds and returns
`ArraySize = c` and no elements, whatever follows the header. -/
theorem decode_array_nonpositive_count (c : Collab V T E) (b : Slice) (hwf : b.WF)
    (h4 : 4 ≤ b.len) (hc : toInt32 (rd32 b.arr) ≤ 0) :
    DecodeDataValueArray c b = .ok ⟨toInt32 (rd32 b.arr), []⟩ :=
  decodeDataValueArray_nonpositive c b (Nat.le_trans h4 hwf) hc

theorem decode_array_nonpositive_count_witness :
    DecodeDataValueArray sampleCollab (Slice.ofBytes [0, 0, 0, 0]) = .ok ⟨0, []⟩ ∧
    DecodeDataValueArray sampleCollab (Slice.ofBytes [255, 255, 255, 255, 13, 10, 201]) =
      .ok ⟨-1, []⟩ :=
  ⟨decode_array_nonpositive_count sampleCollab (Slice.ofBytes [0, 0, 0, 0]) (by decide)
      (by decide) (by decide),
   decode_array_nonpositive_count sampleCollab (Slice.ofBytes [255, 255, 255, 255, 13, 10, 201])
      (by decide) (by decide) (by decide)⟩

/-- C7 (amended): for every list of fewer than `2^31` DataValues (fields within the range
of their types, Value non-nil whenever the Value bit is set, collaborator codecs
round-tripping), decoding the serialized `NewDataValueArray` succeeds with
`ArraySize = len(vs)` and as many elements, the i-th of which has the mask and the
present-field values of `vs[i]`: nothing is reordered, dropped or duplicated.  A nil list
encodes as count 0 and decodes to the empty array. -/
theorem array_roundtrip_preserves_order (c : Collab V T E) (enc : V → List Nat)
    (hw : c.VariantWrites enc) (hr : c.VariantReads enc) (ht : c.TimestampRoundTrips)
    (vs : List (DataValue V T)) (hv : ∀ v ∈ vs, v.HasValue = true → v.Value ≠ none)
    (hin : ∀ v ∈ vs, v.InRange) (hn : vs.length < 2147483648) :
    (∃ bytes r, (NewDataValueArray (some vs)).Serialize c = .ok bytes ∧
      DecodeDataValueArray c (Slice.ofBytes bytes) = .ok r ∧
      r.ArraySize = vs.length ∧ r.DataValues.length = vs.length ∧
      List.Forall₂ DataValue.SamePresent vs r.DataValues) ∧
    (∃ bytes, (NewDataValueArray (none : Option (List (DataValue V T)))).Serialize c =
        .ok bytes ∧
      DecodeDataValueArray c (Slice.ofBytes bytes) = .ok ⟨0, []⟩) := by
  obtain ⟨hs, hd⟩ := decodeDataValueArray_serialize c enc hw hr ht vs hv hin hn
  refine ⟨⟨_, _, hs, hd, rfl, by simp, forall₂_samePresent_map _ vs⟩, ?_⟩
  obtain ⟨hs0, hd0⟩ := decodeDataValueArray_serialize c enc hw hr ht [] (by simp) (by simp)
    (by simp)
  rw [NewDataValueArray_some] at hs0
  refine ⟨_, hs0, ?_⟩
  simpa using hd0

theorem array_roundtrip_preserves_order_witness :
    (∃ bytes r, (NewDataValueArray (some [sampleFixture, sampleFull, sampleBare])).Serialize
        sampleCollab = .ok bytes ∧
      DecodeDataValueArray sampleCollab (Slice.ofBytes bytes) = .ok r ∧
      r.ArraySize = ([sampleFixture, sampleFull, sampleBare].length : Nat) ∧
      r.DataValues.length = [sampleFixture, sampleFull, sampleBare].length ∧
      List.Forall₂ DataValue.SamePresent [sampleFixture, sampleFull, sampleBare]
        r.DataValues) ∧
    (∃ bytes, (NewDataValueArray (none : Option (List (DataValue FloatVariant
        (Fin 18446744073709551616))))).Serialize sampleCollab = .ok bytes ∧
      DecodeDataValueArray sampleCollab (Slice.ofBytes bytes) = .ok ⟨0, []⟩) :=
  array_roundtrip_preserves_order sampleCollab FloatVariant.encode sampleCollab_variantWrites
    sampleCollab_variantReads sampleCollab_timestampRoundTrips
    [sampleFixture, sampleFull, sampleBare] (by decide) (by decide) (by decide)

/-- When the number of elements is exactly `2^31`, the stored count wraps to `-2^31` and
the decoder returns no element. -/
theorem decodeDataValueArray_serialize_wrapped (c : Collab V T E) (enc : V → List Nat)
    (hw : c.VariantWrites enc) (vs : List (DataValue V T))
    (hv : ∀ v ∈ vs, v.HasValue = true → v.Value ≠ none) (hn : vs.length = 2147483648) :
    ∃ bytes, (NewDataValueArray (some vs)).Serialize c = .ok bytes ∧
      DecodeDataValueArray c (Slice.ofBytes bytes) = .ok ⟨-2147483648, []⟩ := by
  have hs := DataValueArray.serialize_eq c enc hw (NewDataValueArray (some vs))
    (by rw [NewDataValueArray_some]; exact hv)
  rw [NewDataValueArray_some] at hs ⊢
  simp only [hn] at hs ⊢
  have e1 : toInt32 2147483648 = -2147483648 := by decide
  have e2 : toUint32 (-2147483648) = 2147483648 := by decide
  rw [e1] at hs ⊢
  rw [e2] at hs
  refine ⟨_, hs, ?_⟩
  have hcount : rd32 (Slice.ofBytes (le32 2147483648 ++
      DataValueArray.elementsWire c enc vs)).arr = 2147483648 := by
    simp only [Slice.ofBytes, rd32_le32]
  have := decodeDataValueArray_nonpositive c
    (Slice.ofBytes (le32 2147483648 ++ DataValueArray.elementsWire c enc vs))
    (by simp [Slice.ofBytes]) (by rw [hcount, e1]; decide)
  rw [hcount, e1] at this
  exact this

/-- C7 fails as stated for a list of `2^31` records: `NewDataValueArray` stores the count
`int32(2^31) = -2^31`, `Serialize` succeeds, and decoding the result returns
`ArraySize = -2^31` with no element at all. -/
theorem array_roundtrip_counterexample :
    (List.replicate 2147483648 sampleBare).length = 2147483648 ∧
    ∃ bytes, (NewDataValueArray (some (List.replicate 2147483648 sampleBare))).Serialize
        sampleCollab = .ok bytes ∧
      DecodeDataValueArray sampleCollab (Slice.ofBytes bytes) = .ok ⟨-2147483648, []⟩ :=
  ⟨List.length_replicate _ _,
   decodeDataValueArray_serialize_wrapped sampleCollab FloatVariant.encode
    sampleCollab_variantWrites _
    (fun v hm h => by rw [List.eq_of_mem_replicate hm] at h; exact absurd h (by decide))
    (List.length_replicate _ _)⟩

/-! ### The constructor and the length -/

theorem testBit_mod_64 (m j : Nat) (hj : j < 6) : (m % 64).testBit j = m.testBit j := by
  have h : (64 : Nat) = 2 ^ 6 := rfl
  rw [h, Nat.testBit_mod_two_pow]
  simp [hj]

theorem hasFlags_of_mod_64 (d r : DataValue V T)
    (h : r.EncodingMask % 64 = d.EncodingMask % 64) :
    r.HasValue = d.HasValue ∧ r.HasStatus = d.HasStatus ∧
    r.HasSourceTimestamp = d.HasSourceTimestamp ∧
    r.HasSourcePicoSeconds = d.HasSourcePicoSeconds ∧
    r.HasServerTimestamp = d.HasServerTimestamp ∧
    r.HasServerPicoSeconds = d.HasServerPicoSeconds := by
  obtain ⟨a0, a1, a2, a3, a4, a5⟩ := hasFlags_eq_testBit d
  obtain ⟨b0, b1, b2, b3, b4, b5⟩ := hasFlags_eq_testBit r
  have key : ∀ j, j < 6 → r.EncodingMask.testBit j = d.EncodingMask.testBit j := by
    intro j hj
    rw [← testBit_mod_64 r.EncodingMask j hj, h, testBit_mod_64 d.EncodingMask j hj]
  rw [a0, a1, a2, a3, a4, a5, b0, b1, b2, b3, b4, b5]
  exact ⟨key 0 (by decide), key 1 (by decide), key 2 (by decide), key 4 (by decide),
    key 3 (by decide), key 5 (by decide)⟩

/-- C11: for every combination of the six booleans and all field values, `NewDataValue`
returns a record whose six presence accessors equal the respective booleans, whose mask
bits 6 and 7 are zero, and whose six fields are stored as given whatever the flags; for
(true, false, true, false, true, false) the mask is `0x0d`. -/
theorem newDataValue_sets_flags_and_stores_fields
    (hasValue hasStatus hasSrcTs hasSrcPs hasSvrTs hasSvrPs : Bool)
    (v : Option V) (status : Nat) (srcTs : T) (srcPs : Nat) (svrTs : T) (svrPs : Nat) :
    ((NewDataValue hasValue hasStatus hasSrcTs hasSrcPs hasSvrTs hasSvrPs v status srcTs srcPs
        svrTs svrPs).HasValue = hasValue ∧ (NewDataValue hasValue hasStatus hasSrcTs hasSrcPs hasSvrTs hasSvrPs v status srcTs srcPs
        svrTs svrPs).HasStatus = hasStatus ∧
      (NewDataValue hasValue hasStatus hasSrcTs hasSrcPs hasSvrTs hasSvrPs v status srcTs srcPs
        svrTs svrPs).HasSourceTimestamp = hasSrcTs ∧ (NewDataValue hasValue hasStatus hasSrcTs hasSrcPs hasSvrTs hasSvrPs v status srcTs srcPs
        svrTs svrPs).HasSourcePicoSeconds = hasSrcPs ∧
      (NewDataValue hasValue hasStatus hasSrcTs hasSrcPs hasSvrTs hasSvrPs v status srcTs srcPs
        svrTs svrPs).HasServerTimestamp = hasSvrTs ∧ (NewDataValue hasValue hasStatus hasSrcTs hasSrcPs hasSvrTs hasSvrPs v status srcTs srcPs
        svrTs svrPs).HasServerPicoSeconds = hasSvrPs) ∧
    ((NewDataValue hasValue hasStatus hasSrcTs hasSrcPs hasSvrTs hasSvrPs v status srcTs srcPs
        svrTs svrPs).EncodingMask.testBit 6 = false ∧ (NewDataValue hasValue hasStatus hasSrcTs hasSrcPs hasSvrTs hasSvrPs v status srcTs srcPs
        svrTs svrPs).EncodingMask.testBit 7 = false ∧
      (NewDataValue hasValue hasStatus hasSrcTs hasSrcPs hasSvrTs hasSvrPs v status srcTs srcPs
        svrTs svrPs).EncodingMask < 64) ∧
    ((NewDataValue hasValue hasStatus hasSrcTs hasSrcPs hasSvrTs hasSvrPs v status srcTs srcPs
        svrTs svrPs).Value = v ∧ (NewDataValue hasValue hasStatus hasSrcTs hasSrcPs hasSvrTs hasSvrPs v status srcTs srcPs
        svrTs svrPs).Status = status ∧ (NewDataValue hasValue hasStatus hasSrcTs hasSrcPs hasSvrTs hasSvrPs v status srcTs srcPs
        svrTs svrPs).SourceTimestamp = srcTs ∧
      (NewDataValue hasValue hasStatus hasSrcTs hasSrcPs hasSvrTs hasSvrPs v status srcTs srcPs
        svrTs svrPs).SourcePicoSeconds = srcPs ∧ (NewDataValue hasValue hasStatus hasSrcTs hasSrcPs hasSvrTs hasSvrPs v status srcTs srcPs
        svrTs svrPs).ServerTimestamp = svrTs ∧
      (NewDataValue hasValue hasStatus hasSrcTs hasSrcPs hasSvrTs hasSvrPs v status srcTs srcPs
        svrTs svrPs).ServerPicoSeconds = svrPs) ∧
    (NewDataValue true false true false true false v status srcTs srcPs svrTs
      svrPs).EncodingMask = 0x0d := by
  have hlt := NewDataValue_mask_lt hasValue hasStatus hasSrcTs hasSrcPs hasSvrTs hasSvrPs
    v status srcTs srcPs svrTs svrPs
  refine ⟨NewDataValue_flags _ _ _ _ _ _ _ _ _ _ _ _, ⟨?_, ?_, hlt⟩,
    NewDataValue_fields _ _ _ _ _ _ _ _ _ _ _ _, ?_⟩
  · exact Nat.testBit_lt_two_pow (by simpa using hlt)
  · exact Nat.testBit_lt_two_pow (Nat.lt_trans hlt (by decide))
  · simp [NewDataValue, DataValue.SetValueFlag, DataValue.SetSourceTimestampFlag,
      DataValue.SetServerTimestampFlag]

/-- C12: `Len()` is 1, plus the Variant's `Len()` when bit 0 is set and the Value is
non-nil, plus 4, 8, 8, 2, 2 for bits 1, 2, 3, 4, 5; it is at least 1, a set Value bit with
a nil Value contributes nothing, and it depends only on the low six mask bits and the
Variant's contribution. -/
theorem len_is_one_plus_present_widths (c : Collab V T E) (d : DataValue V T) :
    d.Len c = 1 +
      (if d.EncodingMask.testBit 0 = true then
        (match d.Value with | some v => c.VariantLen v | none => 0) else 0) +
      (if d.EncodingMask.testBit 1 = true then 4 else 0) +
      (if d.EncodingMask.testBit 2 = true then 8 else 0) +
      (if d.EncodingMask.testBit 3 = true then 8 else 0) +
      (if d.EncodingMask.testBit 4 = true then 2 else 0) +
      (if d.EncodingMask.testBit 5 = true then 2 else 0) ∧
    1 ≤ d.Len c ∧
    (d.Value = none → d.Len c = 1 +
      (if d.EncodingMask.testBit 1 = true then 4 else 0) +
      (if d.EncodingMask.testBit 2 = true then 8 else 0) +
      (if d.EncodingMask.testBit 3 = true then 8 else 0) +
      (if d.EncodingMask.testBit 4 = true then 2 else 0) +
      (if d.EncodingMask.testBit 5 = true then 2 else 0)) ∧
    (∀ r : DataValue V T, r.EncodingMask % 64 = d.EncodingMask % 64 →
      r.valueLen c = d.valueLen c → r.Len c = d.Len c) := by
  obtain ⟨a0, a1, a2, a3, a4, a5⟩ := hasFlags_eq_testBit d
  have hL := DataValue.Len_eq c d
  simp only [DataValue.valueLen, a0, a1, a2, a3, a4, a5] at hL
  refine ⟨?_, by rw [hL]; omega, ?_, ?_⟩
  · rw [hL]
    cases d.Value <;> simp only [] <;> omega
  · intro hn
    rw [hL, hn]
    simp only [ite_self]
    omega
  · intro r hm hv
    obtain ⟨_, h1, h2, h3, h4, h5⟩ := hasFlags_of_mod_64 d r hm
    rw [DataValue.Len_eq, DataValue.Len_eq, hv, h1, h2, h3, h4, h5]

/-! ### Nil Value and mask mutation -/

/-- With the Value bit set and a nil Value, `Serialize` calls the Variant's `SerializeTo`
on the nil receiver: when that call panics, so does `Serialize`. -/
theorem DataValue.serialize_nil_value (c : Collab V T E) (d : DataValue V T)
    (hf : d.HasValue = true) (hn : d.Value = none) (f : Fault)
    (hnil : ∀ s, c.VariantNilSerializeTo s = .fault f) : d.Serialize c = .fault f := by
  have h1 : 1 ≤ d.Len c := by rw [DataValue.Len_eq]; omega
  have h0 : 0 < (Slice.make (d.Len c)).len := by simp [Slice.make]; omega
  have h2 : 1 ≤ (Slice.make (d.Len c)).len := h0
  simp [DataValue.Serialize, DataValue.SerializeTo, DataValue.SerializeToCursor, Slice.store,
    h0, DataValue.putValue, hf, hn, Slice.sliceFrom, h2, hnil]

/-- C13: the code does not do what the claim says.  For the record built by
`NewDataValue(true, true, false, false, false, false, nil, 1, ...)`, `Len()` is 5 (the nil
Value contributes nothing), but `Serialize` calls the Variant's `SerializeTo` on the nil
receiver: with a Variant whose method panics on a nil receiver it ends in that panic
instead of returning the 5 bytes `03 01 00 00 00`. -/
theorem nil_value_serialize_reaches_nil_receiver :
    sampleNilValue.HasValue = true ∧ sampleNilValue.Value = none ∧
    sampleNilValue.Len sampleCollab = 5 ∧
    sampleNilValue.Serialize sampleCollab = .fault .nilDereference ∧
    (∀ (c : Collab FloatVariant (Fin 18446744073709551616) SampleError) (f : Fault),
      (∀ s, c.VariantNilSerializeTo s = .fault f) → sampleNilValue.Serialize c = .fault f) :=
  ⟨by decide, by decide, by decide, by decide,
   fun c f h => DataValue.serialize_nil_value c sampleNilValue (by decide) (by decide) f h⟩

theorem DataValue.decodeFromBytes_eq_ok (c : Collab V T E) (d0 : DataValue V T) (b : Slice)
    (r : DataValue V T) (h : d0.DecodeFromBytes c b = .ok r) :
    ∃ off, d0.DecodeFromBytesCursor c b = .ok (r, off) := by
  unfold DataValue.DecodeFromBytes at h
  obtain ⟨x, hx, h⟩ := Outcome.bind_eq_ok _ _ _ h
  simp only [Outcome.pure_eq_ok, Outcome.ok.injEq] at h
  exact ⟨x.2, by rw [hx, ← h]⟩

theorem testBit_lor_of_testBit (m k j : Nat) (h : m.testBit j = true) :
    (m ||| k).testBit j = true := by
  rw [Nat.testBit_lor, h]; rfl

/-- C14 (amended): the six flag setters never clear a presence bit: every bit set in the
mask before the call is set after it.  `DecodeFromBytes` does not keep the previous mask:
after a call that returns nil the mask is the first byte of the buffer. -/
theorem setters_keep_bits_decode_replaces_mask (c : Collab V T E) (d : DataValue V T)
    (b : Slice) (r : DataValue V T) (h : d.DecodeFromBytes c b = .ok r) :
    (∀ j, d.EncodingMask.testBit j = true →
      d.SetValueFlag.EncodingMask.testBit j = true ∧
      d.SetStatusFlag.EncodingMask.testBit j = true ∧
      d.SetSourceTimestampFlag.EncodingMask.testBit j = true ∧
      d.SetServerTimestampFlag.EncodingMask.testBit j = true ∧
      d.SetSourcePicoSecondsFlag.EncodingMask.testBit j = true ∧
      d.SetServerPicoSecondsFlag.EncodingMask.testBit j = true) ∧
    0 < b.len ∧ r.EncodingMask = b.arr.getD 0 0 := by
  obtain ⟨off, h⟩ := DataValue.decodeFromBytes_eq_ok c d b r h
  obtain ⟨h0, hm, _⟩ := DataValue.decodeFromBytesCursor_ok_inv c d b _ h
  refine ⟨fun j hj => ⟨?_, ?_, ?_, ?_, ?_, ?_⟩, h0, hm⟩ <;>
    exact testBit_lor_of_testBit _ _ j hj

theorem setters_keep_bits_decode_replaces_mask_witness :
    (∀ j, sampleFull.EncodingMask.testBit j = true →
      sampleFull.SetValueFlag.EncodingMask.testBit j = true ∧
      sampleFull.SetStatusFlag.EncodingMask.testBit j = true ∧
      sampleFull.SetSourceTimestampFlag.EncodingMask.testBit j = true ∧
      sampleFull.SetServerTimestampFlag.EncodingMask.testBit j = true ∧
      sampleFull.SetSourcePicoSecondsFlag.EncodingMask.testBit j = true ∧
      sampleFull.SetServerPicoSecondsFlag.EncodingMask.testBit j = true) ∧
    0 < (Slice.ofBytes [2, 7, 0, 0, 0]).len ∧
    ({ sampleFull with EncodingMask := 2, Status := 7 } :
      DataValue FloatVariant (Fin 18446744073709551616)).EncodingMask =
        (Slice.ofBytes [2, 7, 0, 0, 0]).arr.getD 0 0 :=
  setters_keep_bits_decode_replaces_mask sampleCollab sampleFull (Slice.ofBytes [2, 7, 0, 0, 0])
    { sampleFull with EncodingMask := 2, Status := 7 } (by decide)

/-- C14 fails as stated for `DecodeFromBytes`: a record whose mask is `0x3f` decodes the
one-byte buffer `00` and ends with mask `0x00`, so bit 0, set before the call, is clear
after it. -/
theorem decode_clears_mask_bits_counterexample :
    sampleFull.EncodingMask.testBit 0 = true ∧
    sampleFull.DecodeFromBytes sampleCollab (Slice.ofBytes [0]) =
      .ok { sampleFull with EncodingMask := 0 } ∧
    ({ sampleFull with EncodingMask := 0 } :
      DataValue FloatVariant (Fin 18446744073709551616)).EncodingMask.testBit 0 = false := by
  decide

/-! ### Element-by-element array decoding -/

/-- When the Value bit is set and the Variant decoder returns an error, so does
`DecodeDataValue`. -/
theorem DecodeDataValue_variant_err (c : Collab V T E) (b : Slice) (e : E) (h0 : 0 < b.len)
    (hbit : (b.arr.getD 0 0).testBit 0 = true)
    (herr : c.VariantDecodeFromBytes ⟨b.arr.drop 1, b.len - 1⟩ = .err e) :
    DecodeDataValue c b = .err e := by
  have h1 : 1 ≤ b.len := h0
  have hm : (b.arr.getD 0 0 &&& 0x1 == 1) = true := by
    have := shift_and_one_eq_testBit (b.arr.getD 0 0) 0
    rw [hbit] at this
    exact this
  simp only [DecodeDataValue, DataValue.DecodeFromBytes, DataValue.DecodeFromBytesCursor,
    Slice.index, h0, if_true, Outcome.ok_bind, DataValue.getValue, DataValue.HasValue, hm,
    Slice.sliceFrom, h1, herr, Outcome.err_bind]

/-- The array decoder's loop stops with the error of the first element that fails. -/
theorem DataValueArray.decodeLoop_err (c : Collab V T E) (b : Slice) (e : E)
    (rs : List (DataValue V T)) (n off : Nat) (acc : List (DataValue V T))
    (hprev : DataValueArray.DecodedAt c b off rs) (hk : rs.length < n)
    (hoff : off + (rs.map (DataValue.Len c)).sum ≤ b.len)
    (hkth : DecodeDataValue c ⟨b.arr.drop (off + (rs.map (DataValue.Len c)).sum),
      b.len - (off + (rs.map (DataValue.Len c)).sum)⟩ = .err e) :
    DataValueArray.decodeLoop c b n off acc = .err e := by
  induction rs generalizing n off acc with
  | nil =>
    cases n with
    | zero => simp at hk
    | succ n1 =>
      simp only [List.map_nil, List.sum_nil, Nat.add_zero] at hoff hkth
      simp [DataValueArray.decodeLoop, Slice.sliceFrom, hoff, hkth]
  | cons r rest ih =>
    cases n with
    | zero => simp at hk
    | succ n1 =>
      obtain ⟨h1, h2, h3⟩ := hprev
      simp only [List.map_cons, List.sum_cons, List.length_cons] at hoff hkth hk
      simp only [DataValueArray.decodeLoop, Slice.sliceFrom, h1, if_true, Outcome.ok_bind, h2]
      exact ih n1 (off + r.Len c) (acc ++ [r]) h3 (by omega) (by omega)
        (by rw [Nat.add_assoc]; exact hkth)

/-- What a normal return of the array decoder's loop tells: it appended exactly `n`
records, read one after the other from `off`. -/
theorem DataValueArray.decodeLoop_ok_inv (c : Collab V T E) (b : Slice) (n off : Nat)
    (acc : List (DataValue V T)) (res : List (DataValue V T) × Nat)
    (h : DataValueArray.decodeLoop c b n off acc = .ok res) :
    ∃ rs, res.1 = acc ++ rs ∧ rs.length = n ∧ DataValueArray.DecodedAt c b off rs ∧
      res.2 = off + (rs.map (DataValue.Len c)).sum := by
  induction n generalizing off acc with
  | zero =>
    simp only [DataValueArray.decodeLoop, Outcome.pure_eq_ok, Outcome.ok.injEq] at h
    subst h
    exact ⟨[], by simp, rfl, trivial, by simp⟩
  | succ n1 ih =>
    unfold DataValueArray.decodeLoop at h
    obtain ⟨s, hs, h2⟩ := Outcome.bind_eq_ok _ _ _ h
    obtain ⟨v, hv, h3⟩ := Outcome.bind_eq_ok _ _ _ h2
    obtain ⟨hlo, hs⟩ := Slice.sliceFrom_eq_ok _ _ _ hs
    subst hs
    obtain ⟨rs, e1, e2, e3, e4⟩ := ih _ _ h3
    refine ⟨v :: rs, by simp [e1], by simp [e2], ⟨hlo, hv, e3⟩, ?_⟩
    simp only [List.map_cons, List.sum_cons]
    omega

theorem DataValueArray.decodedAt_getElem (c : Collab V T E) (b : Slice)
    (rs : List (DataValue V T)) (off i : Nat) (r : DataValue V T)
    (h : DataValueArray.DecodedAt c b off rs) (hi : rs[i]? = some r) :
    off + ((rs.take i).map (DataValue.Len c)).sum ≤ b.len ∧
    DecodeDataValue c ⟨b.arr.drop (off + ((rs.take i).map (DataValue.Len c)).sum),
      b.len - (off + ((rs.take i).map (DataValue.Len c)).sum)⟩ = .ok r := by
  induction rs generalizing off i with
  | nil => simp at hi
  | cons x rest ih =>
    obtain ⟨h1, h2, h3⟩ := h
    cases i with
    | zero =>
      simp only [List.getElem?_cons_zero, Option.some.injEq] at hi
      subst hi
      simpa using ⟨h1, h2⟩
    | succ i1 =>
      simp only [List.getElem?_cons_succ] at hi
      have := ih (off + x.Len c) i1 h3 hi
      simpa [Nat.add_assoc] using this

theorem DecodeDataValueArray_eq_ok (c : Collab V T E) (b : Slice) (a : DataValueArray V T)
    (hpos : 0 < toInt32 (rd32 b.arr)) (h : DecodeDataValueArray c b = .ok a) :
    a.ArraySize = toInt32 (rd32 b.arr) ∧ (a.DataValues.length : Int) = a.ArraySize ∧
      DataValueArray.DecodedAt c b 4 a.DataValues := by
  unfold DecodeDataValueArray DataValueArray.DecodeFromBytes at h
  obtain ⟨s, hs, h2⟩ := Outcome.bind_eq_ok _ _ _ h
  obtain ⟨n, hn, h3⟩ := Outcome.bind_eq_ok _ _ _ h2
  obtain ⟨_, _, hs⟩ := Slice.slice_eq_ok _ _ _ _ hs
  subst hs
  have hn2 : n = rd32 b.arr := by
    unfold Uint32 at hn
    split at hn
    · simpa using hn.symm
    · simp at hn
  subst hn2
  simp only [List.drop_zero] at h3
  have hnp : ¬ toInt32 (rd32 b.arr) ≤ 0 := by omega
  simp only [hnp, if_false] at h3
  obtain ⟨res, hres, h4⟩ := Outcome.bind_eq_ok _ _ _ h3
  simp only [Outcome.pure_eq_ok, Outcome.ok.injEq] at h4
  obtain ⟨rs, e1, e2, e3, _⟩ := DataValueArray.decodeLoop_ok_inv c b _ _ _ _ hres
  subst h4
  simp only [List.nil_append] at e1
  simp only [e1, e2]
  exact ⟨trivial, by omega, e3⟩
/-- C15: nested decode failures are propagated unchanged and abort the whole decode.  If
the Value bit is set and the Variant decoder fails with error `e` on `b[1:]`,
`DecodeDataValue` returns exactly `e` (and no record); if the elements `rs` of an array
decode successfully one after the other and the next one, which the count still asks for,
fails with error `e2`, `DecodeDataValueArray` returns exactly `e2` (and no array, so no
partial list of the earlier elements). -/
theorem nested_decode_errors_propagate (c : Collab V T E) (b : Slice) (e : E)
    (h0 : 0 < b.len) (hbit : (b.arr.getD 0 0).testBit 0 = true)
    (herr : c.VariantDecodeFromBytes ⟨b.arr.drop 1, b.len - 1⟩ = .err e)
    (a : Slice) (e2 : E) (rs : List (DataValue V T)) (hcap : 4 ≤ a.cap)
    (hk : (rs.length : Int) < toInt32 (rd32 a.arr))
    (hprev : DataValueArray.DecodedAt c a 4 rs)
    (hoff : 4 + (rs.map (DataValue.Len c)).sum ≤ a.len)
    (hkth : DecodeDataValue c ⟨a.arr.drop (4 + (rs.map (DataValue.Len c)).sum),
      a.len - (4 + (rs.map (DataValue.Len c)).sum)⟩ = .err e2) :
    DecodeDataValue c b = .err e ∧ DecodeDataValueArray c a = .err e2 := by
  refine ⟨DecodeDataValue_variant_err c b e h0 hbit herr, ?_⟩
  have hnp : ¬ toInt32 (rd32 a.arr) ≤ 0 := by omega
  have hloop := DataValueArray.decodeLoop_err c a e2 rs (toInt32 (rd32 a.arr)).toNat 4 []
    hprev (by omega) hoff hkth
  simp only [DecodeDataValueArray, DataValueArray.DecodeFromBytes, Slice.slice, hcap,
    Nat.zero_le, and_self, if_true, Outcome.ok_bind, Uint32, Nat.sub_zero, List.drop_zero,
    show (3 : Nat) < 4 by decide, hnp, if_false, hloop, Outcome.err_bind]

theorem nested_decode_errors_propagate_witness :
    DecodeDataValue sampleCollab (Slice.ofBytes [1, 11, 0, 0, 0, 0]) = .err .unknownTag ∧
    DecodeDataValueArray sampleCollab (Slice.ofBytes [2, 0, 0, 0, 0, 1, 11]) =
      .err .unknownTag :=
  nested_decode_errors_propagate sampleCollab (Slice.ofBytes [1, 11, 0, 0, 0, 0]) .unknownTag
    (by decide) (by decide) (by decide) (Slice.ofBytes [2, 0, 0, 0, 0, 1, 11]) .unknownTag
    [sampleBare] (by decide) (by decide) ⟨by decide, by decide, trivial⟩ (by decide) (by decide)

/-- C18: for every buffer whose leading signed 32-bit little-endian count `c` is positive
and on which `DecodeDataValueArray` succeeds, the result has `ArraySize = c` and exactly
`c` elements; the first is `DecodeDataValue(b[4:])` and element `i+1` is `DecodeDataValue`
of `b` from offset 4 plus the sum of `Len()` of the elements before it. -/
theorem decode_array_reads_count_elements (c : Collab V T E) (b : Slice)
    (a : DataValueArray V T) (hpos : 0 < toInt32 (rd32 b.arr))
    (h : DecodeDataValueArray c b = .ok a) :
    a.ArraySize = toInt32 (rd32 b.arr) ∧ (a.DataValues.length : Int) = a.ArraySize ∧
    DataValueArray.DecodedAt c b 4 a.DataValues ∧
    (∀ i r, a.DataValues[i]? = some r →
      4 + ((a.DataValues.take i).map (DataValue.Len c)).sum ≤ b.len ∧
      DecodeDataValue c ⟨b.arr.drop (4 + ((a.DataValues.take i).map (DataValue.Len c)).sum),
        b.len - (4 + ((a.DataValues.take i).map (DataValue.Len c)).sum)⟩ = .ok r) := by
  obtain ⟨h1, h2, h3⟩ := DecodeDataValueArray_eq_ok c b a hpos h
  exact ⟨h1, h2, h3, fun i r hi => DataValueArray.decodedAt_getElem c b _ 4 i r h3 hi⟩

theorem decode_array_reads_count_elements_witness :
    (⟨2, [sampleBare, sampleStatusOnly]⟩ :
      DataValueArray FloatVariant (Fin 18446744073709551616)).ArraySize =
        toInt32 (rd32 (Slice.ofBytes [2, 0, 0, 0, 0, 2, 1, 0, 0, 0]).arr) ∧
    (([sampleBare, sampleStatusOnly].length : Nat) : Int) = 2 ∧
    DataValueArray.DecodedAt sampleCollab (Slice.ofBytes [2, 0, 0, 0, 0, 2, 1, 0, 0, 0]) 4
      [sampleBare, sampleStatusOnly] ∧
    (∀ i r, [sampleBare, sampleStatusOnly][i]? = some r →
      4 + (([sampleBare, sampleStatusOnly].take i).map (DataValue.Len sampleCollab)).sum ≤
        (Slice.ofBytes [2, 0, 0, 0, 0, 2, 1, 0, 0, 0]).len ∧
      DecodeDataValue sampleCollab
        ⟨(Slice.ofBytes [2, 0, 0, 0, 0, 2, 1, 0, 0, 0]).arr.drop
          (4 + (([sampleBare, sampleStatusOnly].take i).map (DataValue.Len sampleCollab)).sum),
         (Slice.ofBytes [2, 0, 0, 0, 0, 2, 1, 0, 0, 0]).len -
          (4 + (([sampleBare, sampleStatusOnly].take i).map
            (DataValue.Len sampleCollab)).sum)⟩ = .ok r) :=
  decode_array_reads_count_elements sampleCollab (Slice.ofBytes [2, 0, 0, 0, 0, 2, 1, 0, 0, 0])
    ⟨2, [sampleBare, sampleStatusOnly]⟩ (by decide) (by decide)

/-! ### Decoding followed by encoding -/

theorem le16_rd16 (l : List Nat) (h2 : 2 ≤ l.length) (hb : ∀ x ∈ l, x < 256) :
    le16 (rd16 l) = l.take 2 := by
  match l, h2, hb with
  | a :: b :: rest, _, hb =>
    have ha := hb a (by simp)
    have hb2 := hb b (by simp)
    simp only [le16, rd16, byteAt, List.getD_cons_zero, List.getD_cons_succ, List.take_succ_cons,
      List.take_zero, List.cons.injEq, and_true]
    constructor <;> omega

theorem le32_rd32 (l : List Nat) (h4 : 4 ≤ l.length) (hb : ∀ x ∈ l, x < 256) :
    le32 (rd32 l) = l.take 4 := by
  match l, h4, hb with
  | a :: b :: c :: d :: rest, _, hb =>
    have ha := hb a (by simp)
    have hb2 := hb b (by simp)
    have hc := hb c (by simp)
    have hd := hb d (by simp)
    simp only [le32, rd32, byteAt, List.getD_cons_zero, List.getD_cons_succ, List.take_succ_cons,
      List.take_zero, List.cons.injEq, and_true]
    refine ⟨?_, ?_, ?_, ?_⟩ <;> omega

theorem rd16_lt (l : List Nat) : rd16 l < 65536 := by
  simp only [rd16, byteAt]; omega

theorem rd64_lt (l : List Nat) : rd64 l < 18446744073709551616 := by
  have h1 := rd32_lt l
  have h2 := rd32_lt (l.drop 4)
  simp only [rd64]; omega

theorem le64_mod (n : Nat) : le64 (n % 18446744073709551616) = le64 n := by
  simp only [le64, le32, List.cons_append, List.nil_append, List.cons.injEq, and_true]
  refine ⟨?_, ?_, ?_, ?_, ?_, ?_, ?_, ?_⟩ <;> omega

theorem le64_rd64 (l : List Nat) (h8 : 8 ≤ l.length) (hb : ∀ x ∈ l, x < 256) :
    le64 (rd64 l) = l.take 8 := by
  have h1 := rd32_lt l
  have h2 := rd32_lt (l.drop 4)
  have e1 : rd64 l % 4294967296 = rd32 l := by simp only [rd64]; omega
  have e2 : rd64 l / 4294967296 = rd32 (l.drop 4) := by simp only [rd64]; omega
  have hd : ∀ x ∈ l.drop 4, x < 256 := fun x hx => hb x (List.mem_of_mem_drop hx)
  rw [le64, e1, e2, le32_rd32 l (by omega) hb, le32_rd32 (l.drop 4) (by simp; omega) hd]
  have : (8 : Nat) = 4 + 4 := rfl
  rw [this, List.take_add]
/-- A conditional fixed-width read that returns normally was either skipped, leaving the
state as it was, or read its `w` bytes at the cursor, within capacity. -/
theorem condRead_ok_exact {α : Type} (flag : Bool) (b : Slice) (dk : DataValue V T)
    (off w : Nat) (rd : Slice → Outcome E α) (upd : α → DataValue V T)
    (r : DataValue V T × Nat)
    (h : (if flag = true then
            (do let s ← b.slice off (off + w)
                let x ← rd s
                pure (upd x, off + w))
          else pure (dk, off) : Outcome E (DataValue V T × Nat)) = .ok r) :
    (flag = false ∧ r = (dk, off)) ∨
    (flag = true ∧ off + w ≤ b.arr.length ∧
      ∃ x, rd ⟨b.arr.drop off, w⟩ = .ok x ∧ r = (upd x, off + w)) := by
  cases flag with
  | true =>
    simp only [if_true] at h
    obtain ⟨s, hs, h2⟩ := Outcome.bind_eq_ok _ _ _ h
    obtain ⟨x, hx, h3⟩ := Outcome.bind_eq_ok _ _ _ h2
    obtain ⟨_, hcap, hs⟩ := Slice.slice_eq_ok b _ _ s hs
    simp only [Outcome.pure_eq_ok, Outcome.ok.injEq] at h3
    subst hs
    simp only [Nat.add_sub_cancel_left] at hx
    exact Or.inr ⟨rfl, hcap, x, hx, h3.symm⟩
  | false =>
    simp at h
    exact Or.inl ⟨rfl, h.symm⟩

theorem take_add_piece (l : List Nat) (off w : Nat) (piece : List Nat)
    (h : piece = (l.drop off).take w) : l.take (off + w) = l.take off ++ piece := by
  rw [h, List.take_add]

theorem getStatus_ok_exact (b : Slice) (hb : ∀ x ∈ b.arr, x < 256)
    (st r : DataValue V T × Nat) (hst : st.2 ≤ b.arr.length)
    (h : (DataValue.getStatus b st : Outcome E _) = .ok r) :
    r.2 ≤ b.arr.length ∧ b.arr.take r.2 = b.arr.take st.2 ++ r.1.statusBytes ∧
      (r.1.HasStatus = false → r.1.Status = st.1.Status) ∧
      (r.1.HasStatus = true → r.1.Status < 4294967296) ∧
      ∃ x, r.1 = { st.1 with Status := x } := by
  rcases condRead_ok_exact st.1.HasStatus b st.1 st.2 4 Uint32
    (fun x => { st.1 with Status := x }) r h with ⟨hf, hr⟩ | ⟨hf, hcap, x, hx, hr⟩
  · subst hr
    have hf2 : st.1.HasStatus = false := hf
    exact ⟨hst, by simp [DataValue.statusBytes, hf2], fun _ => rfl, fun hc => by simp [hf2] at hc,
      st.1.Status, rfl⟩
  · subst hr
    have hx2 : x = rd32 (b.arr.drop st.2) := by
      unfold Uint32 at hx
      split at hx
      · simpa using hx.symm
      · simp at hx
    subst hx2
    have hf2 : ({ st.1 with Status := rd32 (b.arr.drop st.2) } : DataValue V T).HasStatus = true := hf
    have hd : ∀ y ∈ b.arr.drop st.2, y < 256 := fun y hy => hb y (List.mem_of_mem_drop hy)
    refine ⟨hcap, ?_, fun hc => by rw [hf2] at hc; exact absurd hc (by simp), ?_, _, rfl⟩
    · apply take_add_piece
      simp only [DataValue.statusBytes, hf2, if_true]
      exact le32_rd32 _ (by simp; omega) hd
    · intro _; exact rd32_lt _

theorem getSourcePicoSeconds_ok_exact (b : Slice) (hb : ∀ x ∈ b.arr, x < 256)
    (st r : DataValue V T × Nat) (hst : st.2 ≤ b.arr.length)
    (h : (DataValue.getSourcePicoSeconds b st : Outcome E _) = .ok r) :
    r.2 ≤ b.arr.length ∧ b.arr.take r.2 = b.arr.take st.2 ++ r.1.sourcePicoSecondsBytes ∧
      (r.1.HasSourcePicoSeconds = false → r.1.SourcePicoSeconds = st.1.SourcePicoSeconds) ∧
      (r.1.HasSourcePicoSeconds = true → r.1.SourcePicoSeconds < 65536) ∧
      ∃ x, r.1 = { st.1 with SourcePicoSeconds := x } := by
  rcases condRead_ok_exact st.1.HasSourcePicoSeconds b st.1 st.2 2 Uint16
    (fun x => { st.1 with SourcePicoSeconds := x }) r h with ⟨hf, hr⟩ | ⟨hf, hcap, x, hx, hr⟩
  · subst hr
    have hf2 : st.1.HasSourcePicoSeconds = false := hf
    exact ⟨hst, by simp [DataValue.sourcePicoSecondsBytes, hf2], fun _ => rfl, fun hc => by simp [hf2] at hc,
      st.1.SourcePicoSeconds, rfl⟩
  · subst hr
    have hx2 : x = rd16 (b.arr.drop st.2) := by
      unfold Uint16 at hx
      split at hx
      · simpa using hx.symm
      · simp at hx
    subst hx2
    have hf2 : ({ st.1 with SourcePicoSeconds := rd16 (b.arr.drop st.2) } : DataValue V T).HasSourcePicoSeconds = true := hf
    have hd : ∀ y ∈ b.arr.drop st.2, y < 256 := fun y hy => hb y (List.mem_of_mem_drop hy)
    refine ⟨hcap, ?_, fun hc => by rw [hf2] at hc; exact absurd hc (by simp), ?_, _, rfl⟩
    · apply take_add_piece
      simp only [DataValue.sourcePicoSecondsBytes, hf2, if_true]
      exact le16_rd16 _ (by simp; omega) hd
    · intro _; exact rd16_lt _

theorem getServerPicoSeconds_ok_exact (b : Slice) (hb : ∀ x ∈ b.arr, x < 256)
    (st r : DataValue V T × Nat) (hst : st.2 ≤ b.arr.length)
    (h : (DataValue.getServerPicoSeconds b st : Outcome E _) = .ok r) :
    r.2 ≤ b.arr.length ∧ b.arr.take r.2 = b.arr.take st.2 ++ r.1.serverPicoSecondsBytes ∧
      (r.1.HasServerPicoSeconds = false → r.1.ServerPicoSeconds = st.1.ServerPicoSeconds) ∧
      (r.1.HasServerPicoSeconds = true → r.1.ServerPicoSeconds < 65536) ∧
      ∃ x, r.1 = { st.1 with ServerPicoSeconds := x } := by
  rcases condRead_ok_exact st.1.HasServerPicoSeconds b st.1 st.2 2 Uint16
    (fun x => { st.1 with ServerPicoSeconds := x }) r h with ⟨hf, hr⟩ | ⟨hf, hcap, x, hx, hr⟩
  · subst hr
    have hf2 : st.1.HasServerPicoSeconds = false := hf
    exact ⟨hst, by simp [DataValue.serverPicoSecondsBytes, hf2], fun _ => rfl, fun hc => by simp [hf2] at hc,
      st.1.ServerPicoSeconds, rfl⟩
  · subst hr
    have hx2 : x = rd16 (b.arr.drop st.2) := by
      unfold Uint16 at hx
      split at hx
      · simpa using hx.symm
      · simp at hx
    subst hx2
    have hf2 : ({ st.1 with ServerPicoSeconds := rd16 (b.arr.drop st.2) } : DataValue V T).HasServerPicoSeconds = true := hf
    have hd : ∀ y ∈ b.arr.drop st.2, y < 256 := fun y hy => hb y (List.mem_of_mem_drop hy)
    refine ⟨hcap, ?_, fun hc => by rw [hf2] at hc; exact absurd hc (by simp), ?_, _, rfl⟩
    · apply take_add_piece
      simp only [DataValue.serverPicoSecondsBytes, hf2, if_true]
      exact le16_rd16 _ (by simp; omega) hd
    · intro _; exact rd16_lt _

theorem getSourceTimestamp_ok_exact (c : Collab V T E) (htk : c.TicksRoundTrip) (b : Slice) (hb : ∀ x ∈ b.arr, x < 256)
    (st r : DataValue V T × Nat) (hst : st.2 ≤ b.arr.length)
    (h : (DataValue.getSourceTimestamp c b st) = .ok r) :
    r.2 ≤ b.arr.length ∧ b.arr.take r.2 = b.arr.take st.2 ++ r.1.sourceTimestampBytes c ∧
      (r.1.HasSourceTimestamp = false → r.1.SourceTimestamp = st.1.SourceTimestamp) ∧
      ∃ x, r.1 = { st.1 with SourceTimestamp := x } := by
  rcases condRead_ok_exact st.1.HasSourceTimestamp b st.1 st.2 8 (DecodeTimestamp c)
    (fun x => { st.1 with SourceTimestamp := x }) r h with ⟨hf, hr⟩ | ⟨hf, hcap, x, hx, hr⟩
  · subst hr
    have hf2 : st.1.HasSourceTimestamp = false := hf
    exact ⟨hst, by simp [DataValue.sourceTimestampBytes, hf2], fun _ => rfl,
      st.1.SourceTimestamp, rfl⟩
  · subst hr
    have hx2 : x = c.TimestampOfTicks (rd64 (b.arr.drop st.2)) := by
      unfold DecodeTimestamp Uint64 at hx
      split at hx
      · simpa using hx.symm
      · simp at hx
    subst hx2
    have hf2 : ({ st.1 with SourceTimestamp := c.TimestampOfTicks (rd64 (b.arr.drop st.2)) } : DataValue V T).HasSourceTimestamp = true := hf
    have hd : ∀ y ∈ b.arr.drop st.2, y < 256 := fun y hy => hb y (List.mem_of_mem_drop hy)
    refine ⟨hcap, ?_, fun hc => by rw [hf2] at hc; exact absurd hc (by simp), _, rfl⟩
    · apply take_add_piece
      simp only [DataValue.sourceTimestampBytes, hf2, if_true]
      rw [← le64_mod, htk _ (rd64_lt _)]
      exact le64_rd64 _ (by simp; omega) hd

theorem getServerTimestamp_ok_exact (c : Collab V T E) (htk : c.TicksRoundTrip) (b : Slice) (hb : ∀ x ∈ b.arr, x < 256)
    (st r : DataValue V T × Nat) (hst : st.2 ≤ b.arr.length)
    (h : (DataValue.getServerTimestamp c b st) = .ok r) :
    r.2 ≤ b.arr.length ∧ b.arr.take r.2 = b.arr.take st.2 ++ r.1.serverTimestampBytes c ∧
      (r.1.HasServerTimestamp = false → r.1.ServerTimestamp = st.1.ServerTimestamp) ∧
      ∃ x, r.1 = { st.1 with ServerTimestamp := x } := by
  rcases condRead_ok_exact st.1.HasServerTimestamp b st.1 st.2 8 (DecodeTimestamp c)
    (fun x => { st.1 with ServerTimestamp := x }) r h with ⟨hf, hr⟩ | ⟨hf, hcap, x, hx, hr⟩
  · subst hr
    have hf2 : st.1.HasServerTimestamp = false := hf
    exact ⟨hst, by simp [DataValue.serverTimestampBytes, hf2], fun _ => rfl,
      st.1.ServerTimestamp, rfl⟩
  · subst hr
    have hx2 : x = c.TimestampOfTicks (rd64 (b.arr.drop st.2)) := by
      unfold DecodeTimestamp Uint64 at hx
      split at hx
      · simpa using hx.symm
      · simp at hx
    subst hx2
    have hf2 : ({ st.1 with ServerTimestamp := c.TimestampOfTicks (rd64 (b.arr.drop st.2)) } : DataValue V T).HasServerTimestamp = true := hf
    have hd : ∀ y ∈ b.arr.drop st.2, y < 256 := fun y hy => hb y (List.mem_of_mem_drop hy)
    refine ⟨hcap, ?_, fun hc => by rw [hf2] at hc; exact absurd hc (by simp), _, rfl⟩
    · apply take_add_piece
      simp only [DataValue.serverTimestampBytes, hf2, if_true]
      rw [← le64_mod, htk _ (rd64_lt _)]
      exact le64_rd64 _ (by simp; omega) hd

theorem condRead_ok_frame {α : Type} (flag : Bool) (b : Slice) (dk : DataValue V T)
    (off w : Nat) (rd : Slice → Outcome E α) (upd : α → DataValue V T)
    (r : DataValue V T × Nat)
    (h : (if flag = true then
            (do let s ← b.slice off (off + w)
                let x ← rd s
                pure (upd x, off + w))
          else pure (dk, off) : Outcome E (DataValue V T × Nat)) = .ok r) :
    (flag = false ∧ r.1 = dk) ∨ (flag = true ∧ ∃ x, r.1 = upd x) := by
  rcases condRead_ok_exact flag b dk off w rd upd r h with ⟨hf, hr⟩ | ⟨hf, _, x, _, hr⟩
  · exact Or.inl ⟨hf, by rw [hr]⟩
  · exact Or.inr ⟨hf, x, by rw [hr]⟩

theorem getStatus_ok_frame (b : Slice) (st r : DataValue V T × Nat)
    (h : (DataValue.getStatus b st : Outcome E _) = .ok r) :
    ∃ x, r.1 = { st.1 with Status := x } ∧ (st.1.HasStatus = false → x = st.1.Status) := by
  rcases condRead_ok_frame st.1.HasStatus b st.1 st.2 4 Uint32
    (fun x => { st.1 with Status := x }) r h with ⟨hf, hr⟩ | ⟨hf, x, hr⟩
  · exact ⟨st.1.Status, by rw [hr], fun _ => rfl⟩
  · exact ⟨x, hr, fun hc => by rw [hf] at hc; exact absurd hc (by simp)⟩

theorem getSourceTimestamp_ok_frame (c : Collab V T E) (b : Slice) (st r : DataValue V T × Nat)
    (h : (DataValue.getSourceTimestamp c b st) = .ok r) :
    ∃ x, r.1 = { st.1 with SourceTimestamp := x } ∧ (st.1.HasSourceTimestamp = false → x = st.1.SourceTimestamp) := by
  rcases condRead_ok_frame st.1.HasSourceTimestamp b st.1 st.2 8 (DecodeTimestamp c)
    (fun x => { st.1 with SourceTimestamp := x }) r h with ⟨hf, hr⟩ | ⟨hf, x, hr⟩
  · exact ⟨st.1.SourceTimestamp, by rw [hr], fun _ => rfl⟩
  · exact ⟨x, hr, fun hc => by rw [hf] at hc; exact absurd hc (by simp)⟩

theorem getSourcePicoSeconds_ok_frame (b : Slice) (st r : DataValue V T × Nat)
    (h : (DataValue.getSourcePicoSeconds b st : Outcome E _) = .ok r) :
    ∃ x, r.1 = { st.1 with SourcePicoSeconds := x } ∧ (st.1.HasSourcePicoSeconds = false → x = st.1.SourcePicoSeconds) := by
  rcases condRead_ok_frame st.1.HasSourcePicoSeconds b st.1 st.2 2 Uint16
    (fun x => { st.1 with SourcePicoSeconds := x }) r h with ⟨hf, hr⟩ | ⟨hf, x, hr⟩
  · exact ⟨st.1.SourcePicoSeconds, by rw [hr], fun _ => rfl⟩
  · exact ⟨x, hr, fun hc => by rw [hf] at hc; exact absurd hc (by simp)⟩

theorem getServerTimestamp_ok_frame (c : Collab V T E) (b : Slice) (st r : DataValue V T × Nat)
    (h : (DataValue.getServerTimestamp c b st) = .ok r) :
    ∃ x, r.1 = { st.1 with ServerTimestamp := x } ∧ (st.1.HasServerTimestamp = false → x = st.1.ServerTimestamp) := by
  rcases condRead_ok_frame st.1.HasServerTimestamp b st.1 st.2 8 (DecodeTimestamp c)
    (fun x => { st.1 with ServerTimestamp := x }) r h with ⟨hf, hr⟩ | ⟨hf, x, hr⟩
  · exact ⟨st.1.ServerTimestamp, by rw [hr], fun _ => rfl⟩
  · exact ⟨x, hr, fun hc => by rw [hf] at hc; exact absurd hc (by simp)⟩

theorem getServerPicoSeconds_ok_frame (b : Slice) (st r : DataValue V T × Nat)
    (h : (DataValue.getServerPicoSeconds b st : Outcome E _) = .ok r) :
    ∃ x, r.1 = { st.1 with ServerPicoSeconds := x } ∧ (st.1.HasServerPicoSeconds = false → x = st.1.ServerPicoSeconds) := by
  rcases condRead_ok_frame st.1.HasServerPicoSeconds b st.1 st.2 2 Uint16
    (fun x => { st.1 with ServerPicoSeconds := x }) r h with ⟨hf, hr⟩ | ⟨hf, x, hr⟩
  · exact ⟨st.1.ServerPicoSeconds, by rw [hr], fun _ => rfl⟩
  · exact ⟨x, hr, fun hc => by rw [hf] at hc; exact absurd hc (by simp)⟩

theorem getValue_ok_frame (c : Collab V T E) (b : Slice) (st r : DataValue V T × Nat)
    (h : DataValue.getValue c b st = .ok r) :
    ∃ x, r.1 = { st.1 with Value := x } ∧ (st.1.HasValue = false → x = st.1.Value) := by
  unfold DataValue.getValue at h
  by_cases hf : st.1.HasValue = true
  · simp only [hf, if_true] at h
    obtain ⟨s, _, h2⟩ := Outcome.bind_eq_ok _ _ _ h
    obtain ⟨v, _, h3⟩ := Outcome.bind_eq_ok _ _ _ h2
    simp only [Outcome.pure_eq_ok, Outcome.ok.injEq] at h3
    exact ⟨some v, by rw [← h3], fun hc => by rw [hf] at hc; exact absurd hc (by simp)⟩
  · simp only [hf] at h
    simp only [Outcome.pure_eq_ok, Outcome.ok.injEq, Bool.false_eq_true, if_false] at h
    exact ⟨st.1.Value, by rw [← h], fun _ => rfl⟩

/-- The fields whose presence bit is clear keep the content the receiver had before
`DecodeFromBytes`, and the mask is the first byte of the buffer. -/
theorem DataValue.decodeFromBytesCursor_ok_frame (c : Collab V T E) (d0 : DataValue V T)
    (b : Slice) (r : DataValue V T × Nat) (h : d0.DecodeFromBytesCursor c b = .ok r) :
    r.1.EncodingMask = b.arr.getD 0 0 ∧
    (r.1.HasValue = false → r.1.Value = d0.Value) ∧
    (r.1.HasStatus = false → r.1.Status = d0.Status) ∧
    (r.1.HasSourceTimestamp = false → r.1.SourceTimestamp = d0.SourceTimestamp) ∧
    (r.1.HasSourcePicoSeconds = false → r.1.SourcePicoSeconds = d0.SourcePicoSeconds) ∧
    (r.1.HasServerTimestamp = false → r.1.ServerTimestamp = d0.ServerTimestamp) ∧
    (r.1.HasServerPicoSeconds = false → r.1.ServerPicoSeconds = d0.ServerPicoSeconds) := by
  unfold DataValue.DecodeFromBytesCursor at h
  obtain ⟨m, h0, t0⟩ := Outcome.bind_eq_ok _ _ _ h
  obtain ⟨s1, h1, t1⟩ := Outcome.bind_eq_ok _ _ _ t0
  obtain ⟨s2, h2, t2⟩ := Outcome.bind_eq_ok _ _ _ t1
  obtain ⟨s3, h3, t3⟩ := Outcome.bind_eq_ok _ _ _ t2
  obtain ⟨s4, h4, t4⟩ := Outcome.bind_eq_ok _ _ _ t3
  obtain ⟨s5, h5, h6⟩ := Outcome.bind_eq_ok _ _ _ t4
  clear h t0 t1 t2 t3 t4
  obtain ⟨_, hm⟩ := Slice.index_eq_ok _ _ _ h0
  obtain ⟨x1, e1, f1⟩ := getValue_ok_frame c b _ _ h1
  obtain ⟨x2, e2, f2⟩ := getStatus_ok_frame b _ _ h2
  obtain ⟨x3, e3, f3⟩ := getSourceTimestamp_ok_frame c b _ _ h3
  obtain ⟨x4, e4, f4⟩ := getSourcePicoSeconds_ok_frame b _ _ h4
  obtain ⟨x5, e5, f5⟩ := getServerTimestamp_ok_frame c b _ _ h5
  obtain ⟨x6, e6, f6⟩ := getServerPicoSeconds_ok_frame b _ _ h6
  clear h0 h1 h2 h3 h4 h5 h6
  rw [e5, e4, e3, e2, e1] at e6
  rw [e1] at f2
  rw [e2, e1] at f3
  rw [e3, e2, e1] at f4
  rw [e4, e3, e2, e1] at f5
  rw [e5, e4, e3, e2, e1] at f6
  rw [e6]
  subst hm
  exact ⟨rfl, f1, f2, f3, f4, f5, f6⟩

/-- C19: for every buffer on which `DecodeDataValue` succeeds, the mask of the record is
the first byte of the buffer and every field whose presence bit is clear in that byte
holds the zero value of its type: a nil Value, Status 0, the zero time, picoseconds 0. -/
theorem decode_absent_fields_are_zero (c : Collab V T E) (b : Slice) (d : DataValue V T)
    (h : DecodeDataValue c b = .ok d) :
    0 < b.len ∧ d.EncodingMask = b.arr.getD 0 0 ∧
    ((b.arr.getD 0 0).testBit 0 = false → d.Value = none) ∧
    ((b.arr.getD 0 0).testBit 1 = false → d.Status = 0) ∧
    ((b.arr.getD 0 0).testBit 2 = false → d.SourceTimestamp = c.zeroTime) ∧
    ((b.arr.getD 0 0).testBit 3 = false → d.ServerTimestamp = c.zeroTime) ∧
    ((b.arr.getD 0 0).testBit 4 = false → d.SourcePicoSeconds = 0) ∧
    ((b.arr.getD 0 0).testBit 5 = false → d.ServerPicoSeconds = 0) := by
  obtain ⟨off, h⟩ := DecodeDataValue_eq_ok c b d h
  obtain ⟨h0, _⟩ := DataValue.decodeFromBytesCursor_ok_inv c _ _ _ h
  obtain ⟨hm, f1, f2, f3, f4, f5, f6⟩ := DataValue.decodeFromBytesCursor_ok_frame c _ _ _ h
  obtain ⟨a0, a1, a2, a3, a4, a5⟩ := hasFlags_eq_testBit d
  simp only at hm f1 f2 f3 f4 f5 f6
  rw [a0] at f1
  rw [a1] at f2
  rw [a2] at f3
  rw [a4] at f4
  rw [a3] at f5
  rw [a5] at f6
  rw [hm] at f1 f2 f3 f4 f5 f6
  exact ⟨h0, hm, f1, f2, f3, f5, f4, f6⟩

theorem decode_absent_fields_are_zero_witness :
    0 < (Slice.ofBytes [2, 1, 0, 0, 0]).len ∧
    sampleStatusOnly.EncodingMask = (Slice.ofBytes [2, 1, 0, 0, 0]).arr.getD 0 0 ∧
    (((Slice.ofBytes [2, 1, 0, 0, 0]).arr.getD 0 0).testBit 0 = false →
      sampleStatusOnly.Value = none) ∧
    (((Slice.ofBytes [2, 1, 0, 0, 0]).arr.getD 0 0).testBit 1 = false →
      sampleStatusOnly.Status = 0) ∧
    (((Slice.ofBytes [2, 1, 0, 0, 0]).arr.getD 0 0).testBit 2 = false →
      sampleStatusOnly.SourceTimestamp = sampleCollab.zeroTime) ∧
    (((Slice.ofBytes [2, 1, 0, 0, 0]).arr.getD 0 0).testBit 3 = false →
      sampleStatusOnly.ServerTimestamp = sampleCollab.zeroTime) ∧
    (((Slice.ofBytes [2, 1, 0, 0, 0]).arr.getD 0 0).testBit 4 = false →
      sampleStatusOnly.SourcePicoSeconds = 0) ∧
    (((Slice.ofBytes [2, 1, 0, 0, 0]).arr.getD 0 0).testBit 5 = false →
      sampleStatusOnly.ServerPicoSeconds = 0) :=
  decode_absent_fields_are_zero sampleCollab (Slice.ofBytes [2, 1, 0, 0, 0]) sampleStatusOnly
    (by decide)

theorem getValue_ok_exact (c : Collab V T E) (enc : V → List Nat)
    (hcons : c.VariantConsumes enc) (b : Slice) (hb : ∀ x ∈ b.arr, x < 256)
    (hwf : b.len ≤ b.arr.length) (st r : DataValue V T × Nat) (hst : st.2 ≤ b.len)
    (h : DataValue.getValue c b st = .ok r) :
    r.2 ≤ b.len ∧ b.arr.take r.2 = b.arr.take st.2 ++ r.1.valueBytes enc ∧
      (r.1.HasValue = true → r.1.Value ≠ none) ∧
      ∃ x, r.1 = { st.1 with Value := x } := by
  unfold DataValue.getValue at h
  by_cases hf : st.1.HasValue = true
  · simp only [hf, if_true] at h
    obtain ⟨s, hs, h2⟩ := Outcome.bind_eq_ok _ _ _ h
    obtain ⟨v, hv, h3⟩ := Outcome.bind_eq_ok _ _ _ h2
    obtain ⟨hlo, hs⟩ := Slice.sliceFrom_eq_ok _ _ _ hs
    simp only [Outcome.pure_eq_ok, Outcome.ok.injEq] at h3
    subst h3
    subst hs
    obtain ⟨hl, he⟩ := hcons _ v (by simp; omega)
      (fun y hy => hb y (List.mem_of_mem_drop hy)) hv
    simp only at hl he
    have hf2 : ({ st.1 with Value := some v } : DataValue V T).HasValue = true := hf
    refine ⟨by simp only []; omega, ?_, fun _ => by simp, _, rfl⟩
    apply take_add_piece
    simp only [DataValue.valueBytes, hf2, if_true]
    exact he
  · simp only [hf] at h
    simp only [Outcome.pure_eq_ok, Outcome.ok.injEq, Bool.false_eq_true, if_false] at h
    subst h
    have hf2 : st.1.HasValue = false := by simpa using hf
    exact ⟨hst, by simp [DataValue.valueBytes, hf2], fun hc => by simp [hf2] at hc,
      st.1.Value, rfl⟩

/-- A normal return of `DecodeFromBytes` consumed exactly the wire image of the record it
produced: the bytes before the final cursor are that image. -/
theorem DataValue.decodeFromBytesCursor_ok_wire (c : Collab V T E) (enc : V → List Nat)
    (hcons : c.VariantConsumes enc) (htk : c.TicksRoundTrip) (d0 : DataValue V T)
    (b : Slice) (hwf : b.len ≤ b.arr.length) (hb : ∀ x ∈ b.arr, x < 256)
    (r : DataValue V T × Nat) (h : d0.DecodeFromBytesCursor c b = .ok r) :
    r.2 ≤ b.arr.length ∧ b.arr.take r.2 = r.1.wire c enc ∧
    (r.1.HasValue = true → r.1.Value ≠ none) ∧
    (r.1.HasStatus = true → r.1.Status < 4294967296) ∧
    (r.1.HasSourcePicoSeconds = true → r.1.SourcePicoSeconds < 65536) ∧
    (r.1.HasServerPicoSeconds = true → r.1.ServerPicoSeconds < 65536) := by
  unfold DataValue.DecodeFromBytesCursor at h
  obtain ⟨m, h0, t0⟩ := Outcome.bind_eq_ok _ _ _ h
  obtain ⟨⟨d1, o1⟩, h1, t1⟩ := Outcome.bind_eq_ok _ _ _ t0
  obtain ⟨⟨d2, o2⟩, h2, t2⟩ := Outcome.bind_eq_ok _ _ _ t1
  obtain ⟨⟨d3, o3⟩, h3, t3⟩ := Outcome.bind_eq_ok _ _ _ t2
  obtain ⟨⟨d4, o4⟩, h4, t4⟩ := Outcome.bind_eq_ok _ _ _ t3
  obtain ⟨⟨d5, o5⟩, h5, h6⟩ := Outcome.bind_eq_ok _ _ _ t4
  clear h t0 t1 t2 t3 t4
  obtain ⟨d6, o6⟩ := r
  obtain ⟨hpos, hm⟩ := Slice.index_eq_ok _ _ _ h0
  obtain ⟨a1, a2, a3, x1, e1⟩ := getValue_ok_exact c enc hcons b hb hwf _ _
    (by simp only []; omega) h1
  obtain ⟨b1, b2, _, b3, x2, e2⟩ := getStatus_ok_exact b hb _ _ (by simp only [] at a1 ⊢; omega) h2
  obtain ⟨c1, c2, _, x3, e3⟩ := getSourceTimestamp_ok_exact c htk b hb _ _ b1 h3
  obtain ⟨g1, g2, _, g3, x4, e4⟩ := getSourcePicoSeconds_ok_exact b hb _ _ c1 h4
  obtain ⟨k1, k2, _, x5, e5⟩ := getServerTimestamp_ok_exact c htk b hb _ _ g1 h5
  obtain ⟨l1, l2, _, l3, x6, e6⟩ := getServerPicoSeconds_ok_exact b hb _ _ k1 h6
  clear h0 h1 h2 h3 h4 h5 h6
  simp only at a1 a2 a3 e1 b1 b2 b3 e2 c1 c2 e3 g1 g2 g3 e4 k1 k2 e5 l1 l2 l3 e6 ⊢
  subst e1 e2 e3 e4 e5 e6
  have hone : b.arr.take 1 = [m] := by
    cases harr : b.arr with
    | nil => rw [harr] at hwf; simp at hwf; omega
    | cons y ys => rw [harr] at hm; simp at hm; simp [hm]
  refine ⟨l1, ?_, a3, b3, g3, l3⟩
  rw [l2, k2, g2, c2, b2, a2, hone]
  rfl

theorem DataValue.overlay_eq_self (d0 d : DataValue V T)
    (f1 : d.HasValue = false → d.Value = d0.Value)
    (f2 : d.HasStatus = false → d.Status = d0.Status)
    (f3 : d.HasSourceTimestamp = false → d.SourceTimestamp = d0.SourceTimestamp)
    (f4 : d.HasSourcePicoSeconds = false → d.SourcePicoSeconds = d0.SourcePicoSeconds)
    (f5 : d.HasServerTimestamp = false → d.ServerTimestamp = d0.ServerTimestamp)
    (f6 : d.HasServerPicoSeconds = false → d.ServerPicoSeconds = d0.ServerPicoSeconds) :
    d0.overlay d = d := by
  have g1 : (if d.HasValue = true then d.Value else d0.Value) = d.Value := by
    cases hf : d.HasValue <;> simp [f1, hf]
  have g2 : (if d.HasStatus = true then d.Status else d0.Status) = d.Status := by
    cases hf : d.HasStatus <;> simp [f2, hf]
  have g3 : (if d.HasSourceTimestamp = true then d.SourceTimestamp else d0.SourceTimestamp)
      = d.SourceTimestamp := by
    cases hf : d.HasSourceTimestamp <;> simp [f3, hf]
  have g4 : (if d.HasSourcePicoSeconds = true then d.SourcePicoSeconds
      else d0.SourcePicoSeconds) = d.SourcePicoSeconds := by
    cases hf : d.HasSourcePicoSeconds <;> simp [f4, hf]
  have g5 : (if d.HasServerTimestamp = true then d.ServerTimestamp else d0.ServerTimestamp)
      = d.ServerTimestamp := by
    cases hf : d.HasServerTimestamp <;> simp [f5, hf]
  have g6 : (if d.HasServerPicoSeconds = true then d.ServerPicoSeconds
      else d0.ServerPicoSeconds) = d.ServerPicoSeconds := by
    cases hf : d.HasServerPicoSeconds <;> simp [f6, hf]
  simp only [DataValue.overlay, g1, g2, g3, g4, g5, g6]

theorem FloatVariant.decode_consumes (s : Slice) (v : FloatVariant)
    (hwf : s.len ≤ s.arr.length) (hb : ∀ x ∈ s.arr, x < 256)
    (h : FloatVariant.DecodeFromBytes s = .ok v) :
    5 ≤ s.len ∧ FloatVariant.encode v = s.arr.take 5 := by
  unfold FloatVariant.DecodeFromBytes at h
  obtain ⟨tag, htag, h2⟩ := Outcome.bind_eq_ok _ _ _ h
  obtain ⟨h0, htag⟩ := Slice.index_eq_ok _ _ _ htag
  split at h2
  · next ht =>
    obtain ⟨p, hp, h3⟩ := Outcome.bind_eq_ok _ _ _ h2
    obtain ⟨x, hx, h4⟩ := Outcome.bind_eq_ok _ _ _ h3
    obtain ⟨_, hp⟩ := Slice.sliceFrom_eq_ok _ _ _ hp
    subst hp
    unfold Uint32 at hx
    split at hx
    · next hc =>
      simp only at hc
      simp only [Outcome.ok.injEq] at hx
      simp only [Outcome.pure_eq_ok, Outcome.ok.injEq] at h4
      subst h4 hx
      refine ⟨by omega, ?_⟩
      have hd : ∀ y ∈ s.arr.drop 1, y < 256 := fun y hy => hb y (List.mem_of_mem_drop hy)
      have hval : (Fin.ofNat (rd32 (s.arr.drop 1)) : FloatVariant).val = rd32 (s.arr.drop 1) := by
        simp [Fin.ofNat, Nat.mod_eq_of_lt (rd32_lt _)]
      have hle := le32_rd32 (s.arr.drop 1) (by simp; omega) hd
      cases harr : s.arr with
      | nil => rw [harr] at hwf; simp at hwf; omega
      | cons y ys =>
        rw [harr] at htag hle
        simp only [List.getD_cons_zero] at htag
        simp only [List.drop_succ_cons, List.drop_zero] at hle
        rw [harr] at hval
        simp only [List.drop_succ_cons, List.drop_zero] at hval
        simp only [FloatVariant.encode, harr, List.drop_succ_cons, List.drop_zero, hval, hle,
          List.take_succ_cons, ← htag, ht]
    · simp at hx
  · simp at h2

theorem sampleCollab_variantConsumes : sampleCollab.VariantConsumes FloatVariant.encode :=
  fun s v hwf hb h => FloatVariant.decode_consumes s v hwf hb h

theorem sampleCollab_ticksRoundTrip : sampleCollab.TicksRoundTrip := by
  intro n hn
  simp [sampleCollab, Fin.ofNat, Nat.mod_eq_of_lt hn]

/-- C20 (amended): for every buffer on which `DecodeDataValue` succeeds with record `d`
(collaborator codecs round-tripping, the Variant reporting as `Len()` the bytes it
consumed): `d.Len()` is the number of bytes the decoder consumed and is at most the
capacity of the buffer, hence at most its length when it has no spare capacity;
`Serialize(d)` is the first `d.Len()` bytes of the buffer, mask byte verbatim; and decoding
`b[:d.Len()]`, or a copy holding just those bytes, returns the same record. -/
theorem decode_then_serialize_reproduces_bytes (c : Collab V T E) (enc : V → List Nat)
    (hw : c.VariantWrites enc) (hr : c.VariantReads enc) (hcons : c.VariantConsumes enc)
    (ht : c.TimestampRoundTrips) (htk : c.TicksRoundTrip) (b : Slice) (hwf : b.WF)
    (hb : ∀ x ∈ b.arr, x < 256) (d : DataValue V T) (h : DecodeDataValue c b = .ok d) :
    d.Len c ≤ b.cap ∧ (b.cap = b.len → d.Len c ≤ b.len) ∧
    (DataValue.zero c).DecodeFromBytesCursor c b = .ok (d, d.Len c) ∧
    d.Serialize c = .ok (b.arr.take (d.Len c)) ∧
    (∃ s, (b.slice 0 (d.Len c) : Outcome E Slice) = .ok s ∧ DecodeDataValue c s = .ok d) ∧
    DecodeDataValue c (Slice.ofBytes (b.arr.take (d.Len c))) = .ok d := by
  obtain ⟨off, hcur⟩ := DecodeDataValue_eq_ok c b d h
  obtain ⟨_, _, hoff, _⟩ := DataValue.decodeFromBytesCursor_ok_inv c _ _ _ hcur
  obtain ⟨hcap, hwire, hv, hS, hP1, hP2⟩ :=
    DataValue.decodeFromBytesCursor_ok_wire c enc hcons htk _ b hwf hb _ hcur
  obtain ⟨_, f1, f2, f3, f4, f5, f6⟩ := DataValue.decodeFromBytesCursor_ok_frame c _ _ _ hcur
  simp only at hoff hcap hwire hv hS hP1 hP2 f1 f2 f3 f4 f5 f6
  subst hoff
  have hself : (DataValue.zero c).overlay d = d :=
    DataValue.overlay_eq_self _ d f1 f2 f3 f4 f5 f6
  have hsplit : b.arr = d.wire c enc ++ b.arr.drop (d.Len c) := by
    rw [← hwire, List.take_append_drop]
  have hwl := DataValue.wire_length c enc hw d
  have redecode : ∀ s : Slice, s.arr = d.wire c enc ++ s.arr.drop (d.Len c) →
      d.Len c ≤ s.len → DecodeDataValue c s = .ok d := by
    intro s hs hl
    have := DataValue.decodeFromBytesCursor_wire c enc hw hr ht d (DataValue.zero c) hv hS
      hP1 hP2 s _ hs hl
    simp [DecodeDataValue, DataValue.DecodeFromBytes, this, hself]
  refine ⟨hcap, fun he => by unfold Slice.cap at he; omega, hcur, ?_, ?_, ?_⟩
  · rw [hwire]; exact DataValue.serialize_eq_wire c enc hw d hv
  · refine ⟨⟨b.arr, d.Len c⟩, ?_, redecode _ hsplit (Nat.le_refl _)⟩
    simp [Slice.slice, Slice.cap, hcap]
  · apply redecode
    · simp [Slice.ofBytes, hwire, hwl]
    · simp [Slice.ofBytes, hwire, hwl]

theorem decode_then_serialize_reproduces_bytes_witness :
    sampleFixture.Len sampleCollab ≤
      (Slice.ofBytes [13, 10, 201, 2, 32, 64, 128, 59, 232, 179, 146, 78, 212, 1, 128, 59, 232,
        179, 146, 78, 212, 1, 255, 254]).cap ∧
    sampleFixture.Serialize sampleCollab =
      .ok ((Slice.ofBytes [13, 10, 201, 2, 32, 64, 128, 59, 232, 179, 146, 78, 212, 1, 128, 59,
        232, 179, 146, 78, 212, 1, 255, 254]).arr.take (sampleFixture.Len sampleCollab)) ∧
    DecodeDataValue sampleCollab (Slice.ofBytes ((Slice.ofBytes [13, 10, 201, 2, 32, 64, 128,
        59, 232, 179, 146, 78, 212, 1, 128, 59, 232, 179, 146, 78, 212, 1, 255, 254]).arr.take
          (sampleFixture.Len sampleCollab))) = .ok sampleFixture :=
  ⟨(decode_then_serialize_reproduces_bytes sampleCollab FloatVariant.encode
      sampleCollab_variantWrites sampleCollab_variantReads sampleCollab_variantConsumes
      sampleCollab_timestampRoundTrips sampleCollab_ticksRoundTrip
      (Slice.ofBytes [13, 10, 201, 2, 32, 64, 128, 59, 232, 179, 146, 78, 212, 1, 128, 59, 232,
        179, 146, 78, 212, 1, 255, 254]) (by decide) (by decide) sampleFixture (by decide)).1,
   (decode_then_serialize_reproduces_bytes sampleCollab FloatVariant.encode
      sampleCollab_variantWrites sampleCollab_variantReads sampleCollab_variantConsumes
      sampleCollab_timestampRoundTrips sampleCollab_ticksRoundTrip
      (Slice.ofBytes [13, 10, 201, 2, 32, 64, 128, 59, 232, 179, 146, 78, 212, 1, 128, 59, 232,
        179, 146, 78, 212, 1, 255, 254]) (by decide) (by decide) sampleFixture
      (by decide)).2.2.2.1,
   (decode_then_serialize_reproduces_bytes sampleCollab FloatVariant.encode
      sampleCollab_variantWrites sampleCollab_variantReads sampleCollab_variantConsumes
      sampleCollab_timestampRoundTrips sampleCollab_ticksRoundTrip
      (Slice.ofBytes [13, 10, 201, 2, 32, 64, 128, 59, 232, 179, 146, 78, 212, 1, 128, 59, 232,
        179, 146, 78, 212, 1, 255, 254]) (by decide) (by decide) sampleFixture
      (by decide)).2.2.2.2.2⟩

/-- C20 fails as stated for a buffer with spare capacity: the slice of length 1 and
capacity 5 over `02 01 00 00 00` decodes successfully to a record whose `Len()` is 5,
more than the length of the buffer. -/
theorem decode_len_exceeds_buffer_counterexample :
    DecodeDataValue sampleCollab ⟨[2, 1, 0, 0, 0], 1⟩ = .ok sampleStatusOnly ∧
    sampleStatusOnly.Len sampleCollab = 5 ∧
    ¬ sampleStatusOnly.Len sampleCollab ≤ (⟨[2, 1, 0, 0, 0], 1⟩ : Slice).len := by
  decide

/-! ### The reference fixture and the array layout -/

theorem fixture_record_eq (v : V) (t1 t2 : T) :
    (NewDataValue true false true false true false (some v) 0 t1 0 t2 0 : DataValue V T) =
      ⟨0x0d, some v, 0, t1, 0, t2, 0⟩ := by
  simp [NewDataValue, DataValue.SetValueFlag, DataValue.SetSourceTimestampFlag,
    DataValue.SetServerTimestampFlag]

theorem fixture_wire (c : Collab V T E) (enc : V → List Nat) (v : V) (t1 t2 : T) :
    (⟨0x0d, some v, 0, t1, 0, t2, 0⟩ : DataValue V T).wire c enc =
      [0x0d] ++ enc v ++ le64 (c.TimestampTicks t1) ++ le64 (c.TimestampTicks t2) := by
  simp [DataValue.wire, DataValue.valueBytes, DataValue.statusBytes,
    DataValue.sourceTimestampBytes, DataValue.sourcePicoSecondsBytes,
    DataValue.serverTimestampBytes, DataValue.serverPicoSecondsBytes, DataValue.HasValue,
    DataValue.HasStatus, DataValue.HasSourceTimestamp, DataValue.HasSourcePicoSeconds,
    DataValue.HasServerTimestamp, DataValue.HasServerPicoSeconds]
theorem elementsWire_eq_flatten (c : Collab V T E) (enc : V → List Nat)
    (vs : List (DataValue V T)) :
    DataValueArray.elementsWire c enc vs = (vs.map (DataValue.wire c enc)).flatten := by
  induction vs with
  | nil => rfl
  | cons v rest ih => simp [DataValueArray.elementsWire, ih]

theorem forall₂_serialize_wire (c : Collab V T E) (enc : V → List Nat)
    (hw : c.VariantWrites enc) (vs : List (DataValue V T))
    (hv : ∀ v ∈ vs, v.HasValue = true → v.Value ≠ none) :
    List.Forall₂ (fun e p => e.Serialize c = .ok p) vs (vs.map (DataValue.wire c enc)) := by
  induction vs with
  | nil => exact List.Forall₂.nil
  | cons v rest ih =>
    exact List.Forall₂.cons
      (DataValue.serialize_eq_wire c enc hw v (hv v (List.mem_cons_self _ _)))
      (ih (fun x hx => hv x (List.mem_cons_of_mem _ hx)))

/-- C17 (amended): for every DataValueArray whose elements have a non-nil Value whenever
their Value bit is set (the Variant writing exactly its `Len()` bytes, `ArraySize` an
int32), also one whose stored `ArraySize` differs from the number of stored elements,
`Serialize` returns the 4-byte little-endian two's-complement encoding of the stored
`ArraySize` followed by the concatenation of `Serialize(e)` for each stored element in
order. -/
theorem array_serialize_is_count_then_elements (c : Collab V T E) (enc : V → List Nat)
    (hw : c.VariantWrites enc) (a : DataValueArray V T)
    (hv : ∀ v ∈ a.DataValues, v.HasValue = true → v.Value ≠ none)
    (hrange : -2147483648 ≤ a.ArraySize ∧ a.ArraySize < 2147483648) :
    ∃ parts, List.Forall₂ (fun e p => e.Serialize c = .ok p) a.DataValues parts ∧
      a.Serialize c = .ok (le32 (toUint32 a.ArraySize) ++ parts.flatten) ∧
      toUint32 a.ArraySize =
        (if 0 ≤ a.ArraySize then a.ArraySize.toNat else (a.ArraySize + 4294967296).toNat) := by
  refine ⟨a.DataValues.map (DataValue.wire c enc),
    forall₂_serialize_wire c enc hw a.DataValues hv, ?_, ?_⟩
  · rw [← elementsWire_eq_flatten]
    exact DataValueArray.serialize_eq c enc hw a hv
  · unfold toUint32
    split <;> omega

theorem array_serialize_is_count_then_elements_witness :
    ∃ parts, List.Forall₂ (fun e p => e.Serialize sampleCollab = .ok p)
        [sampleBare, sampleStatusOnly] parts ∧
      (⟨-1, [sampleBare, sampleStatusOnly]⟩ : DataValueArray _ _).Serialize sampleCollab =
        .ok (le32 (toUint32 (-1)) ++ parts.flatten) ∧
      toUint32 (-1) =
        (if (0 : Int) ≤ -1 then (-1 : Int).toNat else ((-1 : Int) + 4294967296).toNat) :=
  array_serialize_is_count_then_elements sampleCollab FloatVariant.encode
    sampleCollab_variantWrites ⟨-1, [sampleBare, sampleStatusOnly]⟩ (by decide) (by decide)

/-- C17 fails as stated for an array holding a record whose Value bit is set while its
Value is nil: the array with stored count 1 over that record has `Len()` 9, but the
record's `Serialize` ends in the nil dereference of the Variant's `SerializeTo`, and so
does the array's, so `Serialize` returns no count followed by elements. -/
theorem array_serialize_nil_value_counterexample :
    sampleNilValue.HasValue = true ∧ sampleNilValue.Value = none ∧
    (⟨1, [sampleNilValue]⟩ : DataValueArray FloatVariant
      (Fin 18446744073709551616)).Len sampleCollab = 9 ∧
    sampleNilValue.Serialize sampleCollab = .fault .nilDereference ∧
    (⟨1, [sampleNilValue]⟩ : DataValueArray FloatVariant
      (Fin 18446744073709551616)).Serialize sampleCollab = .fault .nilDereference ∧
    ¬ ∃ parts, List.Forall₂ (fun e p => e.Serialize sampleCollab = .ok p)
        [sampleNilValue] parts ∧
      (⟨1, [sampleNilValue]⟩ : DataValueArray FloatVariant
        (Fin 18446744073709551616)).Serialize sampleCollab =
        .ok (le32 (toUint32 1) ++ parts.flatten) := by
  have h : (⟨1, [sampleNilValue]⟩ : DataValueArray FloatVariant
      (Fin 18446744073709551616)).Serialize sampleCollab = .fault .nilDereference := by
    decide
  refine ⟨by decide, by decide, by decide, by decide, h, ?_⟩
  rintro ⟨parts, -, hs⟩
  rw [h] at hs
  cases hs

/-- C16: the reference fixture.  A DataValue with Value, SourceTimestamp and
ServerTimestamp present (Status and both picosecond fields absent and zero), whose Variant
encodes to `0a c9 02 20 40` and whose two timestamps encode to `80 3b e8 b3 92 4e d4 01`,
has `Len()` 22, serializes to `0d 0a c9 02 20 40` followed by the timestamp bytes twice,
decodes from those 22 bytes to the same record (mask `0x0d`), and an array of two such
records serializes to `02 00 00 00` followed by the 22 bytes twice, 48 bytes in all. -/
theorem reference_fixture_encoding (c : Collab V T E) (enc : V → List Nat)
    (hw : c.VariantWrites enc) (hr : c.VariantReads enc) (ht : c.TimestampRoundTrips)
    (v : V) (t1 t2 : T) (hv : enc v = [0x0a, 0xc9, 0x02, 0x20, 0x40])
    (h1 : le64 (c.TimestampTicks t1) = [0x80, 0x3b, 0xe8, 0xb3, 0x92, 0x4e, 0xd4, 0x01])
    (h2 : le64 (c.TimestampTicks t2) = [0x80, 0x3b, 0xe8, 0xb3, 0x92, 0x4e, 0xd4, 0x01]) :
    (NewDataValue true false true false true false (some v) 0 t1 0 t2 0 : DataValue V T).EncodingMask = 0x0d ∧
    (NewDataValue true false true false true false (some v) 0 t1 0 t2 0 : DataValue V T).Len c = 22 ∧
    (NewDataValue true false true false true false (some v) 0 t1 0 t2 0 : DataValue V T).Serialize c = .ok
      [0x0d, 0x0a, 0xc9, 0x02, 0x20, 0x40, 0x80, 0x3b, 0xe8, 0xb3, 0x92, 0x4e, 0xd4, 0x01, 0x80,
        0x3b, 0xe8, 0xb3, 0x92, 0x4e, 0xd4, 0x01] ∧
    DecodeDataValue c (Slice.ofBytes
      [0x0d, 0x0a, 0xc9, 0x02, 0x20, 0x40, 0x80, 0x3b, 0xe8, 0xb3, 0x92, 0x4e, 0xd4, 0x01, 0x80,
        0x3b, 0xe8, 0xb3, 0x92, 0x4e, 0xd4, 0x01]) = .ok (NewDataValue true false true false true false (some v) 0 t1 0 t2 0 : DataValue V T) ∧
    (NewDataValueArray (some [(NewDataValue true false true false true false (some v) 0 t1 0 t2 0 : DataValue V T),
      (NewDataValue true false true false true false (some v) 0 t1 0 t2 0 : DataValue V T)])).Serialize c = .ok ([0x02, 0x00, 0x00, 0x00] ++
      [0x0d, 0x0a, 0xc9, 0x02, 0x20, 0x40, 0x80, 0x3b, 0xe8, 0xb3, 0x92, 0x4e, 0xd4, 0x01, 0x80,
        0x3b, 0xe8, 0xb3, 0x92, 0x4e, 0xd4, 0x01] ++
      [0x0d, 0x0a, 0xc9, 0x02, 0x20, 0x40, 0x80, 0x3b, 0xe8, 0xb3, 0x92, 0x4e, 0xd4, 0x01, 0x80,
        0x3b, 0xe8, 0xb3, 0x92, 0x4e, 0xd4, 0x01]) ∧
    ([0x02, 0x00, 0x00, 0x00] ++
      [0x0d, 0x0a, 0xc9, 0x02, 0x20, 0x40, 0x80, 0x3b, 0xe8, 0xb3, 0x92, 0x4e, 0xd4, 0x01, 0x80,
        0x3b, 0xe8, 0xb3, 0x92, 0x4e, 0xd4, 0x01] ++
      [0x0d, 0x0a, 0xc9, 0x02, 0x20, 0x40, 0x80, 0x3b, 0xe8, 0xb3, 0x92, 0x4e, 0xd4, 0x01, 0x80,
        0x3b, 0xe8, 0xb3, 0x92, 0x4e, 0xd4, 0x01]).length = 48 := by
  rw [fixture_record_eq]
  have hwire := fixture_wire c enc v t1 t2
  rw [hv, h1, h2] at hwire
  simp only [List.cons_append, List.nil_append] at hwire
  have hval : (⟨0x0d, some v, 0, t1, 0, t2, 0⟩ : DataValue V T).HasValue = true →
      (⟨0x0d, some v, 0, t1, 0, t2, 0⟩ : DataValue V T).Value ≠ none := fun _ => by simp
  have hin : (⟨0x0d, some v, 0, t1, 0, t2, 0⟩ : DataValue V T).InRange := by
    simp [DataValue.InRange]
  obtain ⟨hs, hd⟩ := decodeDataValue_serialize c enc hw hr ht _ hval hin
  have hlen := DataValue.wire_length c enc hw (⟨0x0d, some v, 0, t1, 0, t2, 0⟩ : DataValue V T)
  have hover : (DataValue.zero c).overlay (⟨0x0d, some v, 0, t1, 0, t2, 0⟩ : DataValue V T) =
      ⟨0x0d, some v, 0, t1, 0, t2, 0⟩ := by
    simp [DataValue.overlay, DataValue.zero, DataValue.HasValue, DataValue.HasStatus,
      DataValue.HasSourceTimestamp, DataValue.HasSourcePicoSeconds,
      DataValue.HasServerTimestamp, DataValue.HasServerPicoSeconds]
  rw [hwire] at hs hd hlen
  rw [hover] at hd
  have harr := DataValueArray.serialize_eq c enc hw
    (NewDataValueArray (some [(⟨0x0d, some v, 0, t1, 0, t2, 0⟩ : DataValue V T),
      ⟨0x0d, some v, 0, t1, 0, t2, 0⟩]))
    (by rw [NewDataValueArray_some]; intro x _ _; simp_all)
  rw [NewDataValueArray_some] at harr ⊢
  have hcount : toUint32 (toInt32 2) = 2 := by decide
  simp only [List.length_cons, List.length_nil, Nat.zero_add, Nat.reduceAdd, hcount,
    DataValueArray.elementsWire, hwire, List.append_nil] at harr
  refine ⟨rfl, by rw [← hlen]; rfl, hs, hd, ?_, rfl⟩
  simp only [List.length_cons, List.length_nil, Nat.zero_add, Nat.reduceAdd]
  rw [harr]
  rfl

theorem reference_fixture_encoding_witness :
    sampleFixture.EncodingMask = 0x0d ∧
    sampleFixture.Len sampleCollab = 22 ∧
    sampleFixture.Serialize sampleCollab = .ok
      [0x0d, 0x0a, 0xc9, 0x02, 0x20, 0x40, 0x80, 0x3b, 0xe8, 0xb3, 0x92, 0x4e, 0xd4, 0x01, 0x80,
        0x3b, 0xe8, 0xb3, 0x92, 0x4e, 0xd4, 0x01] ∧
    DecodeDataValue sampleCollab (Slice.ofBytes
      [0x0d, 0x0a, 0xc9, 0x02, 0x20, 0x40, 0x80, 0x3b, 0xe8, 0xb3, 0x92, 0x4e, 0xd4, 0x01, 0x80,
        0x3b, 0xe8, 0xb3, 0x92, 0x4e, 0xd4, 0x01]) = .ok sampleFixture ∧
    (NewDataValueArray (some [sampleFixture, sampleFixture])).Serialize sampleCollab =
      .ok ([0x02, 0x00, 0x00, 0x00] ++
      [0x0d, 0x0a, 0xc9, 0x02, 0x20, 0x40, 0x80, 0x3b, 0xe8, 0xb3, 0x92, 0x4e, 0xd4, 0x01, 0x80,
        0x3b, 0xe8, 0xb3, 0x92, 0x4e, 0xd4, 0x01] ++
      [0x0d, 0x0a, 0xc9, 0x02, 0x20, 0x40, 0x80, 0x3b, 0xe8, 0xb3, 0x92, 0x4e, 0xd4, 0x01, 0x80,
        0x3b, 0xe8, 0xb3, 0x92, 0x4e, 0xd4, 0x01]) ∧
    ([0x02, 0x00, 0x00, 0x00] ++
      [0x0d, 0x0a, 0xc9, 0x02, 0x20, 0x40, 0x80, 0x3b, 0xe8, 0xb3, 0x92, 0x4e, 0xd4, 0x01, 0x80,
        0x3b, 0xe8, 0xb3, 0x92, 0x4e, 0xd4, 0x01] ++
      [0x0d, 0x0a, 0xc9, 0x02, 0x20, 0x40, 0x80, 0x3b, 0xe8, 0xb3, 0x92, 0x4e, 0xd4, 0x01, 0x80,
        0x3b, 0xe8, 0xb3, 0x92, 0x4e, 0xd4, 0x01]).length = 48 :=
  reference_fixture_encoding sampleCollab FloatVariant.encode sampleCollab_variantWrites
    sampleCollab_variantReads sampleCollab_timestampRoundTrips 1075839689
    131816681091120000 131816681091120000 (by decide) (by decide) (by decide)

end Gopcua

